import Mathlib

/-!
# kcov ELF parser: object scan, debug-info lookup, address translation

A shallow embedding of `src/parsers/elf-parser.cc` (class `Segment`, class
`ElfInstance`) together with the properties of the specification that concern
it.  Machine integers are natural numbers reduced modulo `2 ^ 64` or `2 ^ 32`
at every place where the C++ arithmetic is performed on `uint64_t` /
`uint32_t`; `size_t` and `unsigned long` are 64 bits wide and the host is
little-endian.  A result of type `Option` is `none` where the behaviour of the
C++ code is undefined or the process stops (a read outside a buffer, a null
pointer dereferenced, an exception that is not caught, `panic_if`).
-/

namespace Kcov

/-! ## Machine arithmetic -/

/-- Addition on `uint64_t`. -/
def u64add (a b : Nat) : Nat := (a + b) % 2 ^ 64

/-- Subtraction on `uint64_t`. -/
def u64sub (a b : Nat) : Nat := (a + (2 ^ 64 - b % 2 ^ 64)) % 2 ^ 64

/-- One octet (`unsigned char`). -/
abbrev Byte := Fin 256

/-! ## class Segment -/

/-- Holder class for address segments (`class Segment`): the optional byte copy,
the physical and the virtual base and the size. -/
structure Segment where
  m_data : Option (List Byte)
  m_paddr : Nat
  m_vaddr : Nat
  m_size : Nat
deriving DecidableEq

/-- Embeds `Segment::addressIsWithinSegment`:
`return addr >= m_paddr && addr < m_paddr + m_size;` with the sum taken on
`uint64_t`. -/
def Segment.addressIsWithinSegment (s : Segment) (addr : Nat) : Bool :=
  decide (addr ≥ s.m_paddr) && decide (addr < u64add s.m_paddr s.m_size)

/-- Embeds `Segment::adjustAddress`: `addr - m_paddr + m_vaddr` inside the segment,
`addr` itself outside. -/
def Segment.adjustAddress (s : Segment) (addr : Nat) : Nat :=
  if s.addressIsWithinSegment addr then u64add (u64sub addr s.m_paddr) s.m_vaddr
  else addr

/-- Embeds `Segment::getBase`: returns `m_vaddr`. -/
def Segment.getBase (s : Segment) : Nat := s.m_vaddr

/-- Embeds `Segment::getData`. -/
def Segment.getData (s : Segment) : Option (List Byte) := s.m_data

/-- Embeds `Segment::getSize`. -/
def Segment.getSize (s : Segment) : Nat := s.m_size

/-- Embeds `ElfInstance::adjustAddressBySegment`, as a function of `m_curSegments`: the
loop stops (`break`) at the first segment that contains the address. -/
def adjustAddressBySegment : List Segment → Nat → Nat
  | [], addr => addr
  | s :: rest, addr =>
    if s.addressIsWithinSegment addr then s.adjustAddress addr
    else adjustAddressBySegment rest addr

/-! ## CRC-32 of debug-link candidates -/

/-- The table `crc32_table` of `ElfInstance::debugLinkCrc32`, entry by entry. -/
def crc32_table : List Nat := [
  0x00000000, 0x77073096, 0xee0e612c, 0x990951ba, 0x076dc419, 0x706af48f,
  0xe963a535, 0x9e6495a3, 0x0edb8832, 0x79dcb8a4, 0xe0d5e91e, 0x97d2d988,
  0x09b64c2b, 0x7eb17cbd, 0xe7b82d07, 0x90bf1d91, 0x1db71064, 0x6ab020f2,
  0xf3b97148, 0x84be41de, 0x1adad47d, 0x6ddde4eb, 0xf4d4b551, 0x83d385c7,
  0x136c9856, 0x646ba8c0, 0xfd62f97a, 0x8a65c9ec, 0x14015c4f, 0x63066cd9,
  0xfa0f3d63, 0x8d080df5, 0x3b6e20c8, 0x4c69105e, 0xd56041e4, 0xa2677172,
  0x3c03e4d1, 0x4b04d447, 0xd20d85fd, 0xa50ab56b, 0x35b5a8fa, 0x42b2986c,
  0xdbbbc9d6, 0xacbcf940, 0x32d86ce3, 0x45df5c75, 0xdcd60dcf, 0xabd13d59,
  0x26d930ac, 0x51de003a, 0xc8d75180, 0xbfd06116, 0x21b4f4b5, 0x56b3c423,
  0xcfba9599, 0xb8bda50f, 0x2802b89e, 0x5f058808, 0xc60cd9b2, 0xb10be924,
  0x2f6f7c87, 0x58684c11, 0xc1611dab, 0xb6662d3d, 0x76dc4190, 0x01db7106,
  0x98d220bc, 0xefd5102a, 0x71b18589, 0x06b6b51f, 0x9fbfe4a5, 0xe8b8d433,
  0x7807c9a2, 0x0f00f934, 0x9609a88e, 0xe10e9818, 0x7f6a0dbb, 0x086d3d2d,
  0x91646c97, 0xe6635c01, 0x6b6b51f4, 0x1c6c6162, 0x856530d8, 0xf262004e,
  0x6c0695ed, 0x1b01a57b, 0x8208f4c1, 0xf50fc457, 0x65b0d9c6, 0x12b7e950,
  0x8bbeb8ea, 0xfcb9887c, 0x62dd1ddf, 0x15da2d49, 0x8cd37cf3, 0xfbd44c65,
  0x4db26158, 0x3ab551ce, 0xa3bc0074, 0xd4bb30e2, 0x4adfa541, 0x3dd895d7,
  0xa4d1c46d, 0xd3d6f4fb, 0x4369e96a, 0x346ed9fc, 0xad678846, 0xda60b8d0,
  0x44042d73, 0x33031de5, 0xaa0a4c5f, 0xdd0d7cc9, 0x5005713c, 0x270241aa,
  0xbe0b1010, 0xc90c2086, 0x5768b525, 0x206f85b3, 0xb966d409, 0xce61e49f,
  0x5edef90e, 0x29d9c998, 0xb0d09822, 0xc7d7a8b4, 0x59b33d17, 0x2eb40d81,
  0xb7bd5c3b, 0xc0ba6cad, 0xedb88320, 0x9abfb3b6, 0x03b6e20c, 0x74b1d29a,
  0xead54739, 0x9dd277af, 0x04db2615, 0x73dc1683, 0xe3630b12, 0x94643b84,
  0x0d6d6a3e, 0x7a6a5aa8, 0xe40ecf0b, 0x9309ff9d, 0x0a00ae27, 0x7d079eb1,
  0xf00f9344, 0x8708a3d2, 0x1e01f268, 0x6906c2fe, 0xf762575d, 0x806567cb,
  0x196c3671, 0x6e6b06e7, 0xfed41b76, 0x89d32be0, 0x10da7a5a, 0x67dd4acc,
  0xf9b9df6f, 0x8ebeeff9, 0x17b7be43, 0x60b08ed5, 0xd6d6a3e8, 0xa1d1937e,
  0x38d8c2c4, 0x4fdff252, 0xd1bb67f1, 0xa6bc5767, 0x3fb506dd, 0x48b2364b,
  0xd80d2bda, 0xaf0a1b4c, 0x36034af6, 0x41047a60, 0xdf60efc3, 0xa867df55,
  0x316e8eef, 0x4669be79, 0xcb61b38c, 0xbc66831a, 0x256fd2a0, 0x5268e236,
  0xcc0c7795, 0xbb0b4703, 0x220216b9, 0x5505262f, 0xc5ba3bbe, 0xb2bd0b28,
  0x2bb45a92, 0x5cb36a04, 0xc2d7ffa7, 0xb5d0cf31, 0x2cd99e8b, 0x5bdeae1d,
  0x9b64c2b0, 0xec63f226, 0x756aa39c, 0x026d930a, 0x9c0906a9, 0xeb0e363f,
  0x72076785, 0x05005713, 0x95bf4a82, 0xe2b87a14, 0x7bb12bae, 0x0cb61b38,
  0x92d28e9b, 0xe5d5be0d, 0x7cdcefb7, 0x0bdbdf21, 0x86d3d2d4, 0xf1d4e242,
  0x68ddb3f8, 0x1fda836e, 0x81be16cd, 0xf6b9265b, 0x6fb077e1, 0x18b74777,
  0x88085ae6, 0xff0f6a70, 0x66063bca, 0x11010b5c, 0x8f659eff, 0xf862ae69,
  0x616bffd3, 0x166ccf45, 0xa00ae278, 0xd70dd2ee, 0x4e048354, 0x3903b3c2,
  0xa7672661, 0xd06016f7, 0x4969474d, 0x3e6e77db, 0xaed16a4a, 0xd9d65adc,
  0x40df0b66, 0x37d83bf0, 0xa9bcae53, 0xdebb9ec5, 0x47b2cf7f, 0x30b5ffe9,
  0xbdbdf21c, 0xcabac28a, 0x53b39330, 0x24b4a3a6, 0xbad03605, 0xcdd70693,
  0x54de5729, 0x23d967bf, 0xb3667a2e, 0xc4614ab8, 0x5d681b02, 0x2a6f2b94,
  0xb40bbe37, 0xc30c8ea1, 0x5a05df1b, 0x2d02ef8d
]

/-- Body of the loop of `debugLinkCrc32`:
`crc = crc32_table[(crc ^ *buf) & 0xff] ^ (crc >> 8)`. -/
def crc32Update (crc : Nat) (b : Byte) : Nat :=
  crc32_table.getD ((crc ^^^ b.val) &&& 0xff) 0 ^^^ (crc >>> 8)

/-- Complement on `uint32_t`. -/
def u32not (x : Nat) : Nat := 2 ^ 32 - 1 - x % 2 ^ 32

/-- Embeds `ElfInstance::debugLinkCrc32 (crc, buf, len)`, with `buf[0 .. len)` given as
a list: `crc = ~crc & 0xffffffff`, the loop over the bytes, and
`return ~crc & 0xffffffff`. -/
def debugLinkCrc32 (crc : Nat) (buf : List Byte) : Nat :=
  u32not (buf.foldl crc32Update (u32not crc &&& 0xffffffff)) &&& 0xffffffff

/-- One shift / conditional-xor step of the reflected CRC-32 register with the
polynomial `0xEDB88320`. -/
def crcShiftStep (r : Nat) : Nat :=
  if r % 2 = 1 then (r / 2) ^^^ 0xEDB88320 else r / 2

/-- Reference CRC-32, one input bit: the register is shifted right and the
polynomial is xored in when the bit shifted out differs from the input bit. -/
def crcSpecBit (r bit : Nat) : Nat :=
  if (r + bit) % 2 = 1 then (r / 2) ^^^ 0xEDB88320 else r / 2

/-- Reference CRC-32: the `n` low bits of `b` are fed least-significant first. -/
def crcSpecBits : Nat → Nat → Nat → Nat
  | 0, r, _ => r
  | n + 1, r, b => crcSpecBits n (crcSpecBit r (b % 2)) (b / 2)

/-- Reference IEEE 802.3 CRC-32, bit by bit: register initialised to
`0xFFFFFFFF`, every byte fed least-significant bit first, final register
complemented. -/
def crc32Spec (buf : List Byte) : Nat :=
  (buf.foldl (fun r b => crcSpecBits 8 r b.val) 0xFFFFFFFF) ^^^ 0xFFFFFFFF

/-! ## External collaborators and the parser state -/

/-- One entry of a line table, as handed to `ILineListener::onLine`:
`(file, lineNr, addr)`. -/
structure LineEntry where
  file : String
  lineNr : Nat
  addr : Nat
deriving DecidableEq

/-- Embeds `struct phdr_data_segment`: one declared segment of a `phdr_data_entry`. -/
structure phdr_data_segment where
  paddr : Nat
  vaddr : Nat
  size : Nat
deriving DecidableEq

/-- The fields of an `Elf32_Shdr` / `Elf64_Shdr` that the parser reads. -/
structure Elf_Shdr where
  sh_type : Nat
  sh_addr : Nat
  sh_size : Nat
  sh_flags : Nat
  sh_name : Nat
  sh_offset : Nat
deriving DecidableEq

/-- One section (`Elf_Scn`) as libelf presents it: the header through
`elf32_getshdr` and through `elf64_getshdr` (`none` is a null pointer), the name
returned by `elf_strptr`, and the result of `elf_getdata` (`none` is a null
`Elf_Data`; otherwise its `d_buf`, a buffer of `d_size` bytes or null). -/
structure Elf_Scn where
  shdr32 : Option Elf_Shdr
  shdr64 : Option Elf_Shdr
  name : Option String
  data : Option (Option (List Byte))
deriving DecidableEq

/-- An ELF descriptor (`struct Elf`) as libelf presents it. -/
structure Elf where
  kind_none : Bool
  ident : Option (List Byte)
  e_type32 : Option Nat
  e_type64 : Option Nat
  checksum32 : Nat
  checksum64 : Nat
  shdrstrndx_ok : Bool
  sections : List Elf_Scn
deriving DecidableEq

/-- Embeds `IFileParser::File`. -/
structure File where
  m_filename : String
  m_checksum : Nat
  m_flags : Nat
deriving DecidableEq

/-- Embeds `IFileParser::FLG_NONE`. -/
def FLG_NONE : Nat := 0
/-- Embeds `IFileParser::FLG_TYPE_SOLIB`. -/
def FLG_TYPE_SOLIB : Nat := 1
/-- Embeds `IFileParser::FLG_TYPE_COVERAGE_DATA`. -/
def FLG_TYPE_COVERAGE_DATA : Nat := 2

/-- A registered listener object, identified by a number. -/
abbrev Listener := Nat

/-- One call `listener->onLine (file, lineNr, addr)`. -/
structure LineCall where
  listener : Listener
  file : String
  lineNr : Nat
  addr : Nat
deriving DecidableEq

/-- One call `listener->onFile (file)`. -/
structure FileCall where
  listener : Listener
  file : File
deriving DecidableEq

/-- One record of `GcnoParser::BasicBlockMapping`. -/
structure BasicBlockMapping where
  m_function : Nat
  m_basicBlock : Nat
  m_file : String
  m_line : Nat
  m_index : Nat
deriving DecidableEq

/-- Everything outside `elf-parser.cc` that the parser calls: configuration,
file system helpers of `utils`, libelf, the DWARF reader, the address verifier
and the checksum database.  Strings are C strings (no embedded NUL), so that
`c_str ()` and the `%s` of `fmt` leave them as they are. -/
structure Env where
  /-- Models `IConfiguration::keyAsInt`. -/
  keyAsInt : String → Int
  /-- Models `machine_is_64bit ()`. -/
  machine_is_64bit : Bool
  /-- Models `elf_version (EV_CURRENT) != EV_NONE`. -/
  elf_version_ok : Bool
  /-- Models `::open (path, O_RDONLY) >= 0`. -/
  open_ok : String → Bool
  /-- Models `lstat (path) >= 0`. -/
  lstat_ok : String → Bool
  /-- Models `file_exists`. -/
  file_exists : String → Bool
  /-- Models `read_file`: the content, or `none` for a null pointer. -/
  read_file : String → Option (List Byte)
  /-- Models `dirname` of libc. -/
  dirname : String → String
  /-- Models `get_real_path`. -/
  get_real_path : String → String
  /-- Models `elf_begin` on the opened file. -/
  elf_begin : String → Option Elf
  /-- Models `elf_memory` on the bytes that were read. -/
  elf_memory : List Byte → Option Elf
  /-- Models `DwarfParser::open` followed by `forEachLine`: `none` when the file
  cannot be opened as a debug-information source, otherwise its line entries. -/
  dwarf : String → Option (List LineEntry)
  /-- Models `IDatabaseReader::get`. -/
  database : Nat → List Nat
  /-- Models `IAddressVerifier::verify (data, size, offset)`, given the bytes last
  handed to `IAddressVerifier::setup`. -/
  verify : Option (List Byte) → Option (List Byte) → Nat → Nat → Bool
  /-- Models `GcnoParser (data, size)`, `parse ()` and `getBasicBlocks ()`: `none`
  when parsing fails, otherwise the basic blocks. -/
  gcnoParse : List Byte → Option (List BasicBlockMapping)
  /-- Models `gcovGetAddress (file, function, basicBlock, index)`. -/
  gcovGetAddress : String → Nat → Nat → Nat → Nat

/-- The members of `class ElfInstance`, followed by the calls it has made so
far on the registered listeners and the settings it has pushed to the
configuration and capability singletons. -/
structure ElfInstance where
  m_curSegments : List Segment
  m_executableSegments : List Segment
  m_gcnoFiles : List String
  /-- The bytes handed to `m_addressVerifier->setup`. -/
  m_addressVerifier : Option (List Byte)
  m_verifyAddresses : Bool
  m_elfIs32Bit : Bool
  m_elfIsShared : Bool
  m_lineListeners : List Listener
  m_fileListeners : List Listener
  m_filename : String
  m_buildId : String
  m_debuglink : String
  m_debuglinkCrc : Nat
  m_isMainFile : Bool
  m_checksum : Nat
  m_currentChecksum : Nat
  m_initialized : Bool
  m_relocation : Nat
  m_invalidBreakpoints : Nat
  /-- Models `m_filter->mangleSourcePath`; `none` is the null pointer. -/
  m_filter : Option (String → String)
  /-- Calls made on line listeners, oldest first. -/
  lineCalls : List LineCall
  /-- Calls made on file listeners, oldest first. -/
  fileCalls : List FileCall
  /-- Paths on which `DwarfParser::open` has been called, oldest first. -/
  dwarfOpens : List String
  /-- Status messages "kcov: %u invalid breakpoints skipped in %s", as the pair
  of the number and the file name printed, oldest first. -/
  statusLog : List (Nat × String)
  /-- Whether `running-mode` has been set to `MODE_COLLECT_ONLY`. -/
  collectOnly : Bool
  /-- The `handle-solibs` capability: added, removed, or not touched. -/
  handleSolibs : Option Bool

/-- The constructor `ElfInstance::ElfInstance ()`. -/
def ElfInstance.new : ElfInstance where
  m_curSegments := []
  m_executableSegments := []
  m_gcnoFiles := []
  m_addressVerifier := none
  m_verifyAddresses := false
  m_elfIs32Bit := true
  m_elfIsShared := false
  m_lineListeners := []
  m_fileListeners := []
  m_filename := ""
  m_buildId := ""
  m_debuglink := ""
  m_debuglinkCrc := 0
  m_isMainFile := true
  m_checksum := 0
  m_currentChecksum := 0
  m_initialized := false
  m_relocation := 0
  m_invalidBreakpoints := 0
  m_filter := none
  lineCalls := []
  fileCalls := []
  dwarfOpens := []
  statusLog := []
  collectOnly := false
  handleSolibs := none

/-- Embeds `ElfInstance::getChecksum`. -/
def getChecksum (st : ElfInstance) : Nat := st.m_checksum

/-- Embeds `ElfInstance::setupParser`. -/
def setupParser (st : ElfInstance) (filter : String → String) : ElfInstance :=
  { st with m_filter := some filter }

/-- Embeds `ElfInstance::registerLineListener`: `m_lineListeners.push_back`. -/
def registerLineListener (st : ElfInstance) (listener : Listener) : ElfInstance :=
  { st with m_lineListeners := st.m_lineListeners ++ [listener] }

/-- Embeds `ElfInstance::registerFileListener`: `m_fileListeners.push_back`. -/
def registerFileListener (st : ElfInstance) (listener : Listener) : ElfInstance :=
  { st with m_fileListeners := st.m_fileListeners ++ [listener] }

/-! ## Debug-link lookup -/

/-- Embeds `ElfInstance::tryDebugLink`: the empty string unless the file exists, can be
read and has the CRC recorded in `m_debuglinkCrc`. -/
def tryDebugLink (env : Env) (st : ElfInstance) (path : String) : String :=
  if !env.file_exists path then ""
  else
    match env.read_file path with
    | none => ""
    | some p =>
      let crc := debugLinkCrc32 0 p
      if crc ≠ st.m_debuglinkCrc then "" else path

/-- Embeds `ElfInstance::lookupDebuglinkFile`; `fmt ("%s/%s", a, b)` of `utils` is
taken to be the concatenation of `a`, `/` and `b`. -/
def lookupDebuglinkFile (env : Env) (st : ElfInstance) : String :=
  let filePath := env.dirname st.m_filename
  let debugPath := tryDebugLink env st (filePath ++ "/" ++ st.m_debuglink)
  if debugPath ≠ "" then debugPath
  else
    let debugPath := tryDebugLink env st (filePath ++ "/.debug/" ++ st.m_debuglink)
    if debugPath ≠ "" then debugPath
    else
      tryDebugLink env st
        ("/usr/lib/debug/" ++ env.get_real_path filePath ++ "/" ++ st.m_debuglink)

/-- The candidate locations of the specification, in order: the directory of
the binary, its `.debug` subdirectory, and the system debug-info root mirrored
under the real path of that directory. -/
def debugLinkCandidates (env : Env) (st : ElfInstance) : List String :=
  let D := env.dirname st.m_filename
  let N := st.m_debuglink
  [D ++ "/" ++ N, D ++ "/.debug/" ++ N, "/usr/lib/debug/" ++ env.get_real_path D ++ "/" ++ N]

/-- A candidate qualifies when its file exists, is readable and has the
expected CRC. -/
def candidateQualifies (env : Env) (st : ElfInstance) (path : String) : Bool :=
  env.file_exists path &&
    match env.read_file path with
    | none => false
    | some content => decide (debugLinkCrc32 0 content = st.m_debuglinkCrc)

/-! ## Validation and forwarding of line entries -/

/-- The loop of `ElfInstance::addressIsValid` from a given position of
`m_executableSegments`; returns the result and the updated counter. -/
def addressIsValidFrom (env : Env) (st : ElfInstance) :
    List Segment → Nat → Nat → Bool × Nat
  | [], _, invalidBreakpoints => (false, invalidBreakpoints)
  | it :: rest, addr, invalidBreakpoints =>
    if it.addressIsWithinSegment addr then
      if st.m_verifyAddresses then
        let offset := u64sub addr it.getBase
        let out := env.verify st.m_addressVerifier it.getData it.getSize offset
        if !out then (out, (invalidBreakpoints + 1) % 2 ^ 32)
        else (out, invalidBreakpoints)
      else (true, invalidBreakpoints)
    else addressIsValidFrom env st rest addr invalidBreakpoints

/-- Embeds `ElfInstance::addressIsValid (addr, invalidBreakpoints)`. -/
def addressIsValid (env : Env) (st : ElfInstance) (addr invalidBreakpoints : Nat) :
    Bool × Nat :=
  addressIsValidFrom env st st.m_executableSegments addr invalidBreakpoints

/-- The loop over `m_lineListeners` in `ElfInstance::onLine`. -/
def notifyLineListeners (calls : List LineCall) (rp : String) (lineNr addr : Nat) :
    List Listener → List LineCall
  | [] => calls
  | it :: rest => notifyLineListeners (calls ++ [⟨it, rp, lineNr, addr⟩]) rp lineNr addr rest

/-- Embeds `ElfInstance::onLine (file, lineNr, addr)`; `none` when `m_filter` is
dereferenced while null. -/
def onLine (env : Env) (st : ElfInstance) (file : String) (lineNr addr : Nat) :
    Option ElfInstance :=
  let r := addressIsValid env st addr st.m_invalidBreakpoints
  let st1 := { st with m_invalidBreakpoints := r.2 }
  if !r.1 then some st1
  else
    match st1.m_filter with
    | none => none
    | some mangleSourcePath =>
      let rp := mangleSourcePath file
      some { st1 with
        lineCalls := notifyLineListeners st1.lineCalls rp lineNr
          (u64add (adjustAddressBySegment st1.m_curSegments addr) st1.m_relocation)
          st1.m_lineListeners }

/-- The walk of `DwarfParser::forEachLine (*this)`: `onLine` for every entry of
the opened line table, in order. -/
def forEachLine (env : Env) : ElfInstance → List LineEntry → Option ElfInstance
  | st, [] => some st
  | st, e :: rest =>
    match onLine env st e.file e.lineNr e.addr with
    | none => none
    | some st1 => forEachLine env st1 rest

/-! ## Object scanner: constants and raw reads -/

/-- Section type `SHT_NOTE` of `elf.h`. -/
def SHT_NOTE : Nat := 7
/-- Section flag `SHF_ALLOC` of `elf.h`. -/
def SHF_ALLOC : Nat := 2
/-- Section flag `SHF_EXECINSTR` of `elf.h`. -/
def SHF_EXECINSTR : Nat := 4
/-- Note type `NT_GNU_BUILD_ID` of `elf.h`. -/
def NT_GNU_BUILD_ID : Nat := 3
/-- Object file type `ET_DYN` of `elf.h`. -/
def ET_DYN : Nat := 3
/-- Index `EI_CLASS` of `elf.h`. -/
def EI_CLASS : Nat := 4
/-- Size `EI_NIDENT` of `elf.h`. -/
def EI_NIDENT : Nat := 16
/-- File class `ELFCLASS32` of `elf.h`. -/
def ELFCLASS32 : Nat := 1
/-- Size of `Elf32_Nhdr`: three 32-bit words. -/
def sizeof_Elf32_Nhdr : Nat := 12
/-- Size of `Elf64_Nhdr`: three 32-bit words. -/
def sizeof_Elf64_Nhdr : Nat := 12

/-- The characters of a C string held in a `std::string`. -/
def bytesToString (l : List Byte) : String := String.mk (l.map (fun b => Char.ofNat b.val))

/-- The bytes of a string literal such as `".rodata"`, without the final NUL. -/
def stringToBytes (s : String) : List Byte := s.data.map (fun c => Fin.ofNat c.toNat)

/-- A 32-bit word read from a buffer in host byte order (little-endian);
`none` when the read leaves the buffer. -/
def readWord32 (buf : List Byte) (off : Nat) : Option Nat :=
  match buf[off]?, buf[off + 1]?, buf[off + 2]?, buf[off + 3]? with
  | some b0, some b1, some b2, some b3 =>
    some (b0.val + 256 * b1.val + 65536 * b2.val + 16777216 * b3.val)
  | _, _, _, _ => none

/-- Length `strlen (p)` of the C string that starts a buffer; `none` when no NUL
is met before the end of the buffer. -/
def strlen : List Byte → Option Nat
  | [] => none
  | b :: rest => if b = 0 then some 0 else (strlen rest).map (· + 1)

/-- Test `strcmp (buf + off, lit) == 0` for a literal without embedded NUL;
`none` when the comparison reads outside the buffer. -/
def strcmpEq (buf : List Byte) : Nat → List Byte → Option Bool
  | off, [] =>
    match buf[off]? with
    | none => none
    | some b => some (b == 0)
  | off, c :: rest =>
    match buf[off]? with
    | none => none
    | some b => if b ≠ c then some false else strcmpEq buf (off + 1) rest

/-- The constructor `Segment (data, paddr, vaddr, size)`; `data` is what can be
read from the pointer onwards, and `none` is returned when `memcpy` would read
more than that. -/
def Segment.create (data : Option (List Byte)) (paddr vaddr size : Nat) : Option Segment :=
  match data with
  | none => some ⟨none, paddr, vaddr, size⟩
  | some bytes =>
    if size ≤ bytes.length then some ⟨some (bytes.take size), paddr, vaddr, size⟩
    else none

/-! ## Object scanner: build-id note -/

/-- The string `hex_digits` of `parseOneElf`. -/
def hex_digits : List Char := "0123456789abcdef".data

/-- The character `hex_digits[i]`. -/
def hexDigit (i : Nat) : Char := hex_digits.getD i (Char.ofNat 0)

/-- The loop `for (i = 0; i < n_descsz; i++)` over `build_id`, which starts at
offset `base` of the section buffer: two `push_back` per byte. -/
def buildIdLoop (buf : List Byte) (base : Nat) : Nat → Nat → String → Option String
  | 0, _, m_buildId => some m_buildId
  | n + 1, i, m_buildId =>
    match buf[base + i]? with
    | none => none
    | some b =>
      buildIdLoop buf base n (i + 1)
        ((m_buildId.push (hexDigit ((b.val >>> 4) &&& 0xf))).push
          (hexDigit ((b.val >>> 0) &&& 0xf)))

/-- The block `if (sh_type == SHT_NOTE && data->d_buf)` of `parseOneElf` on the
section buffer: returns the new `m_buildId`. -/
def scanNote (m_elfIs32Bit : Bool) (buf : List Byte) (m_buildId : String) : Option String :=
  match readWord32 buf 0, readWord32 buf 4, readWord32 buf 8 with
  | some n_namesz, some n_descsz, some n_type =>
    let n_data := if m_elfIs32Bit then sizeof_Elf32_Nhdr else sizeof_Elf64_Nhdr
    match strcmpEq buf n_data (stringToBytes "GNU") with
    | none => none
    | some isGnu =>
      if isGnu && n_type == NT_GNU_BUILD_ID then
        buildIdLoop buf (n_data + n_namesz) n_descsz 0 m_buildId
      else some m_buildId
  | _, _, _ => none

/-- The four bytes of a 32-bit word in little-endian order. -/
def le32 (n : Nat) : List Byte :=
  [Fin.ofNat (n % 256), Fin.ofNat (n / 256 % 256), Fin.ofNat (n / 65536 % 256),
    Fin.ofNat (n / 16777216 % 256)]

/-- A GNU build-id note as laid out in the file: the header words `n_namesz =
4`, `n_descsz`, `n_type = NT_GNU_BUILD_ID`, the name `"GNU"` with its NUL, the
descriptor `d`, and whatever follows in the section. -/
def gnuBuildIdNote (d tail : List Byte) : List Byte :=
  le32 4 ++ le32 d.length ++ le32 NT_GNU_BUILD_ID ++ [0x47, 0x4e, 0x55, 0] ++ d ++ tail

/-- Whether a section buffer starts with a note named `"GNU"` of type
`NT_GNU_BUILD_ID`. -/
def startsWithBuildIdNote (buf : List Byte) : Bool :=
  strcmpEq buf 12 (stringToBytes "GNU") == some true &&
    readWord32 buf 8 == some NT_GNU_BUILD_ID

/-- Whether a section is a note section with data that start with a GNU
build-id note. -/
def holdsBuildIdNote (m_elfIs32Bit : Bool) (scn : Elf_Scn) : Bool :=
  match (if m_elfIs32Bit then scn.shdr32 else scn.shdr64), scn.data with
  | some shdr, some (some buf) => decide (shdr.sh_type = SHT_NOTE) && startsWithBuildIdNote buf
  | _, _ => false

/-- Lowercase hexadecimal rendering of a byte sequence: for every byte the digit
of its high nibble, then the digit of its low nibble. -/
def hexString (d : List Byte) : String :=
  String.mk (d.flatMap fun b => [hexDigit (b.val / 16), hexDigit (b.val % 16)])

/-- Value of a lowercase hexadecimal digit. -/
def hexValue (c : Char) : Option Nat :=
  if hex_digits.indexOf c < 16 then some (hex_digits.indexOf c) else none

/-- Decoding of a hexadecimal string, two digits per byte. -/
def hexDecode : List Char → Option (List Byte)
  | [] => some []
  | [_] => none
  | hi :: lo :: rest =>
    match hexValue hi, hexValue lo, hexDecode rest with
    | some h, some l, some bytes => some (Fin.ofNat (16 * h + l) :: bytes)
    | _, _, _ => none

/-- The build-id after the note block of the loop body, as a function of the
build-id before it. -/
def noteBuildId (m_elfIs32Bit : Bool) (shdr : Elf_Shdr) (d_buf : Option (List Byte))
    (m_buildId : String) : Option String :=
  match decide (shdr.sh_type = SHT_NOTE), d_buf with
  | true, some buf => scanNote m_elfIs32Bit buf m_buildId
  | _, _ => some m_buildId

/-! ## Object scanner: debug link -/

/-- Offset, from the start of the section, at which `parseOneElf` reads the
CRC of a debug link whose name has `n` characters: `addr = strlen (p) + 1` as
`unsigned long`, then `offs = 4 - (addr & 3)` when `addr & 3` is not zero. -/
def debuglinkCrcOffset (n : Nat) : Nat :=
  let addr := (n + 1) % 2 ^ 64
  let offs := if addr &&& 3 ≠ 0 then 4 - (addr &&& 3) else 0
  addr + offs

/-- The block `if (strcmp (name, ".gnu_debuglink") == 0)` of `parseOneElf`:
appends the name to `m_debuglink` and reads `m_debuglinkCrc`. -/
def scanDebuglink (d_buf : Option (List Byte)) (st : ElfInstance) : Option ElfInstance :=
  match d_buf with
  | none => none
  | some p =>
    match strlen p with
    | none => none
    | some n =>
      match readWord32 p (debuglinkCrcOffset n) with
      | none => none
      | some crc =>
        some { st with
          m_debuglink := st.m_debuglink ++ bytesToString (p.take n)
          m_debuglinkCrc := crc }

/-! ## Object scanner: coverage data names in `.rodata` -/

/-- The marker `"gcda\0"`. -/
def gcdaMarker : List Byte := [0x67, 0x63, 0x64, 0x61, 0]

/-- Test `memcmp (p, "gcda\0", 5) == 0` at offset `i`; `none` when the five
bytes are not all inside the buffer. -/
def markerAt (buf : List Byte) (i : Nat) : Option Bool :=
  if i + 5 ≤ buf.length then some (decide ((buf.drop i).take 5 = gcdaMarker)) else none

/-- The loop `while (gcda != dataPtr && *gcda != 0) gcda--`, on offsets. -/
def rewind (buf : List Byte) : Nat → Nat
  | 0 => 0
  | k + 1 => if buf[k + 1]? ≠ some 0 then rewind buf k else k + 1

/-- The loop over the file listeners that announces one coverage data file.  The
call in the source is `File (file, IFileParser::FLG_TYPE_COVERAGE_DATA)`, whose
second argument is the checksum parameter of the constructor. -/
def notifyGcdaFile (file : String) (calls : List FileCall) : List Listener → List FileCall
  | [] => calls
  | it :: rest =>
    notifyGcdaFile file (calls ++ [⟨it, ⟨file, FLG_TYPE_COVERAGE_DATA, FLG_NONE⟩⟩]) rest

/-- The loop `for (size_t i = 0; i < data->d_size - 5; i++)` of `parseOneElf`
with `todo` iterations left, on the state and the local list `gcdaFiles`. -/
def scanRodataLoop (buf : List Byte) :
    Nat → Nat → ElfInstance → List String → Option (ElfInstance × List String)
  | 0, _, st, gcdaFiles => some (st, gcdaFiles)
  | todo + 1, i, st, gcdaFiles =>
    match markerAt buf i with
    | none => none
    | some false => scanRodataLoop buf todo (i + 1) st gcdaFiles
    | some true =>
      let gcda := rewind buf i
      if gcda = 0 then scanRodataLoop buf todo (i + 1) st gcdaFiles
      else
        let file := bytesToString ((buf.drop (gcda + 1)).takeWhile (· ≠ 0))
        scanRodataLoop buf todo (i + 1)
          { st with fileCalls := notifyGcdaFile file st.fileCalls st.m_fileListeners }
          (gcdaFiles ++ [file])

/-- The scan of `.rodata`; the bound `data->d_size - 5` is computed on `size_t`. -/
def scanRodata (buf : List Byte) (st : ElfInstance) (gcdaFiles : List String) :
    Option (ElfInstance × List String) :=
  scanRodataLoop buf (u64sub buf.length 5) 0 st gcdaFiles

/-! ## Object scanner: the section loop -/

/-- Outcome of one pass through the body of the section loop: go on with the
next section, or leave through `goto out_elf_begin`. -/
inductive ScanStep where
  | next (st : ElfInstance) (gcdaFiles : List String)
  | abort (st : ElfInstance)

/-- First block of the loop body, `if (doScanForGcda && data->d_buf && strcmp
(name, ".rodata") == 0)`: the scan for coverage data names. -/
def scanSectionRodata (doScanForGcda : Bool) (name : Option String)
    (d_buf : Option (List Byte)) (st : ElfInstance) (gcdaFiles : List String) :
    Option (ElfInstance × List String) :=
  match doScanForGcda, d_buf with
  | true, some buf =>
    match name with
    | none => none
    | some name =>
      if name = ".rodata" then scanRodata buf st gcdaFiles else some (st, gcdaFiles)
  | _, _ => some (st, gcdaFiles)

/-- Second block of the loop body, `if (sh_type == SHT_NOTE && data->d_buf)`:
the build-id note. -/
def scanSectionNote (shdr : Elf_Shdr) (d_buf : Option (List Byte)) (st : ElfInstance) :
    Option ElfInstance :=
  match decide (shdr.sh_type = SHT_NOTE), d_buf with
  | true, some buf =>
    match scanNote st.m_elfIs32Bit buf st.m_buildId with
    | none => none
    | some buildId => some { st with m_buildId := buildId }
  | _, _ => some st

/-- Third block of the loop body, `if (strcmp (name, ".gnu_debuglink") == 0)`:
the debug link. -/
def scanSectionDebuglink (name : Option String) (d_buf : Option (List Byte))
    (st : ElfInstance) : Option ElfInstance :=
  match name with
  | none => none
  | some name => if name = ".gnu_debuglink" then scanDebuglink d_buf st else some st

/-- Last block of the loop body: sections without both `SHF_EXECINSTR` and
`SHF_ALLOC` are skipped (`continue`), the others become segments of
`m_executableSegments` and, when `setupSegments` holds, of `m_curSegments`. -/
def scanSectionSegment (fileData : List Byte) (setupSegments : Bool) (shdr : Elf_Shdr)
    (st : ElfInstance) : Option ElfInstance :=
  if shdr.sh_flags &&& (SHF_EXECINSTR ||| SHF_ALLOC) ≠ (SHF_EXECINSTR ||| SHF_ALLOC) then
    some st
  else
    match Segment.create (some (fileData.drop shdr.sh_offset))
        shdr.sh_addr shdr.sh_addr shdr.sh_size with
    | none => none
    | some seg =>
      -- If we have segments already, we can safely skip this
      let st1 :=
        if setupSegments then { st with m_curSegments := st.m_curSegments ++ [seg] }
        else st
      some { st1 with m_executableSegments := st1.m_executableSegments ++ [seg] }

/-- Body of the loop `while ((scn = elf_nextscn (m_elf, scn)) != NULL)` of
`parseOneElf` for one section; `none` when a null pointer is dereferenced or a
read leaves its buffer. -/
def scanSection (fileData : List Byte) (doScanForGcda setupSegments : Bool)
    (scn : Elf_Scn) (st : ElfInstance) (gcdaFiles : List String) : Option ScanStep :=
  match (if st.m_elfIs32Bit then scn.shdr32 else scn.shdr64) with
  | none => none
  | some shdr =>
    match scn.data with
    | none => some (.abort st)
    | some d_buf =>
      (scanSectionRodata doScanForGcda scn.name d_buf st gcdaFiles).bind fun r =>
      (scanSectionNote shdr d_buf r.1).bind fun st2 =>
      (scanSectionDebuglink scn.name d_buf st2).bind fun st3 =>
      (scanSectionSegment fileData setupSegments shdr st3).bind fun st4 =>
      some (.next st4 r.2)

/-- The section loop of `parseOneElf` over the sections still to visit. -/
def scanSections (fileData : List Byte) (doScanForGcda setupSegments : Bool) :
    List Elf_Scn → ElfInstance → List String → Option ScanStep
  | [], st, gcdaFiles => some (.next st gcdaFiles)
  | scn :: rest, st, gcdaFiles =>
    match scanSection fileData doScanForGcda setupSegments scn st gcdaFiles with
    | none => none
    | some (.abort st1) => some (.abort st1)
    | some (.next st1 gcdaFiles1) =>
      scanSections fileData doScanForGcda setupSegments rest st1 gcdaFiles1

/-- The name with `gcno[sz - 2] = (n)` and `gcno[sz - 1] = (o)`; `none` when the
name has fewer than two characters. -/
def gcnoName (gcda : String) : Option String :=
  if gcda.length < 2 then none
  else
    some (String.mk
      ((gcda.data.set (gcda.length - 2) (Char.ofNat 0x6e)).set (gcda.length - 1)
        (Char.ofNat 0x6f)))

/-- The loop over `gcdaFiles` at the end of `parseOneElf`. -/
def collectGcnoFiles (env : Env) : List String → ElfInstance → Option ElfInstance
  | [], st => some st
  | it :: rest, st =>
    match gcnoName it with
    | none => none
    | some gcno =>
      if env.file_exists gcno then
        collectGcnoFiles env rest { st with m_gcnoFiles := st.m_gcnoFiles ++ [gcno] }
      else collectGcnoFiles env rest st

/-- Embeds `ElfInstance::parseOneElf`: the returned flag and the new state; `none` when
the behaviour of the C++ code is undefined. -/
def parseOneElf (env : Env) (st : ElfInstance) : Option (Bool × ElfInstance) :=
  let doScanForGcda : Bool := env.keyAsInt "gcov" ≠ 0
  match env.read_file st.m_filename with
  | none => some (false, st)
  | some fileData =>
    match env.elf_memory fileData with
    | none => some (false, st)
    | some m_elf =>
      let st1 := { st with m_addressVerifier := some (fileData.take EI_NIDENT) }
      if !m_elf.shdrstrndx_ok then some (false, st1)
      else
        let setupSegments : Bool := st1.m_curSegments.length = 0
        match scanSections fileData doScanForGcda setupSegments m_elf.sections st1 [] with
        | none => none
        | some (.abort st2) => some (false, st2)
        | some (.next st2 gcdaFiles) =>
          -- If we have gcda files, try to find the corresponding gcno dittos
          match collectGcnoFiles env gcdaFiles st2 with
          | none => none
          | some st3 => some (true, st3)

/-! ## Adding a file -/

/-- Embeds `ElfInstance::checkFile`; `none` when a null ELF header is dereferenced. -/
def checkFile (env : Env) (st : ElfInstance) : Option (Bool × ElfInstance) :=
  if !env.open_ok st.m_filename then some (false, st)
  else
    match env.elf_begin st.m_filename with
    | none => some (false, st)
    | some elf =>
      let out : Bool := !elf.kind_none
      let main : Option ElfInstance :=
        if st.m_isMainFile then
          let st1 :=
            match elf.ident with
            | none => st
            | some raw =>
              match raw[EI_CLASS]? with
              | none => st
              | some cls =>
                let is32 : Bool := cls.val = ELFCLASS32
                { st with
                  m_elfIs32Bit := is32
                  handleSolibs := some (decide ((!is32) = env.machine_is_64bit)) }
          match (if st1.m_elfIs32Bit then elf.e_type32 else elf.e_type64) with
          | none => none
          | some e_type => some { st1 with m_elfIsShared := decide (e_type = ET_DYN) }
        else some st
      match main with
      | none => none
      | some st2 =>
        let cur := if st2.m_elfIs32Bit then elf.checksum32 else elf.checksum64
        let st3 := { st2 with m_currentChecksum := cur }
        let st4 := if st3.m_checksum = 0 then { st3 with m_checksum := st3.m_currentChecksum } else st3
        some (out, st4)

/-- The loop over `m_fileListeners` in `ElfInstance::addFile`. -/
def notifyFileListeners (file : File) (calls : List FileCall) : List Listener → List FileCall
  | [] => calls
  | it :: rest => notifyFileListeners file (calls ++ [⟨it, file⟩]) rest

/-- Embeds `ElfInstance::addFile (filename, data)`: `data` is `none` for a null
pointer and otherwise holds the first `n_segments` entries of `segments`;
`none` is returned when `panic_if` fires or the behaviour is undefined. -/
def addFile (env : Env) (st : ElfInstance) (filename : String)
    (data : Option (List phdr_data_segment)) : Option (Bool × ElfInstance) :=
  let init : Option ElfInstance :=
    if !st.m_initialized then
      if !env.elf_version_ok then none
      else some { st with
        m_verifyAddresses := decide (env.keyAsInt "verify" ≠ 0)
        m_initialized := true }
    else some st
  match init with
  | none => none
  | some st1 =>
    let st2 := { st1 with
      m_filename := filename
      m_buildId := ""
      m_debuglink := ""
      m_curSegments := (data.getD []).map (fun seg => ⟨none, seg.paddr, seg.vaddr, seg.size⟩)
      m_executableSegments := [] }
    match checkFile env st2 with
    | none => none
    | some (false, st3) => some (false, st3)
    | some (true, st3) =>
      -- Has debug symbols? Otherwise, only collect is possible
      let st4 := { st3 with dwarfOpens := st3.dwarfOpens ++ [filename] }
      let st5 :=
        if (env.dwarf filename).isNone && st4.m_isMainFile then { st4 with collectOnly := true }
        else st4
      some (true, { st5 with
        fileCalls := notifyFileListeners
          ⟨st5.m_filename, st5.m_currentChecksum,
            if st5.m_isMainFile then FLG_NONE else FLG_TYPE_SOLIB⟩
          st5.fileCalls st5.m_fileListeners })

/-! ## Choice of the debug-information source -/

/-- The method `std::string::substr (pos, n)`; `n = none` stands for `npos`, and
the result is `none` when `pos > size ()` (`std::out_of_range`). -/
def substr (s : String) (pos : Nat) (n : Option Nat) : Option String :=
  if pos > s.length then none
  else
    match n with
    | none => some (String.mk (s.data.drop pos))
    | some k => some (String.mk ((s.data.drop pos).take k))

/-- The local `debug_file` of `parseOneDwarf`: the build-id path. -/
def buildIdDebugFile (m_buildId : String) : Option String :=
  match substr m_buildId 0 (some 2), substr m_buildId 2 none with
  | some dir, some rest =>
    some ("/usr/lib/debug/.build-id/" ++ dir ++ "/" ++ rest ++ ".debug")
  | _, _ => none

/-- The reports of `parseOneDwarf` at the fallback: `onLine ("", 1, addr)` for
every address of the database entry. -/
def reportAddresses (env : Env) : ElfInstance → List Nat → Option ElfInstance
  | st, [] => some st
  | st, it :: rest =>
    match onLine env st "" 1 it with
    | none => none
    | some st1 => reportAddresses env st1 rest

/-- First fallback of `parseOneDwarf`, `if (!rv && m_buildId.length () > 0)`:
the build-id path is opened.  `dp` is the line table of the source opened so
far (`none` while `rv` is false). -/
def openByBuildId (env : Env) (st : ElfInstance) (dp : Option (List LineEntry)) :
    Option (Option (List LineEntry) × ElfInstance) :=
  if dp.isNone && decide (st.m_buildId.length > 0) then
    -- Look for separate debug info: build-ids
    match buildIdDebugFile st.m_buildId with
    | none => none
    | some debug_file =>
      some (env.dwarf debug_file, { st with dwarfOpens := st.dwarfOpens ++ [debug_file] })
  else some (dp, st)

/-- Second fallback of `parseOneDwarf`, `if (!rv && m_debuglink.length () > 0)`:
the debug-link file is looked up and opened. -/
def openByDebugLink (env : Env) (st : ElfInstance) (dp : Option (List LineEntry)) :
    Option (List LineEntry) × ElfInstance :=
  if dp.isNone && decide (st.m_debuglink.length > 0) then
    -- Look for separate debug info: debug-links
    let debugPath := lookupDebuglinkFile env st
    if decide (debugPath = "") && st.m_isMainFile then (dp, st)
    else (env.dwarf debugPath, { st with dwarfOpens := st.dwarfOpens ++ [debugPath] })
  else (dp, st)

/-- End of `parseOneDwarf`: the database fallback when no source was opened,
otherwise the walk over the line table and the status message, which prints
the local variable `invalidBreakpoints`. -/
def reportLines (env : Env) (st : ElfInstance) (invalidBreakpoints : Nat) :
    Option (List LineEntry) → Option (Bool × ElfInstance)
  | none =>
    let addrs := env.database st.m_currentChecksum
    if addrs.isEmpty && st.m_isMainFile then some (false, st)
    else
      -- Report all addresses (without file/line)
      match reportAddresses env st addrs with
      | none => none
      | some st1 => some (true, st1)
  | some lines =>
    -- Iterate over the headers
    match forEachLine env st lines with
    | none => none
    | some st1 =>
      if st1.m_invalidBreakpoints > 0 then
        some (true, { st1 with
          statusLog := st1.statusLog ++ [(invalidBreakpoints, st1.m_filename)] })
      else some (true, st1)

/-- Embeds `ElfInstance::parseOneDwarf (relocation)`: the returned flag and the new
state; `none` when an exception escapes or a null filter is dereferenced. -/
def parseOneDwarf (env : Env) (st : ElfInstance) (relocation : Nat) :
    Option (Bool × ElfInstance) :=
  let invalidBreakpoints : Nat := 0
  let st1 := { st with m_invalidBreakpoints := 0, m_relocation := relocation }
  -- bool rv = dp.open(m_filename)
  let dp0 := env.dwarf st1.m_filename
  let st2 := { st1 with dwarfOpens := st1.dwarfOpens ++ [st1.m_filename] }
  match openByBuildId env st2 dp0 with
  | none => none
  | some (dp1, st3) =>
    let link := openByDebugLink env st3 dp1
    reportLines env link.2 invalidBreakpoints link.1

/-! ## The public parse calls -/

/-- The loop over `m_lineListeners` for every basic block in `parseOneGcno`; the
listeners are called directly, with `gcovGetAddress (...) + relocation`. -/
def reportBasicBlocks (env : Env) (relocation : Nat) :
    ElfInstance → List BasicBlockMapping → ElfInstance
  | st, [] => st
  | st, cur :: rest =>
    reportBasicBlocks env relocation
      { st with
        lineCalls := notifyLineListeners st.lineCalls cur.m_file cur.m_line
          (u64add (env.gcovGetAddress cur.m_file cur.m_function cur.m_basicBlock cur.m_index)
            relocation)
          st.m_lineListeners }
      rest

/-- Embeds `ElfInstance::parseOneGcno (filename, relocation)`. -/
def parseOneGcno (env : Env) (st : ElfInstance) (filename : String) (relocation : Nat) :
    ElfInstance :=
  match env.read_file filename with
  | none => st
  | some data =>
    -- Parse this gcno file!
    match env.gcnoParse data with
    | none => st
    | some bbs => reportBasicBlocks env relocation st bbs

/-- The loop of `ElfInstance::parseGcnoFiles (relocation)` over the files still
to visit. -/
def parseGcnoFilesFrom (env : Env) (relocation : Nat) : ElfInstance → List String → ElfInstance
  | st, [] => st
  | st, cur :: rest => parseGcnoFilesFrom env relocation (parseOneGcno env st cur relocation) rest

/-- Embeds `ElfInstance::parseGcnoFiles (relocation)`. -/
def parseGcnoFiles (env : Env) (st : ElfInstance) (relocation : Nat) : ElfInstance :=
  parseGcnoFilesFrom env relocation st st.m_gcnoFiles

/-- Embeds `ElfInstance::doParse (relocation)`: the results of `parseOneElf` and of
`parseOneDwarf` are not looked at. -/
def doParse (env : Env) (st : ElfInstance) (relocation : Nat) : Option (Bool × ElfInstance) :=
  if !env.lstat_ok st.m_filename then some (false, st)
  else
    match parseOneElf env st with
    | none => none
    | some (_, st1) =>
      -- Gcov data?
      if decide (env.keyAsInt "gcov" ≠ 0) && !st1.m_gcnoFiles.isEmpty then
        some (true, parseGcnoFiles env st1 relocation)
      else
        match parseOneDwarf env st1 relocation with
        | none => none
        | some (_, st2) => some (true, st2)

/-- Embeds `ElfInstance::setMainFileRelocation (relocation)`; the warning for a
static executable with a relocation is not part of the state. -/
def setMainFileRelocation (env : Env) (st : ElfInstance) (relocation : Nat) :
    Option (Bool × ElfInstance) :=
  if st.m_elfIsShared then
    match doParse env st relocation with
    | none => none
    | some (false, st1) => some (false, st1)
    | some (true, st1) => some (true, st1)
  else some (true, st)

/-- Embeds `ElfInstance::parse ()`: the result of `setMainFileRelocation (0)` is
not looked at, and `m_isMainFile` is cleared at the end. -/
def parse (env : Env) (st : ElfInstance) : Option (Bool × ElfInstance) :=
  let r : Option (Bool × ElfInstance) :=
    -- should defer until setMainFileRelocation
    if st.m_isMainFile && st.m_elfIsShared then
      -- ... but this needs to be done if we don't have solibs
      if env.keyAsInt "parse-solibs" = 0 then
        match setMainFileRelocation env st 0 with
        | none => none
        | some (_, st1) => some (true, st1)
      else some (true, st)
    else doParse env st 0
  match r with
  | none => none
  | some (out, st1) => some (out, { st1 with m_isMainFile := false })

/-! ## Path filter (`filter.cc`) -/

/-- Whether `needle` occurs at the start of `hay`. -/
def beginsWith : List Char → List Char → Bool
  | _, [] => true
  | [], _ :: _ => false
  | h :: hay, n :: needle => h == n && beginsWith hay needle

/-- The search `std::string::find (needle)` from position `i` on, where `hay` is
what is left of the string from that position; `none` stands for `npos`. -/
def findFrom (needle : List Char) : List Char → Nat → Option Nat
  | [], i => if needle.isEmpty then some i else none
  | c :: rest, i => if beginsWith (c :: rest) needle then some i else findFrom needle rest (i + 1)

/-- The method `std::string::find (needle)`. -/
def find (hay needle : String) : Option Nat := findFrom needle.data hay.data 0

/-- The method `std::string::replace (pos, len, str)` for `pos ≤ size ()`. -/
def replace (s : String) (pos len : Nat) (str : String) : String :=
  String.mk (s.data.take pos ++ str.data ++ s.data.drop (pos + len))

/-- The members of `class Filter` that `mangleSourcePath` reads. -/
structure Filter where
  m_origRoot : String
  m_newRoot : String
deriving DecidableEq

/-- Embeds `DummyFilter::mangleSourcePath`. -/
def DummyFilter.mangleSourcePath (path : String) : String := path

/-- Embeds `Filter::mangleSourcePath`, with `get_real_path` of `utils` as a
parameter. -/
def Filter.mangleSourcePath (get_real_path : String → String) (f : Filter) (path : String) :
    String :=
  let filename := get_real_path path
  if f.m_origRoot.length > 0 ∧ f.m_newRoot.length > 0 then
    let path := filename
    match find path f.m_origRoot with
    | some index => get_real_path (replace path index f.m_origRoot.length f.m_newRoot)
    | none => filename
  else filename

/-! ## Reference descriptions used by the properties of the scanner -/

/-- Whether a flag word has one of the bits of `mask` set. -/
def hasFlag (flags mask : Nat) : Bool := flags &&& mask != 0

/-- The executable and loadable sections of a section table as segments, in
section order: physical and virtual base `sh_addr`, size `sh_size`, and the
`sh_size` bytes of the file from `sh_offset` on as byte copy. -/
def executableSegmentsOf (m_elfIs32Bit : Bool) (fileData : List Byte) :
    List Elf_Scn → List Segment
  | [] => []
  | scn :: rest =>
    match (if m_elfIs32Bit then scn.shdr32 else scn.shdr64) with
    | some shdr =>
      if hasFlag shdr.sh_flags SHF_EXECINSTR && hasFlag shdr.sh_flags SHF_ALLOC then
        ⟨some ((fileData.drop shdr.sh_offset).take shdr.sh_size), shdr.sh_addr, shdr.sh_addr,
          shdr.sh_size⟩ :: executableSegmentsOf m_elfIs32Bit fileData rest
      else executableSegmentsOf m_elfIs32Bit fileData rest
    | none => executableSegmentsOf m_elfIs32Bit fileData rest

/-! ## Sample environment -/

/-- An environment with the given files, in which every other collaborator
answers with its neutral value: no configuration key set, no ELF or DWARF
data, an empty database, a verifier that accepts, `dirname` that returns `/bin`
and `get_real_path` that returns its argument. -/
def sampleEnv (files : String → Option (List Byte)) : Env where
  keyAsInt := fun _ => 0
  machine_is_64bit := true
  elf_version_ok := true
  open_ok := fun p => (files p).isSome
  lstat_ok := fun p => (files p).isSome
  file_exists := fun p => (files p).isSome
  read_file := files
  dirname := fun _ => "/bin"
  get_real_path := fun p => p
  elf_begin := fun _ => none
  elf_memory := fun _ => none
  dwarf := fun _ => none
  database := fun _ => []
  verify := fun _ _ _ _ => true
  gcnoParse := fun _ => none
  gcovGetAddress := fun _ _ _ _ => 0

/-- A small 64-bit executable as libelf presents it: a `.text` section of four
bytes at `0x1000` and a note section with the GNU build-id `de ad be ef`. -/
def sampleElf : Elf where
  kind_none := false
  ident := some [0x7f, 0x45, 0x4c, 0x46, 2, 1, 1, 0, 0, 0, 0, 0, 0, 0, 0, 0]
  e_type32 := none
  e_type64 := some 2
  checksum32 := 0
  checksum64 := 0x1234
  shdrstrndx_ok := true
  sections := [
    { shdr32 := none
      shdr64 := some ⟨1, 0x1000, 4, 6, 0, 0⟩
      name := some ".text"
      data := some (some [0x7f, 0x45, 0x4c, 0x46]) },
    { shdr32 := none
      shdr64 := some ⟨7, 0, 20, 2, 0, 0⟩
      name := some ".note.gnu.build-id"
      data := some (some (gnuBuildIdNote [0xde, 0xad, 0xbe, 0xef] [])) } ]

/-- The same executable without its note section. -/
def sampleElfWithoutNote : Elf :=
  { sampleElf with sections := sampleElf.sections.take 1 }

/-- The bytes of the sample executable that the parser reads itself: the
identification bytes. -/
def sampleFileData : List Byte := [0x7f, 0x45, 0x4c, 0x46, 2, 1, 1, 0, 0, 0, 0, 0, 0, 0, 0, 0]

/-- An environment in which every path holds the sample bytes and libelf
presents them as the given descriptor. -/
def sampleElfEnv (elf : Elf) : Env :=
  { sampleEnv (fun _ => some sampleFileData) with
    elf_begin := fun _ => some elf
    elf_memory := fun _ => some elf }

/-- The parser after `addFile ("/bin/app")` on a new instance. -/
def sampleAdded (elf : Elf) : ElfInstance :=
  ((addFile (sampleElfEnv elf) ElfInstance.new "/bin/app" none).map Prod.snd).getD ElfInstance.new

/-- The parser after `addFile ("/bin/app")` and one `parseOneElf`. -/
def sampleScanned (elf : Elf) : ElfInstance :=
  ((parseOneElf (sampleElfEnv elf) (sampleAdded elf)).map Prod.snd).getD ElfInstance.new

/-- The sample executable as a position-independent one (`ET_DYN`). -/
def samplePieElf : Elf := { sampleElf with e_type64 := some ET_DYN }

/-- An environment around one ELF descriptor with the given configuration keys,
the given line table embedded in `/bin/app`, the given database entry for
every checksum, and a verifier that gives the given answer. -/
def scenarioEnv (elf : Elf) (keys : String → Int) (lines : Option (List LineEntry))
    (db : List Nat) (verifyAnswer : Bool) : Env :=
  { sampleElfEnv elf with
    keyAsInt := keys
    dwarf := fun p => if p = "/bin/app" then lines else none
    database := fun _ => db
    verify := fun _ _ _ _ => verifyAnswer }

/-- A new parser with the identity as path filter and one line listener. -/
def freshParser : ElfInstance :=
  registerLineListener (setupParser ElfInstance.new (fun path => path)) 0

/-- The calls made on line listeners at the end of a run, when it has an end. -/
def lineCallsOf (r : Option (Bool × ElfInstance)) : Option (List LineCall) :=
  r.map (fun p => p.2.lineCalls)

/-- The flag returned at the end of a run, when it has an end. -/
def resultOf (r : Option (Bool × ElfInstance)) : Option Bool :=
  r.map (fun p => p.1)

/-- Sequencing of two public calls: the second runs on the state left by the
first. -/
def andThen (r : Option (Bool × ElfInstance))
    (next : ElfInstance → Option (Bool × ElfInstance)) : Option (Bool × ElfInstance) :=
  match r with
  | none => none
  | some (_, st) => next st

/-- A value read off the state at the end of a run, when it has an end. -/
def after {α : Type} (r : Option (Bool × ElfInstance)) (f : ElfInstance → α) : Option α :=
  r.map (fun p => f p.2)

/-- An environment with two files: `/bin/app`, whose checksum is 0, and every
other path, whose checksum is 5. -/
def twoFileEnv : Env :=
  { sampleElfEnv sampleElf with
    elf_begin := fun p =>
      if p = "/bin/app" then some { sampleElf with checksum64 := 0 }
      else some { sampleElf with checksum64 := 5 } }

/-- The parser state of the end-to-end scenario of the specification: one
scanned executable segment `[0x1000, 0x1100)`, the declared segment
`{physical = 0x1000, virtual = 0x5000, size = 0x100}`, relocation `0`, two
registered line listeners and a filter that returns paths unchanged. -/
def scenarioState : ElfInstance :=
  { ElfInstance.new with
    m_executableSegments := [⟨some (List.replicate 0x100 0), 0x1000, 0x1000, 0x100⟩]
    m_curSegments := [⟨none, 0x1000, 0x5000, 0x100⟩]
    m_relocation := 0
    m_lineListeners := [0, 1]
    m_filter := some (fun path => path) }


/-- The listener calls expected for one line entry `(file, lineNr, addr)` in a
given parser state: one call per registration, in registration order, with the
mangled file name and the adjusted, relocated address, when `addressIsValid`
accepts the address; no call otherwise. -/
def callsFor (env : Env) (st : ElfInstance) (mangle : String → String)
    (file : String) (lineNr addr : Nat) : List LineCall :=
  if (addressIsValid env st addr 0).1 then
    st.m_lineListeners.map (fun it =>
      (⟨it, mangle file, lineNr,
        (adjustAddressBySegment st.m_curSegments addr + st.m_relocation) % 2 ^ 64⟩ : LineCall))
  else []

/-- The parser `freshParser` after `addFile ("/bin/app")` in a given environment. -/
def addedParser (env : Env) : ElfInstance :=
  ((addFile env freshParser "/bin/app" none).map Prod.snd).getD freshParser

/-- The parser `addedParser` after one `parseOneElf`. -/
def scannedParser (env : Env) : ElfInstance :=
  ((parseOneElf env (addedParser env)).map Prod.snd).getD freshParser

/-- The call `m_addressVerifier->verify (it->getData (), it->getSize (), offset)`
that the loop of `ElfInstance::addressIsValid` makes for an address, from a
given position of `m_executableSegments`: its arguments `(data, size, offset)`
with `offset = addr - it->getBase ()`, or `none` when the loop makes no call
(no segment contains the address, or `m_verifyAddresses` is off). -/
def verifierCallFrom (st : ElfInstance) :
    List Segment → Nat → Option (Option (List Byte) × Nat × Nat)
  | [], _ => none
  | it :: rest, addr =>
    if it.addressIsWithinSegment addr then
      if st.m_verifyAddresses then
        let offset := u64sub addr it.getBase
        some (it.getData, it.getSize, offset)
      else none
    else verifierCallFrom st rest addr

/-- The verifier call of `ElfInstance::addressIsValid (addr, ...)`, if any. -/
def verifierCall (st : ElfInstance) (addr : Nat) : Option (Option (List Byte) × Nat × Nat) :=
  verifierCallFrom st st.m_executableSegments addr

/-- Shape of the segments that `parseOneElf` builds with
`Segment seg (fileData + sh_offset, sh_addr, sh_addr, sh_size)`: the virtual
base is the physical base, and the byte copy, when there is one, has `m_size`
bytes. -/
def Segment.builtByScanner (s : Segment) : Bool :=
  decide (s.m_vaddr = s.m_paddr) &&
    (match s.m_data with
     | none => true
     | some bytes => decide (bytes.length = s.m_size))

/-- A GNU ABI-tag note as laid out in the file: the header words `n_namesz = 4`,
`n_descsz = 16`, `n_type = NT_GNU_ABI_TAG = 1`, the name `"GNU"` with its NUL,
and the descriptor (Linux, version 3.2.0). -/
def gnuAbiTagNote : List Byte :=
  le32 4 ++ le32 16 ++ le32 1 ++ [0x47, 0x4e, 0x55, 0] ++ le32 0 ++ le32 3 ++ le32 2 ++ le32 0

/-- The sample executable with one note section that holds two notes: the
ABI-tag note first, then the GNU build-id note `de ad be ef`. -/
def sampleElfTwoNotes : Elf :=
  { sampleElf with
    sections := sampleElf.sections.take 1 ++ [
      { shdr32 := none
        shdr64 := some ⟨7, 0, 52, 2, 0, 0⟩
        name := some ".note"
        data := some (some (gnuAbiTagNote ++ gnuBuildIdNote [0xde, 0xad, 0xbe, 0xef] [])) } ] }

/-- The parser state that `parseOneElf` leaves (the state itself when the
scan has no defined result). -/
def afterScan (env : Env) (st : ElfInstance) : ElfInstance :=
  ((parseOneElf env st).map Prod.snd).getD st

/-- The parser state that `setMainFileRelocation (relocation)` leaves (the
state itself when the call has no defined result). -/
def afterRelocation (env : Env) (st : ElfInstance) (relocation : Nat) : ElfInstance :=
  ((setMainFileRelocation env st relocation).map Prod.snd).getD st

/-- An environment around the position-independent sample binary, with
`parse-solibs` enabled, in which `/bin/app` holds no line table and the file on
the build-id path of `de ad be ef` holds the table `[("main.c", 1, 0x1000)]`. -/
def buildIdTableEnv : Env :=
  { scenarioEnv samplePieElf (fun k => if k = "parse-solibs" then 1 else 0) none [] true with
    dwarf := fun p =>
      if p = "/usr/lib/debug/.build-id/de/adbeef.debug" then some [⟨"main.c", 1, 0x1000⟩]
      else none }

/-- An environment around the position-independent sample binary, with
`parse-solibs` enabled, whose own line table has one entry inside the executable
segment `[0x1000, 0x1004)` and one outside. -/
def pieTableEnv : Env :=
  scenarioEnv samplePieElf (fun k => if k = "parse-solibs" then 1 else 0)
    (some [⟨"main.c", 1, 0x1000⟩, ⟨"main.c", 2, 0x2000⟩]) [] true

/-- The parser `freshParser` after `addFile ("/bin/app")` and `parse ()` in a
given environment. -/
def parsedParser (env : Env) : ElfInstance :=
  ((parse env (addedParser env)).map Prod.snd).getD freshParser
/-! ## Segment lemmas -/

/-- What the code accepts as contained is contained in the mathematical range. -/
theorem Segment.within_imp_range (s : Segment) (a : Nat)
    (h : s.addressIsWithinSegment a = true) :
    s.m_paddr ≤ a ∧ a < s.m_paddr + s.m_size := by
  simp only [Segment.addressIsWithinSegment, u64add, Bool.and_eq_true,
    decide_eq_true_eq] at h
  refine ⟨h.1, lt_of_lt_of_le h.2 (Nat.mod_le _ _)⟩

/-- When `m_paddr + m_size` does not wrap, the code's test is the range test. -/
theorem Segment.within_iff_of_nowrap (s : Segment) (a : Nat)
    (hs : s.m_paddr + s.m_size < 2 ^ 64) :
    s.addressIsWithinSegment a = true ↔ (s.m_paddr ≤ a ∧ a < s.m_paddr + s.m_size) := by
  simp only [Segment.addressIsWithinSegment, u64add, Bool.and_eq_true,
    decide_eq_true_eq, Nat.mod_eq_of_lt hs, ge_iff_le]

/-- The translation computed on `uint64_t` is `(a - p + v) mod 2 ^ 64` whenever
`p ≤ a` and `p` is a 64-bit value. -/
theorem u64_translate (a p v : Nat) (hp : p < 2 ^ 64) (hpa : p ≤ a) :
    u64add (u64sub a p) v = (a - p + v) % 2 ^ 64 := by
  unfold u64add u64sub
  rw [Nat.mod_eq_of_lt hp]
  have h1 : a + (2 ^ 64 - p) = (a - p) + 2 ^ 64 := by omega
  rw [h1, Nat.add_mod_right, Nat.mod_add_mod]

/-- No segment of the list accepts the address: the loop returns it unchanged. -/
theorem adjustAddressBySegment_none (segs : List Segment) (a : Nat)
    (h : ∀ T ∈ segs, T.addressIsWithinSegment a = false) :
    adjustAddressBySegment segs a = a := by
  induction segs with
  | nil => rfl
  | cons s rest ih =>
    have hs : s.addressIsWithinSegment a = false := h s (List.mem_cons_self _ _)
    have hr : ∀ T ∈ rest, T.addressIsWithinSegment a = false :=
      fun T hT => h T (List.mem_cons_of_mem _ hT)
    simp [adjustAddressBySegment, hs, ih hr]

/-- The loop returns the translation by the first accepting segment. -/
theorem adjustAddressBySegment_first (pre post : List Segment) (S : Segment) (a : Nat)
    (hpre : ∀ T ∈ pre, T.addressIsWithinSegment a = false)
    (hS : S.addressIsWithinSegment a = true) :
    adjustAddressBySegment (pre ++ S :: post) a = u64add (u64sub a S.m_paddr) S.m_vaddr := by
  induction pre with
  | nil => simp [adjustAddressBySegment, Segment.adjustAddress, hS]
  | cons s rest ih =>
    have hs : s.addressIsWithinSegment a = false := hpre s (List.mem_cons_self _ _)
    have hr : ∀ T ∈ rest, T.addressIsWithinSegment a = false :=
      fun T hT => hpre T (List.mem_cons_of_mem _ hT)
    simp [adjustAddressBySegment, hs, ih hr]

/-! ## C1: translation by the list of declared segments -/

/-- C1 (as stated, refuted): with two declared segments that both contain the
address `0x1010`, the second one being `{physical = 0x1000, virtual = 0x9000,
size = 0x100}`, `adjustAddressBySegment` returns `0x5010` (the translation of
the first segment) and not `0x1010 - 0x1000 + 0x9000`. -/
theorem C1_counterexample_overlapping_segments :
    let S1 : Segment := ⟨none, 0x1000, 0x5000, 0x100⟩
    let S2 : Segment := ⟨none, 0x1000, 0x9000, 0x100⟩
    S2 ∈ [S1, S2] ∧ S2.m_paddr ≤ 0x1010 ∧ 0x1010 < S2.m_paddr + S2.m_size ∧
      adjustAddressBySegment [S1, S2] 0x1010 = 0x5010 ∧
      adjustAddressBySegment [S1, S2] 0x1010 ≠ 0x1010 - S2.m_paddr + S2.m_vaddr := by
  decide

/-- C1 (amended): for every list of declared segments and every address `a`,
if `S` is the first segment of the list with `S.physical ≤ a < S.physical +
S.size` (and that sum fits in 64 bits), `adjustAddressBySegment a` returns
`(a - S.physical + S.virtual) mod 2 ^ 64`; and if `a` lies in no segment of the
list, `a` is returned unchanged. -/
theorem C1_adjustAddressBySegment_first_containing :
    (∀ (pre post : List Segment) (S : Segment) (a : Nat),
      (∀ T ∈ pre, ¬ (T.m_paddr ≤ a ∧ a < T.m_paddr + T.m_size)) →
      S.m_paddr + S.m_size < 2 ^ 64 →
      S.m_paddr ≤ a → a < S.m_paddr + S.m_size →
      adjustAddressBySegment (pre ++ S :: post) a
        = (a - S.m_paddr + S.m_vaddr) % 2 ^ 64) ∧
    (∀ (segs : List Segment) (a : Nat),
      (∀ T ∈ segs, ¬ (T.m_paddr ≤ a ∧ a < T.m_paddr + T.m_size)) →
      adjustAddressBySegment segs a = a) := by
  constructor
  · intro pre post S a hpre hwrap hlo hhi
    have hpre2 : ∀ T ∈ pre, T.addressIsWithinSegment a = false := by
      intro T hT
      cases hw : T.addressIsWithinSegment a with
      | false => rfl
      | true => exact absurd (T.within_imp_range a hw) (hpre T hT)
    have hS : S.addressIsWithinSegment a = true :=
      (S.within_iff_of_nowrap a hwrap).2 ⟨hlo, hhi⟩
    rw [adjustAddressBySegment_first pre post S a hpre2 hS]
    exact u64_translate a S.m_paddr S.m_vaddr (by omega) hlo
  · intro segs a h
    apply adjustAddressBySegment_none
    intro T hT
    cases hw : T.addressIsWithinSegment a with
    | false => rfl
    | true => exact absurd (T.within_imp_range a hw) (h T hT)

/-- Witness for C1 (amended): the spec's declared segment `{physical = 0x1000,
virtual = 0x5000, size = 0x100}` placed after a segment that does not contain
`0x1010`, and an address outside both. -/
theorem C1_adjustAddressBySegment_first_containing_witness :
    adjustAddressBySegment
        ([⟨none, 0x2000, 0x7000, 0x100⟩] ++ (⟨none, 0x1000, 0x5000, 0x100⟩ : Segment) :: [])
        0x1010 = (0x1010 - 0x1000 + 0x5000) % 2 ^ 64 ∧
    adjustAddressBySegment
        [⟨none, 0x2000, 0x7000, 0x100⟩, ⟨none, 0x1000, 0x5000, 0x100⟩] 0x3000 = 0x3000 :=
  ⟨C1_adjustAddressBySegment_first_containing.1 [⟨none, 0x2000, 0x7000, 0x100⟩] []
      ⟨none, 0x1000, 0x5000, 0x100⟩ 0x1010 (by decide) (by decide) (by decide) (by decide),
   C1_adjustAddressBySegment_first_containing.2
      [⟨none, 0x2000, 0x7000, 0x100⟩, ⟨none, 0x1000, 0x5000, 0x100⟩] 0x3000 (by decide)⟩

/-! ## C2: containment and translation of one segment -/

/-- C2 (code at the failing input): for the segment with physical base
`0xFFFFFFFFFFFFF000`, virtual base `0` and size `0x1000`, which ends exactly at
`2 ^ 64`, the address `0xFFFFFFFFFFFFF800` satisfies `p ≤ a < p + s` for the true
sum, yet `addressIsWithinSegment` is false and `adjustAddress` returns the
address unchanged instead of `(a - p + v) mod 2 ^ 64 = 0x800`. -/
theorem C2_top_of_address_space_not_contained :
    let S : Segment := ⟨none, 0xFFFFFFFFFFFFF000, 0, 0x1000⟩
    let a : Nat := 0xFFFFFFFFFFFFF800
    S.m_paddr < 2 ^ 64 ∧ S.m_vaddr < 2 ^ 64 ∧ S.m_size < 2 ^ 64 ∧ a < 2 ^ 64 ∧
      (S.m_paddr ≤ a ∧ a < S.m_paddr + S.m_size) ∧
      S.addressIsWithinSegment a = false ∧
      S.adjustAddress a = a ∧
      S.adjustAddress a ≠ (a - S.m_paddr + S.m_vaddr) % 2 ^ 64 := by
  decide

/-! ## CRC-32 lemmas -/

set_option maxRecDepth 100000 in
/-- Every table entry is eight shift steps applied to its index. -/
theorem crc32_table_eq_steps :
    ∀ i : Fin 256, crc32_table.getD i.val 0 = crcShiftStep^[8] i.val := by
  decide

theorem xor_xor_xor_cancel (a b c : Nat) : (a ^^^ c) ^^^ (b ^^^ c) = a ^^^ b := by
  apply Nat.eq_of_testBit_eq
  intro i
  simp only [Nat.testBit_xor]
  cases a.testBit i <;> cases b.testBit i <;> cases c.testBit i <;> rfl

theorem xor_right_swap (a b c : Nat) : (a ^^^ c) ^^^ b = (a ^^^ b) ^^^ c := by
  apply Nat.eq_of_testBit_eq
  intro i
  simp only [Nat.testBit_xor]
  cases a.testBit i <;> cases b.testBit i <;> cases c.testBit i <;> rfl

/-- The shift step is linear over xor. -/
theorem crcShiftStep_xor (x y : Nat) :
    crcShiftStep (x ^^^ y) = crcShiftStep x ^^^ crcShiftStep y := by
  unfold crcShiftStep
  rw [Nat.xor_div_two, Nat.xor_mod_two_eq]
  rcases Nat.mod_two_eq_zero_or_one x with hx | hx <;>
  rcases Nat.mod_two_eq_zero_or_one y with hy | hy
  · have : (x + y) % 2 = 0 := by omega
    simp [hx, hy, this]
  · have : (x + y) % 2 = 1 := by omega
    simp [hx, hy, this, Nat.xor_assoc]
  · have : (x + y) % 2 = 1 := by omega
    simp only [hx, hy, this, if_true, if_false]
    exact (xor_right_swap _ _ _).symm
  · have : (x + y) % 2 = 0 := by omega
    simp only [hx, hy, this, if_true, if_false]
    exact (xor_xor_xor_cancel _ _ _).symm

theorem crcShiftStep_iterate_xor (n : Nat) (x y : Nat) :
    crcShiftStep^[n] (x ^^^ y) = crcShiftStep^[n] x ^^^ crcShiftStep^[n] y := by
  induction n generalizing x y with
  | zero => rfl
  | succ n ih => simp only [Function.iterate_succ, Function.comp_apply, crcShiftStep_xor, ih]

/-- On a multiple of `2 ^ n` the first `n` steps are plain shifts. -/
theorem crcShiftStep_iterate_of_dvd (n : Nat) (x : Nat) (h : x % 2 ^ n = 0) :
    crcShiftStep^[n] x = x / 2 ^ n := by
  induction n generalizing x with
  | zero => simp
  | succ n ih =>
    have hd : 2 ^ (n + 1) ∣ x := Nat.dvd_of_mod_eq_zero h
    obtain ⟨k, hk⟩ := hd
    have hx : x = 2 * (2 ^ n * k) := by rw [hk, pow_succ]; ring
    have h2 : x % 2 = 0 := by omega
    have h3 : (x / 2) % 2 ^ n = 0 := by
      rw [hx, Nat.mul_div_cancel_left _ (by decide : 0 < 2)]
      simp
    rw [Function.iterate_succ, Function.comp_apply]
    have : crcShiftStep x = x / 2 := by simp [crcShiftStep, h2]
    rw [this, ih _ h3, Nat.div_div_eq_div_mul, pow_succ, mul_comm]

theorem split_low_high (n x : Nat) : x = (x % 2 ^ n) ^^^ (x / 2 ^ n * 2 ^ n) := by
  apply Nat.eq_of_testBit_eq
  intro i
  rw [Nat.testBit_xor, Nat.testBit_mod_two_pow, ← Nat.shiftLeft_eq, Nat.testBit_shiftLeft,
    ← Nat.shiftRight_eq_div_pow, Nat.testBit_shiftRight]
  by_cases h : i < n
  · have h2 : ¬ (i ≥ n) := by omega
    simp [h, h2]
  · have h2 : n ≤ i := by omega
    have h3 : n + (i - n) = i := by omega
    simp [h, h2, h3]

/-- The table-driven update is eight shift steps on `crc xor byte`. -/
theorem crc32Update_eq_steps (crc : Nat) (b : Byte) :
    crc32Update crc b = crcShiftStep^[8] (crc ^^^ b.val) := by
  have hb : b.val / 2 ^ 8 = 0 := Nat.div_eq_of_lt b.isLt
  have hidx : (crc ^^^ b.val) &&& 0xff = (crc ^^^ b.val) % 2 ^ 8 :=
    Nat.and_pow_two_sub_one_eq_mod _ 8
  have hlt : (crc ^^^ b.val) % 2 ^ 8 < 256 := Nat.mod_lt _ (by decide)
  have htab := crc32_table_eq_steps ⟨(crc ^^^ b.val) % 2 ^ 8, hlt⟩
  simp only at htab
  unfold crc32Update
  rw [hidx, htab, Nat.shiftRight_eq_div_pow]
  have hhigh : crcShiftStep^[8] ((crc ^^^ b.val) / 2 ^ 8 * 2 ^ 8) = crc / 2 ^ 8 := by
    rw [crcShiftStep_iterate_of_dvd 8 _ (Nat.mul_mod_left _ _),
      Nat.mul_div_cancel _ (by decide : 0 < 2 ^ 8)]
    have : (crc ^^^ b.val) / 2 ^ 8 = crc / 2 ^ 8 ^^^ b.val / 2 ^ 8 := by
      apply Nat.eq_of_testBit_eq
      intro i
      simp only [← Nat.shiftRight_eq_div_pow, Nat.testBit_xor, Nat.testBit_shiftRight]
    rw [this, hb, Nat.xor_zero]
  conv_rhs => rw [split_low_high 8 (crc ^^^ b.val)]
  rw [crcShiftStep_iterate_xor, hhigh]

/-- Feeding one bit is one shift step on the register xored with that bit. -/
theorem crcSpecBit_eq_step (r bit : Nat) (hbit : bit < 2) :
    crcSpecBit r bit = crcShiftStep (r ^^^ bit) := by
  have h1 : (r ^^^ bit) / 2 = r / 2 := by
    rw [Nat.xor_div_two, Nat.div_eq_of_lt hbit, Nat.xor_zero]
  simp only [crcSpecBit, crcShiftStep, Nat.xor_mod_two_eq, h1]

theorem crcShiftStep_double (k : Nat) : crcShiftStep (k * 2) = k := by
  simp [crcShiftStep]

/-- Feeding the `n` low bits of `b` one at a time is `n` shift steps on the
register xored with those bits. -/
theorem crcSpecBits_eq_steps (n r b : Nat) :
    crcSpecBits n r b = crcShiftStep^[n] (r ^^^ (b % 2 ^ n)) := by
  induction n generalizing r b with
  | zero => simp [crcSpecBits, Nat.mod_one]
  | succ n ih =>
    have hm0 : b % 2 ^ (n + 1) % 2 = b % 2 :=
      Nat.mod_mod_of_dvd b (Dvd.intro_left (2 ^ n) rfl)
    have hm1 : b % 2 ^ (n + 1) / 2 = b / 2 % 2 ^ n := by
      rw [pow_succ, mul_comm, Nat.mod_mul_right_div_self]
    have hsplit : b % 2 ^ (n + 1) = (b % 2) ^^^ (b / 2 % 2 ^ n * 2) := by
      have := split_low_high 1 (b % 2 ^ (n + 1))
      rw [pow_one, hm0, hm1] at this
      exact this
    rw [crcSpecBits, ih, crcSpecBit_eq_step r (b % 2) (Nat.mod_lt _ (by decide)),
      Function.iterate_succ, Function.comp_apply, hsplit, ← Nat.xor_assoc,
      crcShiftStep_xor (r ^^^ b % 2), crcShiftStep_double]

/-- The table-driven update of the code is the bit-serial update of the
reference. -/
theorem crc32Update_eq_spec (crc : Nat) (b : Byte) :
    crc32Update crc b = crcSpecBits 8 crc b.val := by
  have hb : b.val % 2 ^ 8 = b.val := Nat.mod_eq_of_lt b.isLt
  rw [crc32Update_eq_steps, crcSpecBits_eq_steps, hb]

theorem crcShiftStep_lt (x : Nat) (hx : x < 2 ^ 32) : crcShiftStep x < 2 ^ 32 := by
  have h1 : x / 2 < 2 ^ 32 := lt_of_le_of_lt (Nat.div_le_self _ _) hx
  unfold crcShiftStep
  split
  · exact Nat.xor_lt_two_pow h1 (by decide)
  · exact h1

theorem crcShiftStep_iterate_lt (n x : Nat) (hx : x < 2 ^ 32) :
    crcShiftStep^[n] x < 2 ^ 32 := by
  induction n generalizing x with
  | zero => exact hx
  | succ n ih =>
    rw [Function.iterate_succ, Function.comp_apply]
    exact ih _ (crcShiftStep_lt x hx)

theorem crc32Update_lt (crc : Nat) (b : Byte) (h : crc < 2 ^ 32) :
    crc32Update crc b < 2 ^ 32 := by
  rw [crc32Update_eq_steps]
  apply crcShiftStep_iterate_lt
  exact Nat.xor_lt_two_pow h (lt_trans b.isLt (by decide))

theorem crc32_foldl_lt (buf : List Byte) (crc : Nat) (h : crc < 2 ^ 32) :
    buf.foldl crc32Update crc < 2 ^ 32 := by
  induction buf generalizing crc with
  | nil => exact h
  | cons b rest ih => exact ih _ (crc32Update_lt crc b h)

/-- On a 32-bit value, `~x & 0xffffffff` is `x xor 0xFFFFFFFF`. -/
theorem u32not_and_eq_xor (x : Nat) (hx : x < 2 ^ 32) :
    u32not x &&& 0xffffffff = x ^^^ 0xFFFFFFFF := by
  have h1 : u32not x = 2 ^ 32 - (x + 1) := by
    unfold u32not
    rw [Nat.mod_eq_of_lt hx]
    omega
  have h2 : (0xffffffff : Nat) = 2 ^ 32 - 1 := by decide
  rw [h1, h2]
  apply Nat.eq_of_testBit_eq
  intro i
  rw [Nat.testBit_and, Nat.testBit_xor, Nat.testBit_two_pow_sub_succ hx,
    Nat.testBit_two_pow_sub_one]
  by_cases hi : i < 32
  · simp [hi]
  · have : x.testBit i = false :=
      Nat.testBit_lt_two_pow (lt_of_lt_of_le hx (Nat.pow_le_pow_right (by decide) (by omega)))
    simp [hi, this]

/-- The code's CRC and the bit-serial reference CRC agree on every buffer. -/
theorem debugLinkCrc32_eq_spec (buf : List Byte) :
    debugLinkCrc32 0 buf = crc32Spec buf := by
  have hinit : u32not 0 &&& 0xffffffff = 0xFFFFFFFF := by decide
  have hfun : crc32Update = fun r b => crcSpecBits 8 r b.val := by
    funext r b
    exact crc32Update_eq_spec r b
  unfold debugLinkCrc32 crc32Spec
  rw [hinit, u32not_and_eq_xor _ (crc32_foldl_lt buf _ (by decide)), hfun]

/-! ## C3: the table-driven CRC is the bit-serial IEEE 802.3 CRC-32 -/

set_option maxRecDepth 100000 in
/-- C3: for every byte sequence, `debugLinkCrc32 (0, buf, len)` equals the
IEEE 802.3 CRC-32 defined bit by bit (register initialised to `0xFFFFFFFF`,
bytes fed least-significant bit first with the reflected polynomial
`0xEDB88320`, final complement); each of the 256 entries of `crc32_table` is
eight shift / conditional-xor steps applied to its index; and the CRC of the
ASCII bytes of "123456789" is `0xCBF43926`. -/
theorem C3_debugLinkCrc32_is_ieee_crc32 :
    (∀ buf : List Byte, debugLinkCrc32 0 buf = crc32Spec buf) ∧
    (crc32_table.length = 256 ∧
      ∀ i : Fin 256, crc32_table.getD i.val 0 = crcShiftStep^[8] i.val) ∧
    debugLinkCrc32 0 [0x31, 0x32, 0x33, 0x34, 0x35, 0x36, 0x37, 0x38, 0x39] = 0xCBF43926 ∧
    crc32Spec [0x31, 0x32, 0x33, 0x34, 0x35, 0x36, 0x37, 0x38, 0x39] = 0xCBF43926 :=
  ⟨debugLinkCrc32_eq_spec, ⟨by decide, crc32_table_eq_steps⟩, by decide, by decide⟩

/-- Bit 31 of the polynomial decides the parity of the previous register: on
32-bit registers the shift step is injective. -/
theorem crcShiftStep_injective (x y : Nat) (hx : x < 2 ^ 32) (hy : y < 2 ^ 32)
    (h : crcShiftStep x = crcShiftStep y) : x = y := by
  have hx2 : x / 2 < 2 ^ 31 := by omega
  have hy2 : y / 2 < 2 ^ 31 := by omega
  have hbx : (x / 2).testBit 31 = false := Nat.testBit_lt_two_pow hx2
  have hby : (y / 2).testBit 31 = false := Nat.testBit_lt_two_pow hy2
  have hP : (0xEDB88320 : Nat).testBit 31 = true := by decide
  have hxP : ((x / 2) ^^^ 0xEDB88320).testBit 31 = true := by
    rw [Nat.testBit_xor, hbx, hP]; rfl
  have hyP : ((y / 2) ^^^ 0xEDB88320).testBit 31 = true := by
    rw [Nat.testBit_xor, hby, hP]; rfl
  unfold crcShiftStep at h
  rcases Nat.mod_two_eq_zero_or_one x with px | px <;>
  rcases Nat.mod_two_eq_zero_or_one y with py | py
  · simp only [px, py] at h
    have h2 : x / 2 = y / 2 := by simpa using h
    omega
  · simp only [px, py] at h
    have h2 : x / 2 = y / 2 ^^^ 0xEDB88320 := by simpa using h
    rw [← h2, hbx] at hyP
    exact absurd hyP (by decide)
  · simp only [px, py] at h
    have h2 : x / 2 ^^^ 0xEDB88320 = y / 2 := by simpa using h
    rw [h2, hby] at hxP
    exact absurd hxP (by decide)
  · simp only [px, py] at h
    have h2 : x / 2 ^^^ 0xEDB88320 = y / 2 ^^^ 0xEDB88320 := by simpa using h
    have h3 : x / 2 = y / 2 := Nat.xor_left_injective h2
    omega

theorem crcShiftStep_iterate_injective (n x y : Nat) (hx : x < 2 ^ 32) (hy : y < 2 ^ 32)
    (h : crcShiftStep^[n] x = crcShiftStep^[n] y) : x = y := by
  induction n generalizing x y with
  | zero => exact h
  | succ n ih =>
    simp only [Function.iterate_succ, Function.comp_apply] at h
    exact crcShiftStep_injective x y hx hy
      (ih _ _ (crcShiftStep_lt x hx) (crcShiftStep_lt y hy) h)

/-- For a fixed byte the update is injective in the 32-bit register. -/
theorem crc32Update_injective_state (c1 c2 : Nat) (b : Byte) (h1 : c1 < 2 ^ 32)
    (h2 : c2 < 2 ^ 32) (h : crc32Update c1 b = crc32Update c2 b) : c1 = c2 := by
  rw [crc32Update_eq_steps, crc32Update_eq_steps] at h
  have hb : b.val < 2 ^ 32 := lt_trans b.isLt (by decide)
  have := crcShiftStep_iterate_injective 8 _ _ (Nat.xor_lt_two_pow h1 hb)
    (Nat.xor_lt_two_pow h2 hb) h
  exact Nat.xor_left_injective this

/-- For a fixed 32-bit register the update is injective in the byte. -/
theorem crc32Update_injective_byte (c : Nat) (b1 b2 : Byte) (hc : c < 2 ^ 32)
    (h : crc32Update c b1 = crc32Update c b2) : b1 = b2 := by
  rw [crc32Update_eq_steps, crc32Update_eq_steps] at h
  have hb1 : b1.val < 2 ^ 32 := lt_trans b1.isLt (by decide)
  have hb2 : b2.val < 2 ^ 32 := lt_trans b2.isLt (by decide)
  have := crcShiftStep_iterate_injective 8 _ _ (Nat.xor_lt_two_pow hc hb1)
    (Nat.xor_lt_two_pow hc hb2) h
  exact Fin.ext (Nat.xor_right_injective this)

theorem crc32_foldl_injective (buf : List Byte) (c1 c2 : Nat) (h1 : c1 < 2 ^ 32)
    (h2 : c2 < 2 ^ 32) (h : buf.foldl crc32Update c1 = buf.foldl crc32Update c2) :
    c1 = c2 := by
  induction buf generalizing c1 c2 with
  | nil => exact h
  | cons b rest ih =>
    exact crc32Update_injective_state c1 c2 b h1 h2
      (ih _ _ (crc32Update_lt c1 b h1) (crc32Update_lt c2 b h2) h)

/-- Replacing one byte of a buffer changes its CRC, whatever the seed. -/
theorem debugLinkCrc32_replace_byte (crc : Nat) (pre post : List Byte) (b1 b2 : Byte)
    (hne : b1 ≠ b2) :
    debugLinkCrc32 crc (pre ++ b1 :: post) ≠ debugLinkCrc32 crc (pre ++ b2 :: post) := by
  intro h
  unfold debugLinkCrc32 at h
  have h0 : u32not crc &&& 0xffffffff < 2 ^ 32 := Nat.and_lt_two_pow _ (by decide)
  have hl1 := crc32_foldl_lt (pre ++ b1 :: post) _ h0
  have hl2 := crc32_foldl_lt (pre ++ b2 :: post) _ h0
  rw [u32not_and_eq_xor _ hl1, u32not_and_eq_xor _ hl2] at h
  have h3 := Nat.xor_left_injective h
  simp only [List.foldl_append, List.foldl_cons] at h3
  have hp := crc32_foldl_lt pre _ h0
  have h4 := crc32_foldl_injective post _ _ (crc32Update_lt _ b1 hp)
    (crc32Update_lt _ b2 hp) h3
  exact hne (crc32Update_injective_byte _ b1 b2 hp h4)

/-- Two lists of equal length that differ at exactly one position share the
part before and the part after that position. -/
theorem exists_split_of_single_difference {α : Type} (l1 l2 : List α) (i : Nat)
    (hlen : l1.length = l2.length) (hdiff : l1[i]? ≠ l2[i]?)
    (hsame : ∀ j, j ≠ i → l1[j]? = l2[j]?) :
    ∃ pre post b1 b2, l1 = pre ++ b1 :: post ∧ l2 = pre ++ b2 :: post ∧ b1 ≠ b2 := by
  induction l1 generalizing l2 i with
  | nil =>
    cases l2 with
    | nil => exact absurd rfl hdiff
    | cons y ys => simp at hlen
  | cons x xs ih =>
    cases l2 with
    | nil => simp at hlen
    | cons y ys =>
      cases i with
      | zero =>
        refine ⟨[], xs, x, y, rfl, ?_, ?_⟩
        · have : xs = ys := by
            apply List.ext_getElem?
            intro j
            have := hsame (j + 1) (by omega)
            simpa using this
          rw [this]; rfl
        · intro hxy
          apply hdiff
          simp [hxy]
      | succ k =>
        have hxy : x = y := by
          have := hsame 0 (by omega)
          simpa using this
        have hlen2 : xs.length = ys.length := by simpa using hlen
        have hdiff2 : xs[k]? ≠ ys[k]? := by simpa using hdiff
        have hsame2 : ∀ j, j ≠ k → xs[j]? = ys[j]? := by
          intro j hj
          have := hsame (j + 1) (by omega)
          simpa using this
        obtain ⟨pre, post, b1, b2, e1, e2, hne⟩ := ih ys k hlen2 hdiff2 hsame2
        exact ⟨x :: pre, post, b1, b2, by rw [e1]; rfl, by rw [e2, hxy]; rfl, hne⟩

/-! ## C4: a one-byte mutation of an accepted candidate is rejected -/

/-- C4: let `buf` be a file content whose CRC equals the expected debug-link
CRC `m_debuglinkCrc`, and let `buf2` have the same length and differ from `buf`
in exactly one byte (position `i`).  Then `debugLinkCrc32 (0, buf2)` differs
from the expected CRC, and `tryDebugLink` on a path whose content is `buf2`
returns the empty string, not the path. -/
theorem C4_single_byte_mutation_rejected (env : Env) (st : ElfInstance) (path : String)
    (buf buf2 : List Byte) (i : Nat)
    (hcrc : debugLinkCrc32 0 buf = st.m_debuglinkCrc)
    (hlen : buf2.length = buf.length)
    (hdiff : buf2[i]? ≠ buf[i]?)
    (hsame : ∀ j, j ≠ i → buf2[j]? = buf[j]?)
    (hread : env.read_file path = some buf2) :
    debugLinkCrc32 0 buf2 ≠ st.m_debuglinkCrc ∧ tryDebugLink env st path = "" := by
  obtain ⟨pre, post, b2, b1, e2, e1, hne⟩ :=
    exists_split_of_single_difference buf2 buf i hlen hdiff hsame
  have hcrc2 : debugLinkCrc32 0 buf2 ≠ st.m_debuglinkCrc := by
    rw [← hcrc, e1, e2]
    exact debugLinkCrc32_replace_byte 0 pre post b2 b1 hne
  refine ⟨hcrc2, ?_⟩
  unfold tryDebugLink
  split
  · rfl
  · simp [hread, hcrc2]

/-- Witness for C4: the one-byte file "a" is accepted with its own CRC, and the
one-byte file "b" in its place is rejected. -/
theorem C4_single_byte_mutation_rejected_witness :
    debugLinkCrc32 0 [0x62] ≠ ({ ElfInstance.new with m_debuglinkCrc := 0xE8B7BE43 }).m_debuglinkCrc ∧
    tryDebugLink (sampleEnv (fun p => if p = "/bin/app.debug" then some [0x62] else none))
      { ElfInstance.new with m_debuglinkCrc := 0xE8B7BE43 } "/bin/app.debug" = "" :=
  C4_single_byte_mutation_rejected
    (sampleEnv (fun p => if p = "/bin/app.debug" then some [0x62] else none))
    { ElfInstance.new with m_debuglinkCrc := 0xE8B7BE43 } "/bin/app.debug" [0x61] [0x62] 0
    (by decide) (by decide) (by decide)
    (by intro j hj; cases j with
      | zero => exact absurd rfl hj
      | succ k => rfl)
    (by decide)

/-! ## C5: order of the debug-link candidates -/

/-- Acceptance test of `tryDebugLink` in closed form. -/
theorem tryDebugLink_eq (env : Env) (st : ElfInstance) (path : String) :
    tryDebugLink env st path = if candidateQualifies env st path then path else "" := by
  unfold tryDebugLink candidateQualifies
  cases hE : env.file_exists path <;> cases hR : env.read_file path <;> simp

theorem path_with_slash_ne_empty (a b c : String) (hb : b.length ≠ 0) :
    a ++ b ++ c ≠ "" := by
  intro h
  have := congrArg String.length h
  simp at this
  exact hb this.1.2

/-- C5: `lookupDebuglinkFile` returns the first path of the ordered list
`[D/N, D/.debug/N, /usr/lib/debug/<realpath (D)>/N]` (with `D` the directory of
the binary and `N` the debug-link name) whose file exists, is readable and has
`debugLinkCrc32 (0, content)` equal to the expected CRC, and the empty string
when no candidate qualifies; a candidate that does not qualify is skipped and
the next one is still tried. -/
theorem C5_lookupDebuglinkFile_first_qualifying (env : Env) (st : ElfInstance) :
    lookupDebuglinkFile env st
      = ((debugLinkCandidates env st).find? (candidateQualifies env st)).getD "" := by
  unfold lookupDebuglinkFile debugLinkCandidates
  simp only [tryDebugLink_eq, List.find?_cons, List.find?_nil]
  have h1 : env.dirname st.m_filename ++ "/" ++ st.m_debuglink ≠ "" :=
    path_with_slash_ne_empty _ _ _ (by decide)
  have h2 : env.dirname st.m_filename ++ "/.debug/" ++ st.m_debuglink ≠ "" :=
    path_with_slash_ne_empty _ _ _ (by decide)
  cases hq1 : candidateQualifies env st (env.dirname st.m_filename ++ "/" ++ st.m_debuglink)
  · cases hq2 : candidateQualifies env st
        (env.dirname st.m_filename ++ "/.debug/" ++ st.m_debuglink)
    · cases hq3 : candidateQualifies env st
        ("/usr/lib/debug/" ++ env.get_real_path (env.dirname st.m_filename) ++ "/"
          ++ st.m_debuglink) <;> simp
    · simp [h2]
  · simp [h1]

/-! ## Lemmas on validation and forwarding -/

theorem addressIsValidFrom_outside (env : Env) (st : ElfInstance) (segs : List Segment)
    (addr ib : Nat) (h : ∀ seg ∈ segs, seg.addressIsWithinSegment addr = false) :
    addressIsValidFrom env st segs addr ib = (false, ib) := by
  induction segs with
  | nil => rfl
  | cons s rest ih =>
    have hs : s.addressIsWithinSegment addr = false := h s (List.mem_cons_self _ _)
    have hr : ∀ seg ∈ rest, seg.addressIsWithinSegment addr = false :=
      fun T hT => h T (List.mem_cons_of_mem _ hT)
    simp [addressIsValidFrom, hs, ih hr]

/-- An accepted address leaves the counter of invalid breakpoints as it was. -/
theorem addressIsValidFrom_true_counter (env : Env) (st : ElfInstance) (segs : List Segment)
    (addr ib : Nat) (h : (addressIsValidFrom env st segs addr ib).1 = true) :
    (addressIsValidFrom env st segs addr ib).2 = ib := by
  induction segs with
  | nil => simp [addressIsValidFrom] at h
  | cons s rest ih =>
    unfold addressIsValidFrom at h ⊢
    by_cases hs : s.addressIsWithinSegment addr = true
    · simp only [hs, if_true] at h ⊢
      by_cases hv : st.m_verifyAddresses = true
      · simp only [hv, if_true] at h ⊢
        cases hout : env.verify st.m_addressVerifier s.getData s.getSize (u64sub addr s.getBase)
        · simp [hout] at h
        · simp
      · simp [hv]
    · simp only [hs] at h ⊢
      exact ih h

/-- The loop over the listeners appends one call per registration, in order. -/
theorem notifyLineListeners_eq (calls : List LineCall) (rp : String) (lineNr addr : Nat)
    (ls : List Listener) :
    notifyLineListeners calls rp lineNr addr ls
      = calls ++ ls.map (fun it => (⟨it, rp, lineNr, addr⟩ : LineCall)) := by
  induction ls generalizing calls with
  | nil => simp [notifyLineListeners]
  | cons l rest ih => simp [notifyLineListeners, ih]

/-- A rejected entry leaves the calls made on the listeners as they were. -/
theorem onLine_outside (env : Env) (st : ElfInstance) (file : String) (lineNr addr : Nat)
    (h : ∀ seg ∈ st.m_executableSegments, seg.addressIsWithinSegment addr = false) :
    onLine env st file lineNr addr = some st := by
  unfold onLine addressIsValid
  rw [addressIsValidFrom_outside env st _ addr _ h]
  rfl

/-- An accepted entry is forwarded to every registration. -/
theorem onLine_valid (env : Env) (st : ElfInstance) (file : String) (lineNr addr : Nat)
    (mangle : String → String) (hf : st.m_filter = some mangle)
    (hv : (addressIsValid env st addr st.m_invalidBreakpoints).1 = true) :
    onLine env st file lineNr addr = some { st with
      lineCalls := st.lineCalls ++ st.m_lineListeners.map (fun it =>
        (⟨it, mangle file, lineNr,
          (adjustAddressBySegment st.m_curSegments addr + st.m_relocation) % 2 ^ 64⟩ : LineCall)) } := by
  have hc : (addressIsValid env st addr st.m_invalidBreakpoints).2 = st.m_invalidBreakpoints :=
    addressIsValidFrom_true_counter env st _ addr _ hv
  unfold onLine
  simp only [hv, hc, hf, notifyLineListeners_eq, u64add]
  rfl

/-! ## C9: entries outside the executable segments are dropped -/

/-- C9: whatever the declared segments, the relocation and the verification
setting are, a line entry `(file, line, addr)` whose address is contained in
none of the scanned executable segments (`m_executableSegments`) leaves the
parser as it was: `onLine` returns with the list of listener calls unchanged,
so no registered line listener is invoked.  The first half takes containment
as `addressIsWithinSegment`, the second as `physical ≤ addr < physical + size`. -/
theorem C9_onLine_outside_executable_segments :
    (∀ (env : Env) (st : ElfInstance) (file : String) (lineNr addr : Nat),
      (∀ seg ∈ st.m_executableSegments, seg.addressIsWithinSegment addr = false) →
      onLine env st file lineNr addr = some st ∧
        ∀ st1, onLine env st file lineNr addr = some st1 → st1.lineCalls = st.lineCalls) ∧
    (∀ (env : Env) (st : ElfInstance) (file : String) (lineNr addr : Nat),
      (∀ seg ∈ st.m_executableSegments,
        ¬ (seg.m_paddr ≤ addr ∧ addr < seg.m_paddr + seg.m_size)) →
      onLine env st file lineNr addr = some st ∧
        ∀ st1, onLine env st file lineNr addr = some st1 → st1.lineCalls = st.lineCalls) := by
  have key : ∀ (env : Env) (st : ElfInstance) (file : String) (lineNr addr : Nat),
      (∀ seg ∈ st.m_executableSegments, seg.addressIsWithinSegment addr = false) →
      onLine env st file lineNr addr = some st ∧
        ∀ st1, onLine env st file lineNr addr = some st1 → st1.lineCalls = st.lineCalls := by
    intro env st file lineNr addr h
    have h1 := onLine_outside env st file lineNr addr h
    refine ⟨h1, ?_⟩
    intro st1 h2
    rw [h1] at h2
    cases h2
    rfl
  refine ⟨key, ?_⟩
  intro env st file lineNr addr h
  apply key
  intro seg hseg
  cases hw : seg.addressIsWithinSegment addr with
  | false => rfl
  | true => exact absurd (seg.within_imp_range addr hw) (h seg hseg)

/-- Witness for C9: in the scenario state the address `0x2000` lies outside the
executable segment `[0x1000, 0x1100)`. -/
theorem C9_onLine_outside_executable_segments_witness :
    (onLine (sampleEnv (fun _ => none)) scenarioState "main.c" 10 0x2000 = some scenarioState ∧
      ∀ st1, onLine (sampleEnv (fun _ => none)) scenarioState "main.c" 10 0x2000 = some st1 →
        st1.lineCalls = scenarioState.lineCalls) ∧
    (onLine (sampleEnv (fun _ => none)) scenarioState "main.c" 10 0x2000 = some scenarioState ∧
      ∀ st1, onLine (sampleEnv (fun _ => none)) scenarioState "main.c" 10 0x2000 = some st1 →
        st1.lineCalls = scenarioState.lineCalls) :=
  ⟨C9_onLine_outside_executable_segments.1 (sampleEnv (fun _ => none)) scenarioState
      "main.c" 10 0x2000 (by decide),
   C9_onLine_outside_executable_segments.2 (sampleEnv (fun _ => none)) scenarioState
      "main.c" 10 0x2000 (by decide)⟩

/-! ## C10: forwarding of accepted entries -/

/-- Validation reads only the verification flag and the verifier of the state. -/
theorem addressIsValidFrom_congr (env : Env) (st st2 : ElfInstance) (segs : List Segment)
    (addr ib : Nat) (h1 : st2.m_verifyAddresses = st.m_verifyAddresses)
    (h2 : st2.m_addressVerifier = st.m_addressVerifier) :
    addressIsValidFrom env st2 segs addr ib = addressIsValidFrom env st segs addr ib := by
  induction segs with
  | nil => rfl
  | cons s rest ih => simp only [addressIsValidFrom, h1, h2, ih]

/-- When every entry is accepted, the entries are forwarded in order, each to
every registration in order. -/
theorem forEachLine_all_valid (env : Env) (st : ElfInstance) (entries : List LineEntry)
    (mangle : String → String) (hf : st.m_filter = some mangle)
    (hv : ∀ e ∈ entries, ∀ ib, (addressIsValidFrom env st st.m_executableSegments e.addr ib).1 = true) :
    ∃ st1, forEachLine env st entries = some st1 ∧
      st1.lineCalls = st.lineCalls ++ entries.flatMap (fun e =>
        st.m_lineListeners.map (fun it =>
          (⟨it, mangle e.file, e.lineNr,
            (adjustAddressBySegment st.m_curSegments e.addr + st.m_relocation) % 2 ^ 64⟩
            : LineCall))) := by
  induction entries generalizing st with
  | nil => exact ⟨st, rfl, by simp⟩
  | cons e rest ih =>
    have hve : (addressIsValid env st e.addr st.m_invalidBreakpoints).1 = true :=
      hv e (List.mem_cons_self _ _) _
    have h1 := onLine_valid env st e.file e.lineNr e.addr mangle hf hve
    generalize hst1 : ({ st with
      lineCalls := st.lineCalls ++ st.m_lineListeners.map (fun it =>
        (⟨it, mangle e.file, e.lineNr,
          (adjustAddressBySegment st.m_curSegments e.addr + st.m_relocation) % 2 ^ 64⟩
          : LineCall)) } : ElfInstance) = st1 at h1
    have e1 : st1.m_verifyAddresses = st.m_verifyAddresses := by rw [← hst1]
    have e2 : st1.m_addressVerifier = st.m_addressVerifier := by rw [← hst1]
    have e3 : st1.m_executableSegments = st.m_executableSegments := by rw [← hst1]
    have e4 : st1.m_filter = some mangle := by rw [← hst1]; exact hf
    have e5 : st1.m_lineListeners = st.m_lineListeners := by rw [← hst1]
    have e6 : st1.m_curSegments = st.m_curSegments := by rw [← hst1]
    have e7 : st1.m_relocation = st.m_relocation := by rw [← hst1]
    have e8 : st1.lineCalls = st.lineCalls ++ st.m_lineListeners.map (fun it =>
        (⟨it, mangle e.file, e.lineNr,
          (adjustAddressBySegment st.m_curSegments e.addr + st.m_relocation) % 2 ^ 64⟩
          : LineCall)) := by rw [← hst1]
    have hv1 : ∀ x ∈ rest, ∀ ib,
        (addressIsValidFrom env st1 st1.m_executableSegments x.addr ib).1 = true := by
      intro x hx ib
      rw [e3, addressIsValidFrom_congr env st st1 _ _ _ e1 e2]
      exact hv x (List.mem_cons_of_mem _ hx) ib
    obtain ⟨st2, h2, h3⟩ := ih st1 e4 hv1
    refine ⟨st2, ?_, ?_⟩
    · simp only [forEachLine, h1]
      exact h2
    · rw [h3, e5, e6, e7, e8]
      simp [List.flatMap_cons, List.append_assoc]

/-- Among the calls made for one accepted entry, each listener appears as often
as it was registered. -/
theorem count_calls_of_listener (ls : List Listener) (rp : String) (lineNr addr : Nat)
    (l : Listener) :
    ((ls.map (fun it => (⟨it, rp, lineNr, addr⟩ : LineCall))).filter
      (fun c => decide (c.listener = l))).length = ls.count l := by
  induction ls with
  | nil => rfl
  | cons x rest ih =>
    by_cases hx : x = l
    · simp [List.filter_cons, hx, ih]
    · have hx2 : ¬ (x == l) = true := by simpa using hx
      simp [List.filter_cons, hx, List.count_cons, hx2, ih]

/-- The scenario segment accepts exactly the addresses of `[0x1000, 0x1100)` and
translates them by `+ 0x4000`. -/
theorem scenario_translate (a : Nat) (h1 : 0x1000 ≤ a) (h2 : a < 0x1100) :
    (adjustAddressBySegment [⟨none, 0x1000, 0x5000, 0x100⟩] a + 0) % 2 ^ 64
      = a - 0x1000 + 0x5000 := by
  have hw : (⟨none, 0x1000, 0x5000, 0x100⟩ : Segment).addressIsWithinSegment a = true := by
    rw [Segment.within_iff_of_nowrap _ _ (by decide)]
    exact ⟨h1, h2⟩
  have := adjustAddressBySegment_first [] [] ⟨none, 0x1000, 0x5000, 0x100⟩ a
    (by intro T hT; cases hT) hw
  simp only [List.nil_append] at this
  rw [this, u64_translate a 0x1000 0x5000 (by decide) h1, Nat.add_zero, Nat.mod_mod]
  apply Nat.mod_eq_of_lt
  omega

/-- C10: (1) `registerLineListener` appends to the list of listeners, so the list
is in registration order; (2) for every line entry that passes validation in
`onLine`, the calls made are exactly one per registered listener, in
registration order, each with `(mangleSourcePath (file), line,
(adjustAddressBySegment (addr) + relocation) mod 2 ^ 64)`; (3) in the scenario of
the specification (executable segment `[0x1000, 0x1100)`, declared segment
`{physical = 0x1000, virtual = 0x5000, size = 0x100}`, relocation `0`, entries
not rejected by the verifier) three entries inside the segment give exactly
three calls per registration, with addresses in `[0x5000, 0x5100)`. -/
theorem C10_onLine_forwards_to_every_listener :
    (∀ (st : ElfInstance) (l : Listener),
      (registerLineListener st l).m_lineListeners = st.m_lineListeners ++ [l]) ∧
    (∀ (env : Env) (st : ElfInstance) (file : String) (lineNr addr : Nat)
      (mangle : String → String),
      st.m_filter = some mangle →
      (addressIsValid env st addr st.m_invalidBreakpoints).1 = true →
      ∃ st1, onLine env st file lineNr addr = some st1 ∧
        st1.lineCalls = st.lineCalls ++ st.m_lineListeners.map (fun it =>
          (⟨it, mangle file, lineNr,
            (adjustAddressBySegment st.m_curSegments addr + st.m_relocation) % 2 ^ 64⟩
            : LineCall))) ∧
    (∀ (env : Env) (st : ElfInstance) (mangle : String → String)
      (data : Option (List Byte)) (e1 e2 e3 : LineEntry),
      st.m_filter = some mangle →
      st.m_executableSegments = [⟨data, 0x1000, 0x1000, 0x100⟩] →
      st.m_curSegments = [⟨none, 0x1000, 0x5000, 0x100⟩] →
      st.m_relocation = 0 →
      (st.m_verifyAddresses = true →
        ∀ off, env.verify st.m_addressVerifier data 0x100 off = true) →
      (∀ e ∈ [e1, e2, e3], 0x1000 ≤ e.addr ∧ e.addr < 0x1100) →
      ∃ st1 calls, forEachLine env st [e1, e2, e3] = some st1 ∧
        st1.lineCalls = st.lineCalls ++ calls ∧
        calls = [e1, e2, e3].flatMap (fun e => st.m_lineListeners.map (fun it =>
          (⟨it, mangle e.file, e.lineNr, e.addr - 0x1000 + 0x5000⟩ : LineCall))) ∧
        (∀ c ∈ calls, 0x5000 ≤ c.addr ∧ c.addr < 0x5100) ∧
        (∀ l, (calls.filter (fun c => decide (c.listener = l))).length
          = 3 * st.m_lineListeners.count l)) := by
  refine ⟨fun st l => rfl, ?_, ?_⟩
  · intro env st file lineNr addr mangle hf hv
    exact ⟨_, onLine_valid env st file lineNr addr mangle hf hv, rfl⟩
  · intro env st mangle data e1 e2 e3 hf hexec hcur hrel hver hin
    have hvalid : ∀ e ∈ [e1, e2, e3], ∀ ib,
        (addressIsValidFrom env st st.m_executableSegments e.addr ib).1 = true := by
      intro e he ib
      obtain ⟨h1, h2⟩ := hin e he
      have hw : (⟨data, 0x1000, 0x1000, 0x100⟩ : Segment).addressIsWithinSegment e.addr = true := by
        rw [Segment.within_iff_of_nowrap _ _ (by show 0x1000 + 0x100 < 2 ^ 64; decide)]
        exact ⟨h1, h2⟩
      rw [hexec]
      unfold addressIsValidFrom
      simp only [hw, if_true]
      by_cases hv : st.m_verifyAddresses = true
      · simp [hv, Segment.getData, Segment.getSize, hver hv]
      · simp [hv]
    obtain ⟨st1, hrun, hcalls⟩ := forEachLine_all_valid env st [e1, e2, e3] mangle hf hvalid
    have htr : ∀ e ∈ [e1, e2, e3],
        (adjustAddressBySegment st.m_curSegments e.addr + st.m_relocation) % 2 ^ 64
          = e.addr - 0x1000 + 0x5000 := by
      intro e he
      rw [hcur, hrel]
      exact scenario_translate e.addr (hin e he).1 (hin e he).2
    have h1 := htr e1 (by simp)
    have h2 := htr e2 (by simp)
    have h3 := htr e3 (by simp)
    refine ⟨st1, _, hrun, ?_, rfl, ?_, ?_⟩
    · rw [hcalls]
      simp only [List.flatMap_cons, List.flatMap_nil, h1, h2, h3]
    · intro c hc
      simp only [List.flatMap_cons, List.flatMap_nil, List.append_nil, List.mem_append,
        List.mem_map] at hc
      rcases hc with ⟨it, _, rfl⟩ | ⟨it, _, rfl⟩ | ⟨it, _, rfl⟩
      · have := hin e1 (by simp); simp only; omega
      · have := hin e2 (by simp); simp only; omega
      · have := hin e3 (by simp); simp only; omega
    · intro l
      simp only [List.flatMap_cons, List.flatMap_nil, List.append_nil, List.filter_append,
        List.length_append, count_calls_of_listener]
      omega

/-- Witness for C10: the scenario state with its two listeners and the three
entries at `0x1000`, `0x1010` and `0x10ff`. -/
theorem C10_onLine_forwards_to_every_listener_witness :
    (∃ st1, onLine (sampleEnv (fun _ => none)) scenarioState "main.c" 7 0x1010 = some st1 ∧
      st1.lineCalls = scenarioState.lineCalls ++ scenarioState.m_lineListeners.map (fun it =>
        (⟨it, (fun path => path) "main.c", 7,
          (adjustAddressBySegment scenarioState.m_curSegments 0x1010
            + scenarioState.m_relocation) % 2 ^ 64⟩ : LineCall))) ∧
    (∃ st1 calls, forEachLine (sampleEnv (fun _ => none)) scenarioState
        [⟨"main.c", 1, 0x1000⟩, ⟨"main.c", 2, 0x1010⟩, ⟨"main.c", 3, 0x10ff⟩] = some st1 ∧
      st1.lineCalls = scenarioState.lineCalls ++ calls ∧
      calls = ([⟨"main.c", 1, 0x1000⟩, ⟨"main.c", 2, 0x1010⟩, ⟨"main.c", 3, 0x10ff⟩]
        : List LineEntry).flatMap (fun e => scenarioState.m_lineListeners.map (fun it =>
          (⟨it, (fun path => path) e.file, e.lineNr, e.addr - 0x1000 + 0x5000⟩ : LineCall))) ∧
      (∀ c ∈ calls, 0x5000 ≤ c.addr ∧ c.addr < 0x5100) ∧
      (∀ l, (calls.filter (fun c => decide (c.listener = l))).length
        = 3 * scenarioState.m_lineListeners.count l)) :=
  ⟨C10_onLine_forwards_to_every_listener.2.1 (sampleEnv (fun _ => none)) scenarioState
      "main.c" 7 0x1010 (fun path => path) rfl (by decide),
   C10_onLine_forwards_to_every_listener.2.2 (sampleEnv (fun _ => none)) scenarioState
      (fun path => path) (some (List.replicate 0x100 0))
      ⟨"main.c", 1, 0x1000⟩ ⟨"main.c", 2, 0x1010⟩ ⟨"main.c", 3, 0x10ff⟩
      rfl rfl rfl rfl (fun _ _ => rfl) (by decide)⟩

/-! ## C6: the build-id search path -/

/-- The loop over the descriptor appends two characters per byte. -/
theorem buildIdLoop_length (buf : List Byte) (base n i : Nat) (id b : String)
    (h : buildIdLoop buf base n i id = some b) : b.length = id.length + 2 * n := by
  induction n generalizing i id with
  | zero =>
    simp only [buildIdLoop, Option.some.injEq] at h
    rw [← h]; rfl
  | succ n ih =>
    unfold buildIdLoop at h
    cases hb : buf[base + i]? with
    | none => simp [hb] at h
    | some x =>
      simp only [hb] at h
      have := ih _ _ h
      simp only [String.length_push] at this
      omega

/-- With at least two characters both `substr` calls succeed. -/
theorem buildIdDebugFile_of_two_le (b : String) (h : 2 ≤ b.length) :
    buildIdDebugFile b = some ("/usr/lib/debug/.build-id/" ++ String.mk (b.data.take 2)
      ++ "/" ++ String.mk (b.data.drop 2) ++ ".debug") := by
  have h0 : ¬ (0 > b.length) := by omega
  have h2 : ¬ (2 > b.length) := by omega
  simp [buildIdDebugFile, substr, h2]

/-- Frame of `onLine`: only the counter of invalid breakpoints and the list of
listener calls can change. -/
theorem onLine_frame (env : Env) (st st1 : ElfInstance) (file : String) (lineNr addr : Nat)
    (h : onLine env st file lineNr addr = some st1) :
    ∃ ib calls, st1 = { st with m_invalidBreakpoints := ib, lineCalls := calls } := by
  unfold onLine at h
  dsimp only at h
  split at h
  · cases h; exact ⟨_, _, rfl⟩
  · split at h
    · cases h
    · cases h; exact ⟨_, _, rfl⟩

theorem forEachLine_frame (env : Env) (st st1 : ElfInstance) (entries : List LineEntry)
    (h : forEachLine env st entries = some st1) :
    ∃ ib calls, st1 = { st with m_invalidBreakpoints := ib, lineCalls := calls } := by
  induction entries generalizing st with
  | nil => cases h; exact ⟨_, _, rfl⟩
  | cons e rest ih =>
    unfold forEachLine at h
    split at h
    · cases h
    · rename_i st2 h2
      obtain ⟨ib2, calls2, rfl⟩ := onLine_frame env st st2 _ _ _ h2
      obtain ⟨ib, calls, rfl⟩ := ih _ h
      exact ⟨_, _, rfl⟩

theorem reportAddresses_frame (env : Env) (st st1 : ElfInstance) (addrs : List Nat)
    (h : reportAddresses env st addrs = some st1) :
    ∃ ib calls, st1 = { st with m_invalidBreakpoints := ib, lineCalls := calls } := by
  induction addrs generalizing st with
  | nil => cases h; exact ⟨_, _, rfl⟩
  | cons e rest ih =>
    unfold reportAddresses at h
    split at h
    · cases h
    · rename_i st2 h2
      obtain ⟨ib2, calls2, rfl⟩ := onLine_frame env st st2 _ _ _ h2
      obtain ⟨ib, calls, rfl⟩ := ih _ h
      exact ⟨_, _, rfl⟩

theorem openByDebugLink_dwarfOpens (env : Env) (st : ElfInstance)
    (dp : Option (List LineEntry)) :
    ∃ later, (openByDebugLink env st dp).2.dwarfOpens = st.dwarfOpens ++ later := by
  unfold openByDebugLink
  split
  · dsimp only
    split
    · exact ⟨[], by simp⟩
    · exact ⟨[_], rfl⟩
  · exact ⟨[], by simp⟩

theorem reportLines_dwarfOpens (env : Env) (st st1 : ElfInstance) (n : Nat)
    (dp : Option (List LineEntry)) (r : Bool)
    (h : reportLines env st n dp = some (r, st1)) : st1.dwarfOpens = st.dwarfOpens := by
  cases dp with
  | none =>
    unfold reportLines at h
    dsimp only at h
    split at h
    · cases h; rfl
    · split at h
      · cases h
      · rename_i st5 h5
        cases h
        obtain ⟨ib, calls, rfl⟩ := reportAddresses_frame env st _ _ h5
        rfl
  | some lines =>
    unfold reportLines at h
    dsimp only at h
    split at h
    · cases h
    · rename_i st5 h5
      obtain ⟨ib, calls, rfl⟩ := forEachLine_frame env st _ _ h5
      split at h
      · cases h; rfl
      · cases h; rfl

/-- When the binary itself holds no debug information and the build-id has at
least two characters, the second path handed to `DwarfParser::open` is the
build-id path. -/
theorem parseOneDwarf_tries_build_id_path (env : Env) (st st1 : ElfInstance)
    (relocation : Nat) (r : Bool) (hb : 2 ≤ st.m_buildId.length)
    (hopen : env.dwarf st.m_filename = none)
    (h : parseOneDwarf env st relocation = some (r, st1)) :
    ∃ later, st1.dwarfOpens = st.dwarfOpens ++ [st.m_filename,
      "/usr/lib/debug/.build-id/" ++ String.mk (st.m_buildId.data.take 2) ++ "/"
        ++ String.mk (st.m_buildId.data.drop 2) ++ ".debug"] ++ later := by
  have hpos : 0 < st.m_buildId.length := by omega
  unfold parseOneDwarf at h
  simp only [openByBuildId, hopen, Option.isNone_none, hpos, gt_iff_lt, decide_True,
    Bool.and_self, if_true, buildIdDebugFile_of_two_le _ hb] at h
  obtain ⟨later, hl⟩ := openByDebugLink_dwarfOpens env _ _
  rw [reportLines_dwarfOpens env _ _ _ _ _ h, hl]
  exact ⟨later, by simp⟩

/-- C6: (1) every non-empty build-id `b` produced by the scanner loop (two
characters per descriptor byte) gives the path `"/usr/lib/debug/.build-id/" ++
(first two characters of b) ++ "/" ++ (remaining characters of b) ++ ".debug"`,
and so does every string of at least two characters; (2) when the binary
itself cannot be opened as a debug-information source, `parseOneDwarf` hands
exactly this path to `DwarfParser::open` right after the binary; (3) the
build-id "abcdef12" is searched at `/usr/lib/debug/.build-id/ab/cdef12.debug`.
The path is a function of `b` alone. -/
theorem C6_build_id_debug_path :
    (∀ (buf : List Byte) (base n : Nat) (b : String),
      0 < n → buildIdLoop buf base n 0 "" = some b →
      buildIdDebugFile b = some ("/usr/lib/debug/.build-id/" ++ String.mk (b.data.take 2)
        ++ "/" ++ String.mk (b.data.drop 2) ++ ".debug")) ∧
    (∀ b : String, 2 ≤ b.length →
      buildIdDebugFile b = some ("/usr/lib/debug/.build-id/" ++ String.mk (b.data.take 2)
        ++ "/" ++ String.mk (b.data.drop 2) ++ ".debug")) ∧
    (∀ (env : Env) (st st1 : ElfInstance) (relocation : Nat) (r : Bool),
      2 ≤ st.m_buildId.length → env.dwarf st.m_filename = none →
      parseOneDwarf env st relocation = some (r, st1) →
      ∃ later, st1.dwarfOpens = st.dwarfOpens ++ [st.m_filename,
        "/usr/lib/debug/.build-id/" ++ String.mk (st.m_buildId.data.take 2) ++ "/"
          ++ String.mk (st.m_buildId.data.drop 2) ++ ".debug"] ++ later) ∧
    buildIdDebugFile "abcdef12" = some "/usr/lib/debug/.build-id/ab/cdef12.debug" := by
  refine ⟨?_, buildIdDebugFile_of_two_le, ?_, by decide⟩
  · intro buf base n b hn h
    have := buildIdLoop_length buf base n 0 "" b h
    apply buildIdDebugFile_of_two_le
    have h0 : ("" : String).length = 0 := rfl
    omega
  · intro env st st1 relocation r hb hopen h
    exact parseOneDwarf_tries_build_id_path env st st1 relocation r hb hopen h

/-- Witness for C6: the descriptor `de ad be ef` scanned into "deadbeef", and a
binary `/bin/app` without debug information of its own whose build-id is
"deadbeef". -/
theorem C6_build_id_debug_path_witness :
    buildIdDebugFile "deadbeef" = some ("/usr/lib/debug/.build-id/"
      ++ String.mk (("deadbeef" : String).data.take 2)
      ++ "/" ++ String.mk (("deadbeef" : String).data.drop 2) ++ ".debug") ∧
    buildIdDebugFile "deadbeef" = some ("/usr/lib/debug/.build-id/"
      ++ String.mk (("deadbeef" : String).data.take 2)
      ++ "/" ++ String.mk (("deadbeef" : String).data.drop 2) ++ ".debug") ∧
    ∃ later, ({ ElfInstance.new with
        m_filename := "/bin/app", m_buildId := "deadbeef", m_isMainFile := false
        dwarfOpens := ["/bin/app", "/usr/lib/debug/.build-id/de/adbeef.debug"] }
        : ElfInstance).dwarfOpens
      = ({ ElfInstance.new with
            m_filename := "/bin/app", m_buildId := "deadbeef", m_isMainFile := false }
          : ElfInstance).dwarfOpens ++ ["/bin/app",
        "/usr/lib/debug/.build-id/" ++ String.mk (("deadbeef" : String).data.take 2) ++ "/"
          ++ String.mk (("deadbeef" : String).data.drop 2) ++ ".debug"] ++ later :=
  ⟨C6_build_id_debug_path.1 [0xde, 0xad, 0xbe, 0xef] 0 4 "deadbeef" (by decide) (by decide),
   C6_build_id_debug_path.2.1 "deadbeef" (by decide),
   C6_build_id_debug_path.2.2.1 (sampleEnv (fun _ => none))
     { ElfInstance.new with
        m_filename := "/bin/app", m_buildId := "deadbeef", m_isMainFile := false }
     { ElfInstance.new with
        m_filename := "/bin/app", m_buildId := "deadbeef", m_isMainFile := false
        dwarfOpens := ["/bin/app", "/usr/lib/debug/.build-id/de/adbeef.debug"] }
     0 true (by decide) rfl rfl⟩

/-! ## C7: name and CRC of the debug link -/

theorem strlen_of_name (name rest : List Byte) (hname : ∀ b ∈ name, b ≠ 0) :
    strlen (name ++ 0 :: rest) = some name.length := by
  induction name with
  | nil => simp [strlen]
  | cons x xs ih =>
    have hx : x ≠ 0 := hname x (List.mem_cons_self _ _)
    have hxs : ∀ b ∈ xs, b ≠ 0 := fun b hb => hname b (List.mem_cons_of_mem _ hb)
    simp [strlen, hx, ih hxs]

/-- The offset computed by the code is a multiple of four between `n + 1` and
`n + 4`. -/
theorem debuglinkCrcOffset_spec (n : Nat) (hn : n + 1 < 2 ^ 64) :
    debuglinkCrcOffset n % 4 = 0 ∧ n + 1 ≤ debuglinkCrcOffset n ∧
      debuglinkCrcOffset n ≤ n + 4 := by
  have hand : ∀ a : Nat, a &&& 3 = a % 4 := fun a => Nat.and_pow_two_sub_one_eq_mod a 2
  unfold debuglinkCrcOffset
  simp only [Nat.mod_eq_of_lt hn, hand]
  split <;> omega

/-- The offset computed by the code is the smallest multiple of four that is at
least `n + 1`. -/
theorem debuglinkCrcOffset_eq (n k : Nat) (hn : n + 1 < 2 ^ 64) (hk4 : k % 4 = 0)
    (hkge : n + 1 ≤ k) (hkmin : ∀ m, m % 4 = 0 → n + 1 ≤ m → k ≤ m) :
    debuglinkCrcOffset n = k := by
  obtain ⟨h1, h2, h3⟩ := debuglinkCrcOffset_spec n hn
  have := hkmin _ h1 h2
  omega

/-- C7: let the content of `.gnu_debuglink` be a name of `n` non-NUL bytes, the
terminating NUL and further bytes, and let `k` be the smallest multiple of 4
with `k ≥ n + 1`.  Then the scanner appends exactly the `n` name bytes to
`m_debuglink` and sets `m_debuglinkCrc` to the four bytes at offsets `k .. k+3`
of the section (read in host byte order, little-endian). -/
theorem C7_debuglink_name_and_crc_offset (name rest : List Byte) (st : ElfInstance) (k : Nat)
    (c0 c1 c2 c3 : Byte)
    (hname : ∀ b ∈ name, b ≠ 0)
    (hsize : (name ++ 0 :: rest).length < 2 ^ 64)
    (hk4 : k % 4 = 0) (hkge : name.length + 1 ≤ k)
    (hkmin : ∀ m, m % 4 = 0 → name.length + 1 ≤ m → k ≤ m)
    (hc0 : (name ++ 0 :: rest)[k]? = some c0) (hc1 : (name ++ 0 :: rest)[k + 1]? = some c1)
    (hc2 : (name ++ 0 :: rest)[k + 2]? = some c2) (hc3 : (name ++ 0 :: rest)[k + 3]? = some c3) :
    scanDebuglink (some (name ++ 0 :: rest)) st = some { st with
      m_debuglink := st.m_debuglink ++ bytesToString name
      m_debuglinkCrc := c0.val + 256 * c1.val + 65536 * c2.val + 16777216 * c3.val } := by
  have hn : name.length + 1 < 2 ^ 64 := by
    have : (name ++ 0 :: rest).length = name.length + 1 + rest.length := by
      simp [List.length_append]; omega
    omega
  have hoff := debuglinkCrcOffset_eq name.length k hn hk4 hkge hkmin
  have htake : (name ++ 0 :: rest).take name.length = name := by simp
  simp only [scanDebuglink, strlen_of_name name rest hname, hoff, readWord32, hc0, hc1, hc2,
    hc3, htake]

/-- Witness for C7: the section `"ab" NUL pad 43 be b7 e8`, whose CRC field
starts at offset 4. -/
theorem C7_debuglink_name_and_crc_offset_witness :
    scanDebuglink (some ([0x61, 0x62] ++ 0 :: [0, 0x43, 0xbe, 0xb7, 0xe8])) ElfInstance.new
      = some { ElfInstance.new with
        m_debuglink := ElfInstance.new.m_debuglink ++ bytesToString [0x61, 0x62]
        m_debuglinkCrc := (0x43 : Byte).val + 256 * (0xbe : Byte).val
          + 65536 * (0xb7 : Byte).val + 16777216 * (0xe8 : Byte).val } :=
  C7_debuglink_name_and_crc_offset [0x61, 0x62] [0, 0x43, 0xbe, 0xb7, 0xe8] ElfInstance.new 4
    0x43 0xbe 0xb7 0xe8 (by simp) (by norm_num) (by decide) (by decide)
    (by intro m h1 h2; simp only [List.length_cons, List.length_nil] at h2; omega)
    (by decide) (by decide) (by decide) (by decide)

/-! ## C8: the build-id as a hexadecimal string -/

set_option maxRecDepth 100000 in
/-- The nibbles selected by the code are the quotient and the remainder by 16. -/
theorem nibbles_of_byte : ∀ b : Byte,
    (b.val >>> 4) &&& 0xf = b.val / 16 ∧ (b.val >>> 0) &&& 0xf = b.val % 16 := by
  decide

set_option maxRecDepth 100000 in
theorem hexValue_hexDigit : ∀ i : Fin 16, hexValue (hexDigit i.val) = some i.val := by
  decide

set_option maxRecDepth 100000 in
theorem hexDigit_mem : ∀ i : Fin 16, hexDigit i.val ∈ "0123456789abcdef".data := by
  decide

theorem getElem?_append_add {α : Type} (pre l : List α) (k : Nat) :
    (pre ++ l)[pre.length + k]? = l[k]? := by
  rw [List.getElem?_append_right (by omega)]
  simp

theorem readWord32_le32 (pre rest : List Byte) (n : Nat) (hn : n < 2 ^ 32) :
    readWord32 (pre ++ (le32 n ++ rest)) pre.length = some n := by
  have h0 := getElem?_append_add pre (le32 n ++ rest) 0
  have h1 := getElem?_append_add pre (le32 n ++ rest) 1
  have h2 := getElem?_append_add pre (le32 n ++ rest) 2
  have h3 := getElem?_append_add pre (le32 n ++ rest) 3
  rw [Nat.add_zero] at h0
  simp only [readWord32, h0, h1, h2, h3]
  simp only [le32, List.cons_append, List.nil_append, List.getElem?_cons_zero,
    List.getElem?_cons_succ, Fin.ofNat, Option.some.injEq]
  omega

theorem hexString_cons (x : Byte) (xs : List Byte) (id : String) :
    ((id.push (hexDigit ((x.val >>> 4) &&& 0xf))).push (hexDigit ((x.val >>> 0) &&& 0xf)))
      ++ hexString xs = id ++ hexString (x :: xs) := by
  obtain ⟨h1, h2⟩ := nibbles_of_byte x
  rw [h1, h2]
  apply String.ext
  simp [hexString, String.data_append, String.data_push]

/-- The loop over a descriptor that lies at offset `pre.length` of the buffer
appends its hexadecimal rendering. -/
theorem buildIdLoop_append (pre tail : List Byte) (done rest : List Byte) (id : String) :
    buildIdLoop (pre ++ ((done ++ rest) ++ tail)) pre.length rest.length done.length id
      = some (id ++ hexString rest) := by
  induction rest generalizing done id with
  | nil =>
    simp only [List.length_nil, buildIdLoop, Option.some.injEq]
    apply String.ext
    simp [hexString]
  | cons x xs ih =>
    have hget : (pre ++ ((done ++ x :: xs) ++ tail))[pre.length + done.length]? = some x := by
      rw [getElem?_append_add, List.append_assoc]
      have := getElem?_append_add done ((x :: xs) ++ tail) 0
      rw [Nat.add_zero] at this
      rw [this]
      simp
    have hlen : done.length + 1 = (done ++ [x]).length := by simp
    have hlist : done ++ x :: xs = (done ++ [x]) ++ xs := by simp
    simp only [List.length_cons, buildIdLoop, hget]
    rw [hlen, hlist, ih (done ++ [x]), hexString_cons]

/-- On a well-formed GNU build-id note the note block appends the hexadecimal
rendering of the descriptor. -/
theorem scanNote_gnuBuildIdNote (is32 : Bool) (d tail : List Byte) (id : String)
    (hd : d.length < 2 ^ 32) :
    scanNote is32 (gnuBuildIdNote d tail) id = some (id ++ hexString d) := by
  have e0 : gnuBuildIdNote d tail
      = [] ++ (le32 4 ++ (le32 d.length ++ le32 NT_GNU_BUILD_ID ++ [0x47, 0x4e, 0x55, 0]
          ++ d ++ tail)) := by
    simp [gnuBuildIdNote, List.append_assoc]
  have e1 : gnuBuildIdNote d tail
      = le32 4 ++ (le32 d.length ++ (le32 NT_GNU_BUILD_ID ++ [0x47, 0x4e, 0x55, 0]
          ++ d ++ tail)) := by
    simp [gnuBuildIdNote, List.append_assoc]
  have e2 : gnuBuildIdNote d tail
      = (le32 4 ++ le32 d.length) ++ (le32 NT_GNU_BUILD_ID ++ ([0x47, 0x4e, 0x55, 0]
          ++ d ++ tail)) := by
    simp [gnuBuildIdNote, List.append_assoc]
  have e3 : gnuBuildIdNote d tail
      = (le32 4 ++ le32 d.length ++ le32 NT_GNU_BUILD_ID) ++ ([0x47, 0x4e, 0x55, 0]
          ++ (d ++ tail)) := by
    simp [gnuBuildIdNote, List.append_assoc]
  have e4 : gnuBuildIdNote d tail
      = (le32 4 ++ le32 d.length ++ le32 NT_GNU_BUILD_ID ++ [0x47, 0x4e, 0x55, 0])
          ++ (([] ++ d) ++ tail) := by
    simp [gnuBuildIdNote, List.append_assoc]
  have w0 : readWord32 (gnuBuildIdNote d tail) 0 = some 4 := by
    rw [e0]; exact readWord32_le32 [] _ 4 (by decide)
  have w1 : readWord32 (gnuBuildIdNote d tail) 4 = some d.length := by
    rw [e1]; exact readWord32_le32 (le32 4) _ d.length hd
  have w2 : readWord32 (gnuBuildIdNote d tail) 8 = some NT_GNU_BUILD_ID := by
    rw [e2]; exact readWord32_le32 (le32 4 ++ le32 d.length) _ NT_GNU_BUILD_ID (by decide)
  have g0 : (gnuBuildIdNote d tail)[12]? = some 0x47 := by
    rw [e3]; exact getElem?_append_add (le32 4 ++ le32 d.length ++ le32 NT_GNU_BUILD_ID)
      ([0x47, 0x4e, 0x55, 0] ++ (d ++ tail)) 0
  have g1 : (gnuBuildIdNote d tail)[13]? = some 0x4e := by
    rw [e3]; exact getElem?_append_add (le32 4 ++ le32 d.length ++ le32 NT_GNU_BUILD_ID)
      ([0x47, 0x4e, 0x55, 0] ++ (d ++ tail)) 1
  have g2 : (gnuBuildIdNote d tail)[14]? = some 0x55 := by
    rw [e3]; exact getElem?_append_add (le32 4 ++ le32 d.length ++ le32 NT_GNU_BUILD_ID)
      ([0x47, 0x4e, 0x55, 0] ++ (d ++ tail)) 2
  have g3 : (gnuBuildIdNote d tail)[15]? = some 0 := by
    rw [e3]
    exact (getElem?_append_add (le32 4 ++ le32 d.length ++ le32 NT_GNU_BUILD_ID)
      ([0x47, 0x4e, 0x55, 0] ++ (d ++ tail)) 3).trans (by simp)
  have hgnu : stringToBytes "GNU" = [0x47, 0x4e, 0x55] := by decide
  have hcmp : strcmpEq (gnuBuildIdNote d tail) 12 (stringToBytes "GNU") = some true := by
    rw [hgnu]
    simp only [strcmpEq, Nat.reduceAdd, g0, g1, g2, g3]
    decide
  have hloop : buildIdLoop (gnuBuildIdNote d tail) (12 + 4) d.length 0 id
      = some (id ++ hexString d) := by
    rw [e4]
    exact buildIdLoop_append
      (le32 4 ++ le32 d.length ++ le32 NT_GNU_BUILD_ID ++ [0x47, 0x4e, 0x55, 0]) tail [] d id
  have hsz : (if is32 then sizeof_Elf32_Nhdr else sizeof_Elf64_Nhdr) = 12 := by
    cases is32 <;> rfl
  simp only [scanNote, w0, w1, w2, hsz, hcmp, hloop]
  simp

/-- A buffer that does not start with a GNU build-id note leaves the build-id
as it was. -/
theorem scanNote_of_not_buildId (is32 : Bool) (buf : List Byte) (id id2 : String)
    (hno : startsWithBuildIdNote buf = false)
    (h : scanNote is32 buf id = some id2) : id2 = id := by
  have hsz : (if is32 then sizeof_Elf32_Nhdr else sizeof_Elf64_Nhdr) = 12 := by
    cases is32 <;> rfl
  unfold scanNote at h
  rw [hsz] at h
  unfold startsWithBuildIdNote at hno
  cases w0 : readWord32 buf 0 with
  | none => simp [w0] at h
  | some n0 =>
    cases w1 : readWord32 buf 4 with
    | none => simp [w0, w1] at h
    | some n1 =>
      cases w2 : readWord32 buf 8 with
      | none => simp [w0, w1, w2] at h
      | some n2 =>
        cases hc : strcmpEq buf 12 (stringToBytes "GNU") with
        | none => simp [w0, w1, w2, hc] at h
        | some isGnu =>
          simp only [w0, w1, w2, hc] at h
          rw [w2, hc] at hno
          cases isGnu with
          | false =>
            simp at h
            exact h.symm
          | true =>
            have hn2 : (n2 == NT_GNU_BUILD_ID) = false := by
              simpa using hno
            simp [hn2] at h
            exact h.symm

theorem scanRodataLoop_frame (buf : List Byte) (todo i : Nat) (st st1 : ElfInstance)
    (g g1 : List String) (h : scanRodataLoop buf todo i st g = some (st1, g1)) :
    ∃ calls, st1 = { st with fileCalls := calls } := by
  induction todo generalizing i st g with
  | zero =>
    simp only [scanRodataLoop, Option.some.injEq, Prod.mk.injEq] at h
    exact ⟨st.fileCalls, h.1.symm⟩
  | succ n ih =>
    unfold scanRodataLoop at h
    split at h
    · cases h
    · exact ih _ _ _ h
    · dsimp only at h
      split at h
      · exact ih _ _ _ h
      · obtain ⟨calls, rfl⟩ := ih _ _ _ h
        exact ⟨calls, rfl⟩

theorem scanSectionRodata_frame (doScan : Bool) (name : Option String)
    (d_buf : Option (List Byte)) (st st1 : ElfInstance) (g g1 : List String)
    (h : scanSectionRodata doScan name d_buf st g = some (st1, g1)) :
    ∃ calls, st1 = { st with fileCalls := calls } := by
  unfold scanSectionRodata at h
  split at h
  · split at h
    · cases h
    · split at h
      · exact scanRodataLoop_frame _ _ _ _ _ _ _ h
      · cases h; exact ⟨st.fileCalls, rfl⟩
  · cases h; exact ⟨st.fileCalls, rfl⟩

theorem scanSectionDebuglink_frame (name : Option String) (d_buf : Option (List Byte))
    (st st1 : ElfInstance) (h : scanSectionDebuglink name d_buf st = some st1) :
    ∃ link crc, st1 = { st with m_debuglink := link, m_debuglinkCrc := crc } := by
  unfold scanSectionDebuglink at h
  split at h
  · cases h
  · split at h
    · unfold scanDebuglink at h
      split at h
      · cases h
      · split at h
        · cases h
        · split at h
          · cases h
          · cases h; exact ⟨_, _, rfl⟩
    · cases h; exact ⟨st.m_debuglink, st.m_debuglinkCrc, rfl⟩

theorem scanSectionSegment_frame (fileData : List Byte) (setup : Bool) (shdr : Elf_Shdr)
    (st st1 : ElfInstance) (h : scanSectionSegment fileData setup shdr st = some st1) :
    ∃ cur ex, st1 = { st with m_curSegments := cur, m_executableSegments := ex } := by
  unfold scanSectionSegment at h
  split at h
  · cases h; exact ⟨st.m_curSegments, st.m_executableSegments, rfl⟩
  · split at h
    · cases h
    · cases h
      cases setup
      · exact ⟨_, _, rfl⟩
      · exact ⟨_, _, rfl⟩

theorem collectGcnoFiles_frame (env : Env) (files : List String) (st st1 : ElfInstance)
    (h : collectGcnoFiles env files st = some st1) :
    ∃ gcno, st1 = { st with m_gcnoFiles := gcno } := by
  induction files generalizing st with
  | nil => cases h; exact ⟨_, rfl⟩
  | cons f rest ih =>
    unfold collectGcnoFiles at h
    split at h
    · cases h
    · split at h
      · obtain ⟨gcno, rfl⟩ := ih _ h
        exact ⟨gcno, rfl⟩
      · exact ih _ h

/-- A pass through the loop body that goes on with the next section has run
the four blocks in order. -/
theorem scanSection_next (fileData : List Byte) (doScan setup : Bool) (scn : Elf_Scn)
    (st st5 : ElfInstance) (g g5 : List String)
    (h : scanSection fileData doScan setup scn st g = some (.next st5 g5)) :
    ∃ shdr d_buf st1 st2 st3,
      (if st.m_elfIs32Bit then scn.shdr32 else scn.shdr64) = some shdr ∧
      scn.data = some d_buf ∧
      scanSectionRodata doScan scn.name d_buf st g = some (st1, g5) ∧
      scanSectionNote shdr d_buf st1 = some st2 ∧
      scanSectionDebuglink scn.name d_buf st2 = some st3 ∧
      scanSectionSegment fileData setup shdr st3 = some st5 := by
  unfold scanSection at h
  split at h
  · cases h
  · rename_i shdr hshdr
    split at h
    · cases h
    · rename_i d_buf hdata
      simp only [Option.bind_eq_some, Option.some.injEq, ScanStep.next.injEq] at h
      obtain ⟨⟨st1, g1⟩, h1, st2, h2, st3, h3, st4, h4, h5, h6⟩ := h
      simp only at h5 h6 h2
      subst h5 h6
      exact ⟨shdr, d_buf, st1, st2, st3, hshdr, hdata, h1, h2, h3, h4⟩

theorem scanSectionNote_some (shdr : Elf_Shdr) (d_buf : Option (List Byte))
    (st st2 : ElfInstance) (h : scanSectionNote shdr d_buf st = some st2) :
    ∃ id, noteBuildId st.m_elfIs32Bit shdr d_buf st.m_buildId = some id ∧
      st2 = { st with m_buildId := id } := by
  unfold scanSectionNote at h
  unfold noteBuildId
  cases hdec : decide (shdr.sh_type = SHT_NOTE) with
  | false =>
    simp only [hdec] at h ⊢
    cases h
    exact ⟨_, rfl, rfl⟩
  | true =>
    cases d_buf with
    | none =>
      simp only [hdec] at h ⊢
      cases h
      exact ⟨_, rfl, rfl⟩
    | some buf =>
      simp only [hdec] at h ⊢
      cases hn : scanNote st.m_elfIs32Bit buf st.m_buildId with
      | none => simp [hn] at h
      | some id =>
        simp only [hn, Option.some.injEq] at h
        exact ⟨id, rfl, h.symm⟩

/-- Effect of one section on the build-id: only its own note block matters. -/
theorem scanSection_buildId (fileData : List Byte) (doScan setup : Bool) (scn : Elf_Scn)
    (st st5 : ElfInstance) (g g5 : List String)
    (h : scanSection fileData doScan setup scn st g = some (.next st5 g5)) :
    st5.m_elfIs32Bit = st.m_elfIs32Bit ∧
    ∃ shdr d_buf, (if st.m_elfIs32Bit then scn.shdr32 else scn.shdr64) = some shdr ∧
      scn.data = some d_buf ∧
      noteBuildId st.m_elfIs32Bit shdr d_buf st.m_buildId = some st5.m_buildId := by
  obtain ⟨shdr, d_buf, st1, st2, st3, hshdr, hdata, h1, h2, h3, h4⟩ :=
    scanSection_next _ _ _ _ _ _ _ _ h
  obtain ⟨calls, rfl⟩ := scanSectionRodata_frame _ _ _ _ _ _ _ h1
  obtain ⟨id, hid, rfl⟩ := scanSectionNote_some _ _ _ _ h2
  obtain ⟨link, crc, rfl⟩ := scanSectionDebuglink_frame _ _ _ _ h3
  obtain ⟨cur, ex, rfl⟩ := scanSectionSegment_frame _ _ _ _ _ h4
  exact ⟨rfl, shdr, d_buf, hshdr, hdata, hid⟩

/-- A section that holds no build-id note leaves the build-id as it was. -/
theorem scanSection_no_note (fileData : List Byte) (doScan setup : Bool) (scn : Elf_Scn)
    (st st5 : ElfInstance) (g g5 : List String)
    (hno : holdsBuildIdNote st.m_elfIs32Bit scn = false)
    (h : scanSection fileData doScan setup scn st g = some (.next st5 g5)) :
    st5.m_elfIs32Bit = st.m_elfIs32Bit ∧ st5.m_buildId = st.m_buildId := by
  obtain ⟨h32, shdr, d_buf, hshdr, hdata, hid⟩ := scanSection_buildId _ _ _ _ _ _ _ _ h
  refine ⟨h32, ?_⟩
  unfold holdsBuildIdNote at hno
  rw [hshdr, hdata] at hno
  unfold noteBuildId at hid
  cases hdec : decide (shdr.sh_type = SHT_NOTE) with
  | false =>
    simp only [hdec] at hid
    exact (Option.some.inj hid).symm
  | true =>
    cases d_buf with
    | none =>
      simp only [hdec] at hid
      exact (Option.some.inj hid).symm
    | some buf =>
      simp only [hdec, Bool.true_and] at hid hno
      exact scanNote_of_not_buildId _ _ _ _ hno hid

/-- The section with the well-formed GNU build-id note appends the hexadecimal
rendering of its descriptor. -/
theorem scanSection_note (fileData : List Byte) (doScan setup : Bool) (scn : Elf_Scn)
    (st st5 : ElfInstance) (g g5 : List String) (shdr : Elf_Shdr) (d tail : List Byte)
    (hshdr : (if st.m_elfIs32Bit then scn.shdr32 else scn.shdr64) = some shdr)
    (htype : shdr.sh_type = SHT_NOTE)
    (hdata : scn.data = some (some (gnuBuildIdNote d tail)))
    (hd : d.length < 2 ^ 32)
    (h : scanSection fileData doScan setup scn st g = some (.next st5 g5)) :
    st5.m_elfIs32Bit = st.m_elfIs32Bit ∧ st5.m_buildId = st.m_buildId ++ hexString d := by
  obtain ⟨h32, shdr2, d_buf, hshdr2, hdata2, hid⟩ := scanSection_buildId _ _ _ _ _ _ _ _ h
  refine ⟨h32, ?_⟩
  rw [hshdr] at hshdr2
  rw [hdata] at hdata2
  cases hshdr2
  cases hdata2
  have hdec : decide (shdr.sh_type = SHT_NOTE) = true := by simp [htype]
  simp only [noteBuildId, hdec, scanNote_gnuBuildIdNote _ d tail _ hd, Option.some.injEq] at hid
  exact hid.symm

theorem scanSections_cons (fileData : List Byte) (doScan setup : Bool) (scn : Elf_Scn)
    (rest : List Elf_Scn) (st st5 : ElfInstance) (g g5 : List String)
    (h : scanSections fileData doScan setup (scn :: rest) st g = some (.next st5 g5)) :
    ∃ st1 g1, scanSection fileData doScan setup scn st g = some (.next st1 g1) ∧
      scanSections fileData doScan setup rest st1 g1 = some (.next st5 g5) := by
  unfold scanSections at h
  split at h
  · cases h
  · cases h
  · rename_i st1 g1 h1
    exact ⟨st1, g1, h1, h⟩

/-- Sections without a build-id note leave the build-id as it was. -/
theorem scanSections_no_note (fileData : List Byte) (doScan setup : Bool)
    (secs : List Elf_Scn) (st st5 : ElfInstance) (g g5 : List String)
    (hno : ∀ scn ∈ secs, holdsBuildIdNote st.m_elfIs32Bit scn = false)
    (h : scanSections fileData doScan setup secs st g = some (.next st5 g5)) :
    st5.m_elfIs32Bit = st.m_elfIs32Bit ∧ st5.m_buildId = st.m_buildId := by
  induction secs generalizing st g with
  | nil =>
    simp only [scanSections, Option.some.injEq, ScanStep.next.injEq] at h
    rw [← h.1]
    exact ⟨rfl, rfl⟩
  | cons scn rest ih =>
    obtain ⟨st1, g1, h1, h2⟩ := scanSections_cons _ _ _ _ _ _ _ _ _ h
    obtain ⟨a1, a2⟩ := scanSection_no_note _ _ _ _ _ _ _ _ (hno scn (List.mem_cons_self _ _)) h1
    have hno2 : ∀ s ∈ rest, holdsBuildIdNote st1.m_elfIs32Bit s = false := by
      intro s hs
      rw [a1]
      exact hno s (List.mem_cons_of_mem _ hs)
    obtain ⟨b1, b2⟩ := ih _ _ hno2 h2
    exact ⟨b1.trans a1, b2.trans a2⟩

/-- One section with a well-formed GNU build-id note among sections without
one: the scan appends the rendering of its descriptor. -/
theorem scanSections_one_note (fileData : List Byte) (doScan setup : Bool)
    (pre post : List Elf_Scn) (scn : Elf_Scn) (st st5 : ElfInstance) (g g5 : List String)
    (shdr : Elf_Shdr) (d tail : List Byte)
    (hno : ∀ s ∈ pre ++ post, holdsBuildIdNote st.m_elfIs32Bit s = false)
    (hshdr : (if st.m_elfIs32Bit then scn.shdr32 else scn.shdr64) = some shdr)
    (htype : shdr.sh_type = SHT_NOTE)
    (hdata : scn.data = some (some (gnuBuildIdNote d tail)))
    (hd : d.length < 2 ^ 32)
    (h : scanSections fileData doScan setup (pre ++ scn :: post) st g = some (.next st5 g5)) :
    st5.m_buildId = st.m_buildId ++ hexString d := by
  induction pre generalizing st g with
  | nil =>
    obtain ⟨st1, g1, h1, h2⟩ := scanSections_cons _ _ _ _ _ _ _ _ _ h
    obtain ⟨a1, a2⟩ := scanSection_note _ _ _ _ _ _ _ _ shdr d tail hshdr htype hdata hd h1
    have hno2 : ∀ s ∈ post, holdsBuildIdNote st1.m_elfIs32Bit s = false := by
      intro s hs
      rw [a1]
      exact hno s (by simpa using hs)
    obtain ⟨b1, b2⟩ := scanSections_no_note _ _ _ _ _ _ _ _ hno2 h2
    exact b2.trans a2
  | cons x rest ih =>
    obtain ⟨st1, g1, h1, h2⟩ := scanSections_cons _ _ _ _ _ _ _ _ _ h
    obtain ⟨a1, a2⟩ := scanSection_no_note _ _ _ _ _ _ _ _
      (hno x (by simp)) h1
    have hno2 : ∀ s ∈ rest ++ post, holdsBuildIdNote st1.m_elfIs32Bit s = false := by
      intro s hs
      rw [a1]
      exact hno s (by simp at hs ⊢; tauto)
    have := ih st1 g1 hno2 (by rw [a1]; exact hshdr) h2
    rw [this, a2]

/-- A successful `parseOneElf` has read the file, walked all its sections and
collected the gcno files. -/
theorem parseOneElf_true (env : Env) (st st2 : ElfInstance)
    (h : parseOneElf env st = some (true, st2)) :
    ∃ fileData elf st1 g,
      env.read_file st.m_filename = some fileData ∧
      env.elf_memory fileData = some elf ∧
      scanSections fileData (decide (env.keyAsInt "gcov" ≠ 0))
        (decide (st.m_curSegments.length = 0)) elf.sections
        { st with m_addressVerifier := some (fileData.take EI_NIDENT) } [] = some (.next st1 g) ∧
      collectGcnoFiles env g st1 = some st2 := by
  unfold parseOneElf at h
  dsimp only at h
  split at h
  · cases h
  · rename_i fileData hread
    split at h
    · cases h
    · rename_i elf helf
      split at h
      · cases h
      · split at h
        · cases h
        · cases h
        · rename_i st1 g hscan
          split at h
          · cases h
          · rename_i st3 hgc
            cases h
            exact ⟨fileData, elf, st1, g, hread, helf, hscan, hgc⟩

theorem checkFile_keeps (env : Env) (st st1 : ElfInstance) (ok : Bool)
    (h : checkFile env st = some (ok, st1)) :
    st1.m_buildId = st.m_buildId ∧ st1.m_filename = st.m_filename ∧
      st1.m_debuglink = st.m_debuglink := by
  unfold checkFile at h
  split at h
  · cases h; exact ⟨rfl, rfl, rfl⟩
  · split at h
    · cases h; exact ⟨rfl, rfl, rfl⟩
    · rename_i elf helf
      dsimp only at h
      split at h
      · cases h
      · rename_i st2 hmain
        have h2 : st2.m_buildId = st.m_buildId ∧ st2.m_filename = st.m_filename ∧
            st2.m_debuglink = st.m_debuglink := by
          split at hmain
          · split at hmain
            · cases hmain
            · cases hmain
              dsimp only
              split
              · exact ⟨rfl, rfl, rfl⟩
              · split
                · exact ⟨rfl, rfl, rfl⟩
                · exact ⟨rfl, rfl, rfl⟩
          · cases hmain; exact ⟨rfl, rfl, rfl⟩
        split at h
        · cases h; exact h2
        · cases h; exact h2

/-- After `addFile` the build-id and the debug-link name are empty and the file
name is the one given. -/
theorem addFile_fresh (env : Env) (st st1 : ElfInstance) (filename : String)
    (data : Option (List phdr_data_segment)) (ok : Bool)
    (h : addFile env st filename data = some (ok, st1)) :
    st1.m_buildId = "" ∧ st1.m_filename = filename ∧ st1.m_debuglink = "" := by
  unfold addFile at h
  dsimp only at h
  split at h
  · cases h
  · rename_i st0 hinit
    split at h
    · cases h
    · rename_i st3 hck
      cases h
      exact checkFile_keeps env _ _ _ hck
    · rename_i st3 hck
      cases h
      obtain ⟨a, b, c⟩ := checkFile_keeps env _ _ _ hck
      split
      · exact ⟨a, b, c⟩
      · exact ⟨a, b, c⟩

theorem hexString_data_cons (x : Byte) (xs : List Byte) :
    (hexString (x :: xs)).data
      = hexDigit (x.val / 16) :: hexDigit (x.val % 16) :: (hexString xs).data := by
  simp [hexString]

theorem hexString_length (d : List Byte) : (hexString d).length = 2 * d.length := by
  induction d with
  | nil => rfl
  | cons x xs ih =>
    have : (hexString (x :: xs)).length = (hexString xs).length + 2 := by
      simp only [String.length, hexString_data_cons, List.length_cons]
    rw [this, ih, List.length_cons]
    omega

theorem hexString_chars (d : List Byte) :
    ∀ c ∈ (hexString d).data, c ∈ "0123456789abcdef".data := by
  induction d with
  | nil => intro c hc; simp [hexString] at hc
  | cons x xs ih =>
    intro c hc
    rw [hexString_data_cons] at hc
    have h1 := hexDigit_mem ⟨x.val / 16, by omega⟩
    have h2 := hexDigit_mem ⟨x.val % 16, by omega⟩
    rcases List.mem_cons.1 hc with rfl | hc2
    · exact h1
    · rcases List.mem_cons.1 hc2 with rfl | hc3
      · exact h2
      · exact ih c hc3

theorem hexString_digits (d : List Byte) (i : Nat) (b : Byte) (h : d[i]? = some b) :
    (hexString d).data[2 * i]? = some (hexDigit (b.val / 16)) ∧
    (hexString d).data[2 * i + 1]? = some (hexDigit (b.val % 16)) := by
  induction d generalizing i with
  | nil => simp at h
  | cons x xs ih =>
    rw [hexString_data_cons]
    cases i with
    | zero =>
      simp only [List.getElem?_cons_zero, Option.some.injEq] at h
      subst h
      exact ⟨by simp, by simp⟩
    | succ k =>
      simp only [List.getElem?_cons_succ] at h
      have e1 : 2 * (k + 1) = 2 * k + 1 + 1 := by omega
      rw [e1]
      simp only [List.getElem?_cons_succ]
      exact ih k h

theorem hexDecode_hexString (d : List Byte) : hexDecode (hexString d).data = some d := by
  induction d with
  | nil => rfl
  | cons x xs ih =>
    rw [hexString_data_cons]
    have h1 := hexValue_hexDigit ⟨x.val / 16, by omega⟩
    have h2 := hexValue_hexDigit ⟨x.val % 16, by omega⟩
    simp only at h1 h2
    simp only [hexDecode, h1, h2, ih, Option.some.injEq, List.cons.injEq, and_true]
    apply Fin.ext
    simp only [Fin.ofNat, Fin.val_mk]
    omega

/-- C8 (counterexample): the one note section of the file holds the ABI-tag
note followed by the GNU build-id note with the descriptor `de ad be ef`
(`n = 4`).  The scan after `addFile` completes and reads only the note header
at the start of the section, whose type is not `NT_GNU_BUILD_ID`: the build-id
is empty, where the claim requires the eight characters "deadbeef".  The same
build-id note at the start of its section gives "deadbeef". -/
theorem C8_counterexample_build_id_after_another_note :
    (sampleElfTwoNotes.sections.map (fun scn => scn.data))
      = [some (some [0x7f, 0x45, 0x4c, 0x46]),
         some (some (gnuAbiTagNote ++ gnuBuildIdNote [0xde, 0xad, 0xbe, 0xef] []))] ∧
    resultOf (andThen (addFile (sampleElfEnv sampleElfTwoNotes) ElfInstance.new "/bin/app" none)
        (fun st => parseOneElf (sampleElfEnv sampleElfTwoNotes) st)) = some true ∧
    after (andThen (addFile (sampleElfEnv sampleElfTwoNotes) ElfInstance.new "/bin/app" none)
        (fun st => parseOneElf (sampleElfEnv sampleElfTwoNotes) st))
      (fun st => st.m_buildId) = some "" ∧
    hexString [0xde, 0xad, 0xbe, 0xef] = "deadbeef" ∧
    after (andThen (addFile (sampleElfEnv sampleElf) ElfInstance.new "/bin/app" none)
        (fun st => parseOneElf (sampleElfEnv sampleElf) st))
      (fun st => st.m_buildId) = some "deadbeef" := by
  refine ⟨by decide, by decide, by decide, by decide, by decide⟩

/-- C8 (amended): a file is added with `addFile` and then scanned once by
`parseOneElf`, and the scan completes.  Only the note header at the start of
the data of a section of type `SHT_NOTE` is read.  (1) If exactly one section
of the file is a note section whose data start with a GNU build-id note
(`n_namesz = 4`, name "GNU", type `NT_GNU_BUILD_ID`), with descriptor bytes
`d[0 .. n-1]`, `n < 2 ^ 32`, then `m_buildId` is the hexadecimal rendering of
`d`; (2) that rendering has length `2 n`, consists only of characters of
`0-9a-f`, has at position `2 i` the digit of the high nibble of `d[i]` and at
position `2 i + 1` the digit of its low nibble, and decodes back to `d`; (3) if
no note section has data that start with a note named "GNU" of type
`NT_GNU_BUILD_ID`, then `m_buildId` is empty, also when a build-id note stands
further on in a section, after another note. -/
theorem C8_build_id_is_lowercase_hex :
    (∀ (env : Env) (st st1 st2 : ElfInstance) (filename : String)
      (data : Option (List phdr_data_segment)) (ok : Bool) (fileData : List Byte) (elf : Elf)
      (pre post : List Elf_Scn) (noteScn : Elf_Scn) (shdr : Elf_Shdr) (d tail : List Byte),
      addFile env st filename data = some (ok, st1) →
      parseOneElf env st1 = some (true, st2) →
      env.read_file filename = some fileData →
      env.elf_memory fileData = some elf →
      elf.sections = pre ++ noteScn :: post →
      (∀ s ∈ pre ++ post, holdsBuildIdNote st1.m_elfIs32Bit s = false) →
      (if st1.m_elfIs32Bit then noteScn.shdr32 else noteScn.shdr64) = some shdr →
      shdr.sh_type = SHT_NOTE →
      noteScn.data = some (some (gnuBuildIdNote d tail)) →
      d.length < 2 ^ 32 →
      st2.m_buildId = hexString d) ∧
    (∀ d : List Byte,
      (hexString d).length = 2 * d.length ∧
      (∀ c ∈ (hexString d).data, c ∈ "0123456789abcdef".data) ∧
      (∀ (i : Nat) (b : Byte), d[i]? = some b →
        (hexString d).data[2 * i]? = some (hexDigit (b.val / 16)) ∧
        (hexString d).data[2 * i + 1]? = some (hexDigit (b.val % 16))) ∧
      hexDecode (hexString d).data = some d) ∧
    (∀ (env : Env) (st st1 st2 : ElfInstance) (filename : String)
      (data : Option (List phdr_data_segment)) (ok : Bool) (fileData : List Byte) (elf : Elf),
      addFile env st filename data = some (ok, st1) →
      parseOneElf env st1 = some (true, st2) →
      env.read_file filename = some fileData →
      env.elf_memory fileData = some elf →
      (∀ s ∈ elf.sections, holdsBuildIdNote st1.m_elfIs32Bit s = false) →
      st2.m_buildId = "") := by
  refine ⟨?_, ?_, ?_⟩
  · intro env st st1 st2 filename data ok fileData elf pre post noteScn shdr d tail
      hadd hscan hread helf hsecs hno hshdr htype hdata hd
    obtain ⟨hid, hname, _⟩ := addFile_fresh env st st1 filename data ok hadd
    obtain ⟨fileData2, elf2, st3, g, hread2, helf2, hloop, hgc⟩ := parseOneElf_true env st1 st2 hscan
    rw [hname, hread] at hread2
    cases hread2
    rw [helf] at helf2
    cases helf2
    obtain ⟨gcno, rfl⟩ := collectGcnoFiles_frame env g st3 st2 hgc
    rw [hsecs] at hloop
    have := scanSections_one_note _ _ _ pre post noteScn
      { st1 with m_addressVerifier := some (fileData.take EI_NIDENT) } st3 [] g shdr d tail
      hno hshdr htype hdata hd hloop
    simp only [hid] at this
    show st3.m_buildId = hexString d
    rw [this]
    apply String.ext
    simp
  · intro d
    exact ⟨hexString_length d, hexString_chars d, hexString_digits d, hexDecode_hexString d⟩
  · intro env st st1 st2 filename data ok fileData elf hadd hscan hread helf hno
    obtain ⟨hid, hname, _⟩ := addFile_fresh env st st1 filename data ok hadd
    obtain ⟨fileData2, elf2, st3, g, hread2, helf2, hloop, hgc⟩ := parseOneElf_true env st1 st2 hscan
    rw [hname, hread] at hread2
    cases hread2
    rw [helf] at helf2
    cases helf2
    obtain ⟨gcno, rfl⟩ := collectGcnoFiles_frame env g st3 st2 hgc
    obtain ⟨_, h2⟩ := scanSections_no_note _ _ _ _
      { st1 with m_addressVerifier := some (fileData.take EI_NIDENT) } st3 [] g hno hloop
    show st3.m_buildId = ""
    rw [h2]
    exact hid

/-- Witness for C8 (amended): the sample executable, whose note section starts
with the build-id note `de ad be ef`, gives "deadbeef"; without the note
section the build-id is empty. -/
theorem C8_build_id_is_lowercase_hex_witness :
    (sampleScanned sampleElf).m_buildId = hexString [0xde, 0xad, 0xbe, 0xef] ∧
    (sampleScanned sampleElf).m_buildId = "deadbeef" ∧
    ((hexString [0xde, 0xad]).length = 2 * ([0xde, 0xad] : List Byte).length ∧
      (∀ c ∈ (hexString [0xde, 0xad]).data, c ∈ "0123456789abcdef".data) ∧
      (∀ (i : Nat) (b : Byte), ([0xde, 0xad] : List Byte)[i]? = some b →
        (hexString [0xde, 0xad]).data[2 * i]? = some (hexDigit (b.val / 16)) ∧
        (hexString [0xde, 0xad]).data[2 * i + 1]? = some (hexDigit (b.val % 16))) ∧
      hexDecode (hexString [0xde, 0xad]).data = some [0xde, 0xad]) ∧
    (sampleScanned sampleElfWithoutNote).m_buildId = "" :=
  ⟨C8_build_id_is_lowercase_hex.1 (sampleElfEnv sampleElf) ElfInstance.new
      (sampleAdded sampleElf) (sampleScanned sampleElf) "/bin/app" none true sampleFileData
      sampleElf (sampleElf.sections.take 1) [] (sampleElf.sections.getD 1 ⟨none, none, none, none⟩)
      ⟨7, 0, 20, 2, 0, 0⟩ [0xde, 0xad, 0xbe, 0xef] []
      rfl rfl rfl rfl rfl (by decide) rfl rfl rfl (by decide),
   by decide,
   C8_build_id_is_lowercase_hex.2.1 [0xde, 0xad],
   C8_build_id_is_lowercase_hex.2.2 (sampleElfEnv sampleElfWithoutNote) ElfInstance.new
      (sampleAdded sampleElfWithoutNote) (sampleScanned sampleElfWithoutNote) "/bin/app" none
      true sampleFileData sampleElfWithoutNote rfl rfl rfl rfl (by decide)⟩

/-! ## C18: the path filter -/

/-- C18 (as stated, refuted): with the prefix pair `/src` to `/src/new` and a
`get_real_path` that returns its argument (which is idempotent), the path
`/src/x` is mangled to `/src/new/x`, and that path to `/src/new/new/x`. -/
theorem C18_counterexample_rewrite_applies_again :
    (∀ p : String, (fun q : String => q) ((fun q : String => q) p) = (fun q : String => q) p) ∧
    Filter.mangleSourcePath (fun q => q) ⟨"/src", "/src/new"⟩ "/src/x" = "/src/new/x" ∧
    Filter.mangleSourcePath (fun q => q) ⟨"/src", "/src/new"⟩
      (Filter.mangleSourcePath (fun q => q) ⟨"/src", "/src/new"⟩ "/src/x") = "/src/new/new/x" ∧
    Filter.mangleSourcePath (fun q => q) ⟨"/src", "/src/new"⟩
      (Filter.mangleSourcePath (fun q => q) ⟨"/src", "/src/new"⟩ "/src/x")
      ≠ Filter.mangleSourcePath (fun q => q) ⟨"/src", "/src/new"⟩ "/src/x" := by
  refine ⟨fun _ => rfl, by decide, by decide, by decide⟩

/-- The result of `Filter::mangleSourcePath` is a value of `get_real_path`. -/
theorem Filter.mangleSourcePath_normalised (R : String → String) (f : Filter) (p : String)
    (hR : ∀ x, R (R x) = R x) :
    R (f.mangleSourcePath R p) = f.mangleSourcePath R p := by
  unfold Filter.mangleSourcePath
  dsimp only
  split
  · split
    · exact hR _
    · exact hR _
  · exact hR _

/-- C18 (amended): `DummyFilter::mangleSourcePath` is idempotent; and, when
`get_real_path` is idempotent, `Filter::mangleSourcePath` applied to its own
result `q = mangleSourcePath (p)` returns `q` again provided no pair of root
prefixes is configured (one of them is empty) or `q` does not contain the
original root. -/
theorem C18_mangleSourcePath_idempotent_when_root_absent :
    (∀ p : String,
      DummyFilter.mangleSourcePath (DummyFilter.mangleSourcePath p)
        = DummyFilter.mangleSourcePath p) ∧
    (∀ (R : String → String) (f : Filter) (p : String),
      (∀ x, R (R x) = R x) →
      (f.m_origRoot.length = 0 ∨ f.m_newRoot.length = 0 ∨
        find (f.mangleSourcePath R p) f.m_origRoot = none) →
      f.mangleSourcePath R (f.mangleSourcePath R p) = f.mangleSourcePath R p) := by
  refine ⟨fun _ => rfl, ?_⟩
  intro R f p hR hcond
  have hq := Filter.mangleSourcePath_normalised R f p hR
  generalize f.mangleSourcePath R p = q at hq hcond
  unfold Filter.mangleSourcePath
  dsimp only
  rw [hq]
  split
  · rename_i hconf
    rcases hcond with h | h | h
    · omega
    · omega
    · simp only [h]
  · rfl

/-- Witness for C18 (amended): the pair `/src` to `/dst`, whose result no longer
contains `/src`, and a filter without a pair. -/
theorem C18_mangleSourcePath_idempotent_when_root_absent_witness :
    DummyFilter.mangleSourcePath (DummyFilter.mangleSourcePath "/src/x")
      = DummyFilter.mangleSourcePath "/src/x" ∧
    Filter.mangleSourcePath (fun q => q) ⟨"/src", "/dst"⟩
      (Filter.mangleSourcePath (fun q => q) ⟨"/src", "/dst"⟩ "/src/x")
      = Filter.mangleSourcePath (fun q => q) ⟨"/src", "/dst"⟩ "/src/x" ∧
    Filter.mangleSourcePath (fun q => q) ⟨"", ""⟩
      (Filter.mangleSourcePath (fun q => q) ⟨"", ""⟩ "/src/x")
      = Filter.mangleSourcePath (fun q => q) ⟨"", ""⟩ "/src/x" :=
  ⟨C18_mangleSourcePath_idempotent_when_root_absent.1 "/src/x",
   C18_mangleSourcePath_idempotent_when_root_absent.2 (fun q => q) ⟨"/src", "/dst"⟩ "/src/x"
     (fun _ => rfl) (Or.inr (Or.inr (by decide))),
   C18_mangleSourcePath_idempotent_when_root_absent.2 (fun q => q) ⟨"", ""⟩ "/src/x"
     (fun _ => rfl) (Or.inl (by decide))⟩

/-! ## C17 and C20: the scan of `.rodata` for coverage data names -/

/-- In a section shorter than five bytes the bound `d_size - 5` wraps, the loop
is entered and the first comparison already leaves the buffer. -/
theorem scanRodata_short (buf : List Byte) (st : ElfInstance) (g : List String)
    (h : buf.length < 5) : scanRodata buf st g = none := by
  unfold scanRodata
  have hb : u64sub buf.length 5 = buf.length + (2 ^ 64 - 5) := by
    unfold u64sub
    have : (5 : Nat) % 2 ^ 64 = 5 := by norm_num
    rw [this]
    apply Nat.mod_eq_of_lt
    omega
  obtain ⟨k, hk⟩ : ∃ k, u64sub buf.length 5 = k + 1 := ⟨buf.length + (2 ^ 64 - 5) - 1, by omega⟩
  rw [hk]
  have hm : markerAt buf 0 = none := by
    unfold markerAt
    simp only [Nat.zero_add]
    rw [if_neg (by omega)]
  simp only [scanRodataLoop, hm]

/-- C20 (code at the failing input): for the four-byte `.rodata` section
`"abc" NUL` the loop bound `d_size - 5` is `2 ^ 64 - 1` on `size_t`, so the loop
is entered; its first comparison at offset 0 covers the offsets `0 .. 4`, of
which offset 4 is outside the section, and the scan has no defined result.
The same happens for the empty section with a buffer that is not null. -/
theorem C20_short_rodata_is_read_out_of_bounds :
    u64sub ([0x61, 0x62, 0x63, 0] : List Byte).length 5 = 2 ^ 64 - 1 ∧
    markerAt [0x61, 0x62, 0x63, 0] 0 = none ∧
    ([0x61, 0x62, 0x63, 0] : List Byte)[4]? = none ∧
    (scanSectionRodata true (some ".rodata") (some [0x61, 0x62, 0x63, 0])
      ElfInstance.new []).isNone = true ∧
    (scanSectionRodata true (some ".rodata") (some []) ElfInstance.new []).isNone = true := by
  refine ⟨by decide, by decide, by decide, ?_, ?_⟩
  · simp [scanSectionRodata, scanRodata_short]
  · simp [scanSectionRodata, scanRodata_short]

/-! ## C19: the segments after a scan -/

/-- The test of the code on the flag word is the test for both flags. -/
theorem exec_alloc_flags (flags : Nat) :
    (flags &&& (SHF_EXECINSTR ||| SHF_ALLOC) ≠ (SHF_EXECINSTR ||| SHF_ALLOC)) ↔
      ¬ ((hasFlag flags SHF_EXECINSTR && hasFlag flags SHF_ALLOC) = true) := by
  have h7 : flags &&& 7 = flags % 8 := Nat.and_pow_two_sub_one_eq_mod flags 3
  have low : ∀ m : Nat, 7 &&& m = m → flags &&& m = (flags % 8) &&& m := by
    intro m hm
    conv_lhs => rw [← hm, ← Nat.and_assoc, h7]
  have e6 : flags &&& 6 = (flags % 8) &&& 6 := low 6 (by decide)
  have e4 : flags &&& 4 = (flags % 8) &&& 4 := low 4 (by decide)
  have e2 : flags &&& 2 = (flags % 8) &&& 2 := low 2 (by decide)
  have key : ∀ r : Fin 8,
      (r.val &&& 6 ≠ 6) ↔ ¬ ((r.val &&& 4 != 0 && r.val &&& 2 != 0) = true) := by decide
  have hor : SHF_EXECINSTR ||| SHF_ALLOC = 6 := by decide
  rw [hor]
  unfold hasFlag
  have h4 : SHF_EXECINSTR = 4 := rfl
  have h2 : SHF_ALLOC = 2 := rfl
  rw [h4, h2, e6, e4, e2]
  exact key ⟨flags % 8, Nat.mod_lt _ (by decide)⟩

/-- Effect of the last block of the loop body. -/
theorem scanSectionSegment_eq (fileData : List Byte) (setup : Bool) (shdr : Elf_Shdr)
    (st st1 : ElfInstance) (h : scanSectionSegment fileData setup shdr st = some st1) :
    ∃ segs, st1 = { st with
        m_curSegments := st.m_curSegments ++ (if setup then segs else [])
        m_executableSegments := st.m_executableSegments ++ segs } ∧
      segs = (if hasFlag shdr.sh_flags SHF_EXECINSTR && hasFlag shdr.sh_flags SHF_ALLOC then
        [⟨some ((fileData.drop shdr.sh_offset).take shdr.sh_size), shdr.sh_addr, shdr.sh_addr,
          shdr.sh_size⟩] else []) := by
  unfold scanSectionSegment at h
  by_cases hf : shdr.sh_flags &&& (SHF_EXECINSTR ||| SHF_ALLOC) ≠ (SHF_EXECINSTR ||| SHF_ALLOC)
  · rw [if_pos hf] at h
    have hf2 := (exec_alloc_flags shdr.sh_flags).1 hf
    cases h
    refine ⟨[], ?_, by rw [if_neg hf2]⟩
    cases setup <;> simp
  · rw [if_neg hf] at h
    have hf2 : (hasFlag shdr.sh_flags SHF_EXECINSTR && hasFlag shdr.sh_flags SHF_ALLOC) = true := by
      by_contra hc
      exact hf ((exec_alloc_flags shdr.sh_flags).2 hc)
    unfold Segment.create at h
    dsimp only at h
    by_cases hle : shdr.sh_size ≤ (fileData.drop shdr.sh_offset).length
    · rw [if_pos hle] at h
      simp only [Option.some.injEq] at h
      refine ⟨_, ?_, by rw [if_pos hf2]⟩
      rw [← h]
      cases setup <;> simp
    · rw [if_neg hle] at h
      cases h

theorem executableSegmentsOf_cons (is32 : Bool) (fileData : List Byte) (scn : Elf_Scn)
    (rest : List Elf_Scn) :
    executableSegmentsOf is32 fileData (scn :: rest)
      = executableSegmentsOf is32 fileData [scn] ++ executableSegmentsOf is32 fileData rest := by
  simp only [executableSegmentsOf]
  split
  · split <;> simp
  · simp

/-- Effect of one section on the two lists of segments. -/
theorem scanSection_segments (fileData : List Byte) (doScan setup : Bool) (scn : Elf_Scn)
    (st st5 : ElfInstance) (g g5 : List String)
    (h : scanSection fileData doScan setup scn st g = some (.next st5 g5)) :
    st5.m_executableSegments
      = st.m_executableSegments ++ executableSegmentsOf st.m_elfIs32Bit fileData [scn] ∧
    st5.m_curSegments = st.m_curSegments ++
      (if setup then executableSegmentsOf st.m_elfIs32Bit fileData [scn] else []) := by
  obtain ⟨shdr, d_buf, st1, st2, st3, hshdr, hdata, h1, h2, h3, h4⟩ :=
    scanSection_next _ _ _ _ _ _ _ _ h
  obtain ⟨calls, rfl⟩ := scanSectionRodata_frame _ _ _ _ _ _ _ h1
  obtain ⟨id, hid, rfl⟩ := scanSectionNote_some _ _ _ _ h2
  obtain ⟨link, crc, rfl⟩ := scanSectionDebuglink_frame _ _ _ _ h3
  obtain ⟨segs, rfl, hsegs⟩ := scanSectionSegment_eq _ _ _ _ _ h4
  have hex : executableSegmentsOf st.m_elfIs32Bit fileData [scn] = segs := by
    simp only [executableSegmentsOf, hshdr]
    rw [hsegs]
  rw [hex]
  exact ⟨rfl, rfl⟩

/-- Effect of a completed section loop on the two lists of segments. -/
theorem scanSections_segments (fileData : List Byte) (doScan setup : Bool)
    (secs : List Elf_Scn) (st st5 : ElfInstance) (g g5 : List String)
    (h : scanSections fileData doScan setup secs st g = some (.next st5 g5)) :
    st5.m_executableSegments
      = st.m_executableSegments ++ executableSegmentsOf st.m_elfIs32Bit fileData secs ∧
    st5.m_curSegments = st.m_curSegments ++
      (if setup then executableSegmentsOf st.m_elfIs32Bit fileData secs else []) := by
  induction secs generalizing st g with
  | nil =>
    simp only [scanSections, Option.some.injEq, ScanStep.next.injEq] at h
    rw [← h.1]
    simp [executableSegmentsOf]
  | cons scn rest ih =>
    obtain ⟨st1, g1, h1, h2⟩ := scanSections_cons _ _ _ _ _ _ _ _ _ h
    obtain ⟨a1, a2⟩ := scanSection_segments _ _ _ _ _ _ _ _ h1
    obtain ⟨h32, _⟩ := scanSection_buildId _ _ _ _ _ _ _ _ h1
    obtain ⟨b1, b2⟩ := ih _ _ h2
    rw [executableSegmentsOf_cons]
    rw [b1, b2, a1, a2, h32]
    cases setup <;> simp

/-- Frame of `checkFile`: only the class of the file, its type, the two
checksums and the `handle-solibs` capability can change. -/
theorem checkFile_frame (env : Env) (st st1 : ElfInstance) (ok : Bool)
    (h : checkFile env st = some (ok, st1)) :
    ∃ is32 shared cur sum cap, st1 = { st with
      m_elfIs32Bit := is32, m_elfIsShared := shared, m_currentChecksum := cur,
      m_checksum := sum, handleSolibs := cap } := by
  unfold checkFile at h
  split at h
  · cases h; exact ⟨_, _, _, _, _, rfl⟩
  · split at h
    · cases h; exact ⟨_, _, _, _, _, rfl⟩
    · rename_i elf helf
      dsimp only at h
      split at h
      · cases h
      · rename_i st2 hmain
        have h2 : ∃ is32 shared cap, st2 = { st with
            m_elfIs32Bit := is32, m_elfIsShared := shared, handleSolibs := cap } := by
          split at hmain
          · split at hmain
            · cases hmain
            · cases hmain
              split
              · exact ⟨_, _, _, rfl⟩
              · split
                · exact ⟨_, _, _, rfl⟩
                · exact ⟨_, _, _, rfl⟩
          · cases hmain; exact ⟨_, _, _, rfl⟩
        obtain ⟨is32, shared, cap, rfl⟩ := h2
        split at h
        · cases h; exact ⟨_, _, _, _, _, rfl⟩
        · cases h; exact ⟨_, _, _, _, _, rfl⟩

/-- After `addFile` the executable segments are empty and the translation
segments are the declared ones. -/
theorem addFile_segments (env : Env) (st st1 : ElfInstance) (filename : String)
    (data : Option (List phdr_data_segment)) (ok : Bool)
    (h : addFile env st filename data = some (ok, st1)) :
    st1.m_executableSegments = [] ∧
    st1.m_curSegments
      = (data.getD []).map (fun seg => (⟨none, seg.paddr, seg.vaddr, seg.size⟩ : Segment)) ∧
    st1.lineCalls = st.lineCalls := by
  unfold addFile at h
  dsimp only at h
  split at h
  · cases h
  · rename_i st0 hinit
    have h0 : st0.lineCalls = st.lineCalls := by
      split at hinit
      · split at hinit
        · cases hinit
        · cases hinit; rfl
      · cases hinit; rfl
    split at h
    · cases h
    · rename_i st3 hck
      cases h
      obtain ⟨_, _, _, _, _, rfl⟩ := checkFile_frame env _ _ _ hck
      exact ⟨rfl, rfl, h0⟩
    · rename_i st3 hck
      cases h
      obtain ⟨_, _, _, _, _, rfl⟩ := checkFile_frame env _ _ _ hck
      dsimp only
      split
      · exact ⟨rfl, rfl, h0⟩
      · exact ⟨rfl, rfl, h0⟩

/-- C19: a file is added with `addFile` and then scanned once by `parseOneElf`,
and the scan completes.  Then `m_executableSegments` holds, in section order,
exactly the sections whose flags have both `SHF_EXECINSTR` and `SHF_ALLOC` set,
each as a segment with physical base = virtual base = `sh_addr` and size =
`sh_size` (and the bytes of the file from `sh_offset` on as byte copy); and
`m_curSegments` holds the declared segments unchanged when any were given to
`addFile`, and is equal to `m_executableSegments` otherwise. -/
theorem C19_segments_after_scan (env : Env) (st st1 st2 : ElfInstance) (filename : String)
    (data : Option (List phdr_data_segment)) (ok : Bool) (fileData : List Byte) (elf : Elf)
    (hadd : addFile env st filename data = some (ok, st1))
    (hscan : parseOneElf env st1 = some (true, st2))
    (hread : env.read_file filename = some fileData)
    (helf : env.elf_memory fileData = some elf) :
    st2.m_executableSegments = executableSegmentsOf st1.m_elfIs32Bit fileData elf.sections ∧
    st2.m_curSegments =
      (if (data.getD []).isEmpty then st2.m_executableSegments
       else (data.getD []).map (fun seg => (⟨none, seg.paddr, seg.vaddr, seg.size⟩ : Segment))) := by
  obtain ⟨_, hname, _⟩ := addFile_fresh env st st1 filename data ok hadd
  obtain ⟨hex0, hcur0, _⟩ := addFile_segments env st st1 filename data ok hadd
  obtain ⟨fileData2, elf2, st3, g, hread2, helf2, hloop, hgc⟩ := parseOneElf_true env st1 st2 hscan
  rw [hname, hread] at hread2
  cases hread2
  rw [helf] at helf2
  cases helf2
  obtain ⟨gcno, rfl⟩ := collectGcnoFiles_frame env g st3 st2 hgc
  obtain ⟨a1, a2⟩ := scanSections_segments _ _ _ _
    { st1 with m_addressVerifier := some (fileData.take EI_NIDENT) } st3 [] g hloop
  simp only [hex0, hcur0, List.nil_append] at a1 a2
  refine ⟨a1, ?_⟩
  show st3.m_curSegments = if (data.getD []).isEmpty then st3.m_executableSegments else _
  rw [a2, a1]
  cases hd : data.getD [] with
  | nil => simp
  | cons x xs => simp

/-- Witness for C19: the sample executable added without declared segments; its
`.text` section at `0x1000` is the one executable and loadable section. -/
theorem C19_segments_after_scan_witness :
    (sampleScanned sampleElf).m_executableSegments
      = [⟨some [0x7f, 0x45, 0x4c, 0x46], 0x1000, 0x1000, 4⟩] ∧
    (sampleScanned sampleElf).m_executableSegments
      = executableSegmentsOf (sampleAdded sampleElf).m_elfIs32Bit sampleFileData
          sampleElf.sections ∧
    (sampleScanned sampleElf).m_curSegments =
      (if ((none : Option (List phdr_data_segment)).getD []).isEmpty
        then (sampleScanned sampleElf).m_executableSegments
       else ((none : Option (List phdr_data_segment)).getD []).map
        (fun seg => (⟨none, seg.paddr, seg.vaddr, seg.size⟩ : Segment))) :=
  ⟨by decide,
   C19_segments_after_scan (sampleElfEnv sampleElf) ElfInstance.new (sampleAdded sampleElf)
    (sampleScanned sampleElf) "/bin/app" none true sampleFileData sampleElf rfl rfl rfl rfl⟩

/-! ## C16: the checksum returned by `getChecksum` -/

/-- Effect of `checkFile` on `m_checksum`: it is kept, unless it is zero, in
which case it becomes the checksum just computed. -/
theorem checkFile_checksum (env : Env) (st st1 : ElfInstance) (ok : Bool)
    (h : checkFile env st = some (ok, st1)) :
    st1.m_checksum = st.m_checksum ∨
      (st.m_checksum = 0 ∧ st1.m_checksum = st1.m_currentChecksum) := by
  unfold checkFile at h
  split at h
  · cases h; exact Or.inl rfl
  · split at h
    · cases h; exact Or.inl rfl
    · rename_i elf helf
      dsimp only at h
      split at h
      · cases h
      · rename_i st2 hmain
        have h2 : st2.m_checksum = st.m_checksum := by
          split at hmain
          · split at hmain
            · cases hmain
            · cases hmain
              split
              · rfl
              · split <;> rfl
          · cases hmain; rfl
        split at h
        · rename_i hz
          cases h
          exact Or.inr ⟨by rw [← h2]; exact hz, rfl⟩
        · cases h
          exact Or.inl h2

/-- A checksum that is not zero survives every later `addFile`. -/
theorem addFile_keeps_nonzero_checksum (env : Env) (st st1 : ElfInstance) (filename : String)
    (data : Option (List phdr_data_segment)) (ok : Bool)
    (h : addFile env st filename data = some (ok, st1)) (hnz : st.m_checksum ≠ 0) :
    getChecksum st1 = getChecksum st := by
  unfold addFile at h
  dsimp only at h
  split at h
  · cases h
  · rename_i st0 hinit
    have h0 : st0.m_checksum = st.m_checksum := by
      split at hinit
      · split at hinit
        · cases hinit
        · cases hinit; rfl
      · cases hinit; rfl
    have key : ∀ (b : Bool) (st3 : ElfInstance), checkFile env
        { st0 with
          m_filename := filename
          m_buildId := ""
          m_debuglink := ""
          m_curSegments := (data.getD []).map (fun seg => ⟨none, seg.paddr, seg.vaddr, seg.size⟩)
          m_executableSegments := [] } = some (b, st3) → st3.m_checksum = st.m_checksum := by
      intro b st3 hck
      rcases checkFile_checksum env _ _ _ hck with e | ⟨e, _⟩
      · exact e.trans h0
      · exact absurd (h0.symm.trans e) hnz
    split at h
    · cases h
    · rename_i st3 hck
      cases h
      exact key _ _ hck
    · rename_i st3 hck
      cases h
      have := key _ _ hck
      unfold getChecksum
      dsimp only
      split <;> exact this

/-- C16 (code at the failing input): the main binary `/bin/app` has the content
checksum `c1 = 0` and the library `/lib/libfoo.so`, added after `parse ()`, has
the content checksum `c2 = 5`.  After the first `addFile` the checksum computed
is 0 and `getChecksum ()` returns 0; after the second `addFile` `getChecksum ()`
returns 5, the checksum of the library, and not `c1`. -/
theorem C16_zero_checksum_is_overwritten :
    after (addFile twoFileEnv freshParser "/bin/app" none) (fun st => st.m_currentChecksum)
      = some 0 ∧
    after (addFile twoFileEnv freshParser "/bin/app" none) getChecksum = some 0 ∧
    after (andThen (andThen (addFile twoFileEnv freshParser "/bin/app" none)
        (fun st => parse twoFileEnv st))
        (fun st => addFile twoFileEnv st "/lib/libfoo.so" (some [⟨0x1000, 0x7000, 0x100⟩])))
      (fun st => st.m_currentChecksum) = some 5 ∧
    after (andThen (andThen (addFile twoFileEnv freshParser "/bin/app" none)
        (fun st => parse twoFileEnv st))
        (fun st => addFile twoFileEnv st "/lib/libfoo.so" (some [⟨0x1000, 0x7000, 0x100⟩])))
      getChecksum = some 5 := by
  refine ⟨by decide, by decide, by decide, by decide⟩

/-! ## C11: the status message on invalid breakpoints -/

/-- Whatever `parseOneDwarf` adds to the status messages carries the number 0,
and it adds a message only when the counter `m_invalidBreakpoints` is positive;
with an opened line table it returns success. -/
theorem reportLines_status (env : Env) (st st1 : ElfInstance) (dp : Option (List LineEntry))
    (r : Bool) (h : reportLines env st 0 dp = some (r, st1)) :
    (dp.isSome = true → r = true) ∧
    (st1.statusLog = st.statusLog ∨
      (st1.statusLog = st.statusLog ++ [(0, st1.m_filename)] ∧ 0 < st1.m_invalidBreakpoints)) := by
  cases dp with
  | none =>
    refine ⟨fun hc => by simp at hc, ?_⟩
    unfold reportLines at h
    dsimp only at h
    split at h
    · cases h; exact Or.inl rfl
    · split at h
      · cases h
      · rename_i st5 h5
        cases h
        obtain ⟨ib, calls, rfl⟩ := reportAddresses_frame env st _ _ h5
        exact Or.inl rfl
  | some lines =>
    unfold reportLines at h
    dsimp only at h
    split at h
    · cases h
    · rename_i st5 h5
      obtain ⟨ib, calls, rfl⟩ := forEachLine_frame env st _ _ h5
      split at h
      · rename_i hpos
        cases h
        exact ⟨fun _ => rfl, Or.inr ⟨rfl, hpos⟩⟩
      · cases h
        exact ⟨fun _ => rfl, Or.inl rfl⟩

/-- C11 (code at the failing input): address verification is enabled, the line
table of `/bin/app` has two entries whose addresses `0x1000` and `0x1001` lie in
the scanned executable segment `[0x1000, 0x1004)`, and the verifier rejects
both.  The parse returns success and forwards nothing, the member
`m_invalidBreakpoints` is 2, and the status message that is printed reports
0 invalid breakpoints. -/
theorem C11_status_message_reports_zero :
    resultOf (andThen (addFile (scenarioEnv sampleElf (fun k => if k = "verify" then 1 else 0)
          (some [⟨"main.c", 1, 0x1000⟩, ⟨"main.c", 2, 0x1001⟩]) [] false) freshParser "/bin/app" none)
        (fun st => parse (scenarioEnv sampleElf (fun k => if k = "verify" then 1 else 0)
          (some [⟨"main.c", 1, 0x1000⟩, ⟨"main.c", 2, 0x1001⟩]) [] false) st)) = some true ∧
    after (andThen (addFile (scenarioEnv sampleElf (fun k => if k = "verify" then 1 else 0)
          (some [⟨"main.c", 1, 0x1000⟩, ⟨"main.c", 2, 0x1001⟩]) [] false) freshParser "/bin/app" none)
        (fun st => parse (scenarioEnv sampleElf (fun k => if k = "verify" then 1 else 0)
          (some [⟨"main.c", 1, 0x1000⟩, ⟨"main.c", 2, 0x1001⟩]) [] false) st))
      (fun st => (st.m_verifyAddresses, st.m_executableSegments.map
        (fun seg => (seg.m_paddr, seg.m_size)), st.lineCalls, st.m_invalidBreakpoints))
      = some (true, [(0x1000, 4)], [], 2) ∧
    after (andThen (addFile (scenarioEnv sampleElf (fun k => if k = "verify" then 1 else 0)
          (some [⟨"main.c", 1, 0x1000⟩, ⟨"main.c", 2, 0x1001⟩]) [] false) freshParser "/bin/app" none)
        (fun st => parse (scenarioEnv sampleElf (fun k => if k = "verify" then 1 else 0)
          (some [⟨"main.c", 1, 0x1000⟩, ⟨"main.c", 2, 0x1001⟩]) [] false) st))
      (fun st => st.statusLog) = some [(0, "/bin/app")] := by
  refine ⟨by decide, by decide, by decide⟩

/-! ## C14: no debug information and no database entry -/

/-- The flag returned by `doParse` is false only when `lstat` fails. -/
theorem doParse_false (env : Env) (st st1 : ElfInstance) (relocation : Nat)
    (h : doParse env st relocation = some (false, st1)) :
    env.lstat_ok st.m_filename = false := by
  unfold doParse at h
  split at h
  · rename_i hl
    simpa using hl
  · split at h
    · cases h
    · split at h
      · cases h
      · split at h
        · cases h
        · cases h

/-- C14 (code at the failing input): `/bin/app` is a static main binary without
debug information of its own, without build-id and debug link, and with an
empty database entry.  `parseOneDwarf` returns false on it, and the public
call `parse ()` returns true.  In the deferred flow of a position-independent
main binary `setMainFileRelocation` returns true as well. -/
theorem C14_parse_returns_true_without_debug_info :
    after (addFile (scenarioEnv sampleElfWithoutNote (fun _ => 0) none [] true) freshParser
        "/bin/app" none)
      (fun st => (st.m_isMainFile, st.m_elfIsShared)) = some (true, false) ∧
    resultOf (andThen (andThen (addFile (scenarioEnv sampleElfWithoutNote (fun _ => 0) none [] true)
          freshParser "/bin/app" none)
        (fun st => parseOneElf (scenarioEnv sampleElfWithoutNote (fun _ => 0) none [] true) st))
        (fun st => parseOneDwarf (scenarioEnv sampleElfWithoutNote (fun _ => 0) none [] true) st 0))
      = some false ∧
    resultOf (andThen (addFile (scenarioEnv sampleElfWithoutNote (fun _ => 0) none [] true)
          freshParser "/bin/app" none)
        (fun st => parse (scenarioEnv sampleElfWithoutNote (fun _ => 0) none [] true) st))
      = some true ∧
    resultOf (andThen (andThen (addFile
          (scenarioEnv { sampleElfWithoutNote with e_type64 := some ET_DYN }
            (fun k => if k = "parse-solibs" then 1 else 0) none [] true) freshParser "/bin/app" none)
        (fun st => parse (scenarioEnv { sampleElfWithoutNote with e_type64 := some ET_DYN }
            (fun k => if k = "parse-solibs" then 1 else 0) none [] true) st))
        (fun st => setMainFileRelocation
          (scenarioEnv { sampleElfWithoutNote with e_type64 := some ET_DYN }
            (fun k => if k = "parse-solibs" then 1 else 0) none [] true) st 0x1000))
      = some true := by
  refine ⟨by decide, by decide, by decide, by decide⟩

/-! ## Forwarding of a whole line table -/

/-- Whether an address is accepted does not depend on the counter. -/
theorem addressIsValidFrom_fst (env : Env) (st : ElfInstance) (segs : List Segment)
    (addr ib : Nat) :
    (addressIsValidFrom env st segs addr ib).1 = (addressIsValidFrom env st segs addr 0).1 := by
  induction segs with
  | nil => rfl
  | cons s rest ih =>
    unfold addressIsValidFrom
    by_cases hs : s.addressIsWithinSegment addr = true
    · simp only [hs, if_true]
      by_cases hv : st.m_verifyAddresses = true
      · simp only [hv, if_true]
        cases env.verify st.m_addressVerifier s.getData s.getSize (u64sub addr s.getBase) <;> rfl
      · simp [hv]
    · simp only [hs]
      exact ih

/-- The expected calls read only the segments, the verifier, the registrations
and the relocation of the state. -/
theorem callsFor_congr (env : Env) (st st2 : ElfInstance) (mangle : String → String)
    (file : String) (lineNr addr : Nat)
    (h1 : st2.m_verifyAddresses = st.m_verifyAddresses)
    (h2 : st2.m_addressVerifier = st.m_addressVerifier)
    (h3 : st2.m_executableSegments = st.m_executableSegments)
    (h4 : st2.m_lineListeners = st.m_lineListeners)
    (h5 : st2.m_curSegments = st.m_curSegments)
    (h6 : st2.m_relocation = st.m_relocation) :
    callsFor env st2 mangle file lineNr addr = callsFor env st mangle file lineNr addr := by
  unfold callsFor addressIsValid
  rw [h3, h4, h5, h6, addressIsValidFrom_congr env st st2 _ _ _ h1 h2]

/-- What `onLine` does with any entry once a filter is set. -/
theorem onLine_eq (env : Env) (st : ElfInstance) (file : String) (lineNr addr : Nat)
    (mangle : String → String) (hf : st.m_filter = some mangle) :
    ∃ ib, onLine env st file lineNr addr = some { st with
      m_invalidBreakpoints := ib
      lineCalls := st.lineCalls ++ callsFor env st mangle file lineNr addr } := by
  by_cases hv : (addressIsValid env st addr st.m_invalidBreakpoints).1 = true
  · have hv0 : (addressIsValid env st addr 0).1 = true := by
      unfold addressIsValid; rw [← addressIsValidFrom_fst]; exact hv
    refine ⟨st.m_invalidBreakpoints, ?_⟩
    rw [onLine_valid env st file lineNr addr mangle hf hv]
    simp only [callsFor, hv0, if_true]
  · have hvf : (addressIsValid env st addr st.m_invalidBreakpoints).1 = false := by
      simpa using hv
    have hv0 : (addressIsValid env st addr 0).1 = false := by
      unfold addressIsValid; rw [← addressIsValidFrom_fst env st _ _ st.m_invalidBreakpoints]
      exact hvf
    refine ⟨(addressIsValid env st addr st.m_invalidBreakpoints).2, ?_⟩
    unfold onLine
    simp only [hvf, callsFor, hv0, List.append_nil, Bool.not_false, if_true]
    simp

/-- The walk of a line table once a filter is set: it completes, and the calls
of the entries are appended in table order. -/
theorem forEachLine_eq (env : Env) (st : ElfInstance) (entries : List LineEntry)
    (mangle : String → String) (hf : st.m_filter = some mangle) :
    ∃ ib, forEachLine env st entries = some { st with
      m_invalidBreakpoints := ib
      lineCalls := st.lineCalls ++
        entries.flatMap (fun e => callsFor env st mangle e.file e.lineNr e.addr) } := by
  induction entries generalizing st with
  | nil => exact ⟨st.m_invalidBreakpoints, by simp [forEachLine]⟩
  | cons e rest ih =>
    obtain ⟨ib1, h1⟩ := onLine_eq env st e.file e.lineNr e.addr mangle hf
    obtain ⟨ib, h2⟩ := ih { st with
      m_invalidBreakpoints := ib1
      lineCalls := st.lineCalls ++ callsFor env st mangle e.file e.lineNr e.addr } hf
    refine ⟨ib, ?_⟩
    unfold forEachLine
    rw [h1]
    dsimp only
    rw [h2]
    have hc : ∀ e2 : LineEntry, callsFor env { st with
        m_invalidBreakpoints := ib1
        lineCalls := st.lineCalls ++ callsFor env st mangle e.file e.lineNr e.addr }
          mangle e2.file e2.lineNr e2.addr = callsFor env st mangle e2.file e2.lineNr e2.addr :=
      fun e2 => callsFor_congr env st _ mangle _ _ _ rfl rfl rfl rfl rfl rfl
    simp only [hc, List.flatMap_cons, List.append_assoc]

/-- The walk of the stored addresses is the walk of a line table whose entries
all carry the empty file name and line 1. -/
theorem reportAddresses_eq_forEachLine (env : Env) (st : ElfInstance) (addrs : List Nat) :
    reportAddresses env st addrs
      = forEachLine env st (addrs.map (fun a => (⟨"", 1, a⟩ : LineEntry))) := by
  induction addrs generalizing st with
  | nil => rfl
  | cons a rest ih =>
    unfold reportAddresses forEachLine
    dsimp only [List.map_cons]
    cases onLine env st "" 1 a with
    | none => rfl
    | some st1 => exact ih st1

/-! ## What the object scan leaves alone -/

/-- A pass through the loop body leaves the listeners, the calls made so far,
the filter and the file name as they were. -/
theorem scanSection_keeps (fileData : List Byte) (doScan setup : Bool) (scn : Elf_Scn)
    (st : ElfInstance) (g : List String) (r : ScanStep)
    (h : scanSection fileData doScan setup scn st g = some r) :
    ∃ st1, (r = .abort st1 ∨ ∃ g1, r = .next st1 g1) ∧
      st1.lineCalls = st.lineCalls ∧ st1.m_filter = st.m_filter ∧
      st1.m_lineListeners = st.m_lineListeners ∧ st1.m_filename = st.m_filename := by
  cases r with
  | abort s =>
    refine ⟨s, Or.inl rfl, ?_⟩
    unfold scanSection at h
    split at h
    · cases h
    · split at h
      · cases h; exact ⟨rfl, rfl, rfl, rfl⟩
      · simp only [Option.bind_eq_some] at h
        obtain ⟨_, _, _, _, _, _, _, _, h5⟩ := h
        cases h5
  | next s g1 =>
    refine ⟨s, Or.inr ⟨g1, rfl⟩, ?_⟩
    obtain ⟨shdr, d_buf, st1, st2, st3, _, _, h1, h2, h3, h4⟩ :=
      scanSection_next _ _ _ _ _ _ _ _ h
    obtain ⟨_, rfl⟩ := scanSectionRodata_frame _ _ _ _ _ _ _ h1
    obtain ⟨_, _, rfl⟩ := scanSectionNote_some _ _ _ _ h2
    obtain ⟨_, _, rfl⟩ := scanSectionDebuglink_frame _ _ _ _ h3
    obtain ⟨_, _, rfl⟩ := scanSectionSegment_frame _ _ _ _ _ h4
    exact ⟨rfl, rfl, rfl, rfl⟩

/-- The section loop leaves the listeners, the calls made so far, the filter
and the file name as they were, however it ends. -/
theorem scanSections_keeps (fileData : List Byte) (doScan setup : Bool)
    (secs : List Elf_Scn) (st : ElfInstance) (g : List String) (r : ScanStep)
    (h : scanSections fileData doScan setup secs st g = some r) :
    ∃ st1, (r = .abort st1 ∨ ∃ g1, r = .next st1 g1) ∧
      st1.lineCalls = st.lineCalls ∧ st1.m_filter = st.m_filter ∧
      st1.m_lineListeners = st.m_lineListeners ∧ st1.m_filename = st.m_filename := by
  induction secs generalizing st g with
  | nil =>
    simp only [scanSections, Option.some.injEq] at h
    exact ⟨st, Or.inr ⟨g, h.symm⟩, rfl, rfl, rfl, rfl⟩
  | cons scn rest ih =>
    unfold scanSections at h
    split at h
    · cases h
    · rename_i s1 h1
      cases h
      obtain ⟨s, hs, k⟩ := scanSection_keeps _ _ _ _ _ _ _ h1
      rcases hs with hs | ⟨_, hs⟩
      · cases hs; exact ⟨_, Or.inl rfl, k⟩
      · cases hs
    · rename_i s1 g1 h1
      obtain ⟨s, hs, k1, k2, k3, k4⟩ := scanSection_keeps _ _ _ _ _ _ _ h1
      have hs1 : s = s1 := by
        rcases hs with hs | ⟨_, hs⟩
        · cases hs
        · cases hs; rfl
      subst hs1
      obtain ⟨s2, hs2, j1, j2, j3, j4⟩ := ih _ _ h
      exact ⟨s2, hs2, j1.trans k1, j2.trans k2, j3.trans k3, j4.trans k4⟩

/-- The object scan `parseOneElf` calls no line listener and leaves the
registrations, the filter and the file name as they were, whatever it returns. -/
theorem parseOneElf_keeps (env : Env) (st st1 : ElfInstance) (b : Bool)
    (h : parseOneElf env st = some (b, st1)) :
    st1.lineCalls = st.lineCalls ∧ st1.m_filter = st.m_filter ∧
    st1.m_lineListeners = st.m_lineListeners ∧ st1.m_filename = st.m_filename := by
  unfold parseOneElf at h
  dsimp only at h
  split at h
  · cases h; exact ⟨rfl, rfl, rfl, rfl⟩
  · rename_i fileData hread
    split at h
    · cases h; exact ⟨rfl, rfl, rfl, rfl⟩
    · rename_i elf helf
      split at h
      · cases h; exact ⟨rfl, rfl, rfl, rfl⟩
      · split at h
        · cases h
        · rename_i s2 hscan
          cases h
          obtain ⟨s, hs, k⟩ := scanSections_keeps _ _ _ _ _ _ _ hscan
          rcases hs with hs | ⟨_, hs⟩
          · cases hs; exact k
          · cases hs
        · rename_i s2 g2 hscan
          obtain ⟨s, hs, k1, k2, k3, k4⟩ := scanSections_keeps _ _ _ _ _ _ _ hscan
          have hs1 : s = s2 := by
            rcases hs with hs | ⟨_, hs⟩
            · cases hs
            · cases hs; rfl
          subst hs1
          split at h
          · cases h
          · rename_i st3 hgc
            cases h
            obtain ⟨_, rfl⟩ := collectGcnoFiles_frame env _ _ _ hgc
            exact ⟨k1, k2, k3, k4⟩

/-! ## What `parseOneDwarf` forwards -/

/-- When the line table of the file itself opens, `parseOneDwarf` returns
success and has appended the calls of its entries, in table order. -/
theorem parseOneDwarf_opened (env : Env) (st : ElfInstance) (relocation : Nat)
    (lines : List LineEntry) (mangle : String → String)
    (hopen : env.dwarf st.m_filename = some lines) (hf : st.m_filter = some mangle) :
    ∃ st2, parseOneDwarf env st relocation = some (true, st2) ∧
      st2.lineCalls = st.lineCalls ++ lines.flatMap (fun e =>
        callsFor env { st with m_relocation := relocation } mangle e.file e.lineNr e.addr) := by
  obtain ⟨ib, h⟩ := forEachLine_eq env { st with
    m_invalidBreakpoints := 0, m_relocation := relocation,
    dwarfOpens := st.dwarfOpens ++ [st.m_filename] } lines mangle hf
  have hc : ∀ e : LineEntry, callsFor env { st with
      m_invalidBreakpoints := 0, m_relocation := relocation,
      dwarfOpens := st.dwarfOpens ++ [st.m_filename] } mangle e.file e.lineNr e.addr
      = callsFor env { st with m_relocation := relocation } mangle e.file e.lineNr e.addr :=
    fun e => callsFor_congr env _ _ mangle _ _ _ rfl rfl rfl rfl rfl rfl
  simp only [hc] at h
  unfold parseOneDwarf
  simp only [hopen, openByBuildId, openByDebugLink, Option.isNone_some, Bool.false_and,
    Bool.false_eq_true, if_false, reportLines, h]
  split
  · exact ⟨_, rfl, rfl⟩
  · exact ⟨_, rfl, rfl⟩

/-- The fallback of `parseOneDwarf`: when no source opens and the database has
addresses for the checksum, it returns success and has appended, in database
order, the calls of the entries `("", 1, address)`. -/
theorem parseOneDwarf_fallback (env : Env) (st : ElfInstance) (relocation : Nat)
    (mangle : String → String)
    (hnone : ∀ p, env.dwarf p = none) (hid : st.m_buildId.length ≠ 1)
    (hdb : env.database st.m_currentChecksum ≠ []) (hf : st.m_filter = some mangle) :
    ∃ st2, parseOneDwarf env st relocation = some (true, st2) ∧
      st2.lineCalls = st.lineCalls ++ (env.database st.m_currentChecksum).flatMap (fun a =>
        callsFor env { st with m_relocation := relocation } mangle "" 1 a) := by
  have hempty : (env.database st.m_currentChecksum).isEmpty = false := by
    cases hl : env.database st.m_currentChecksum with
    | nil => exact absurd hl hdb
    | cons _ _ => rfl
  -- the state in which the database is consulted
  have key : ∀ st3 : ElfInstance, st3.m_filter = some mangle →
      st3.m_currentChecksum = st.m_currentChecksum →
      st3.lineCalls = st.lineCalls →
      (∀ a, callsFor env st3 mangle "" 1 a
        = callsFor env { st with m_relocation := relocation } mangle "" 1 a) →
      ∃ st2, reportLines env st3 0 none = some (true, st2) ∧
        st2.lineCalls = st.lineCalls ++ (env.database st.m_currentChecksum).flatMap (fun a =>
          callsFor env { st with m_relocation := relocation } mangle "" 1 a) := by
    intro st3 h3 hsum hcalls hc
    obtain ⟨ib, h⟩ := forEachLine_eq env st3
      ((env.database st.m_currentChecksum).map (fun a => (⟨"", 1, a⟩ : LineEntry))) mangle h3
    rw [← reportAddresses_eq_forEachLine] at h
    unfold reportLines
    simp only [hsum, hempty, Bool.false_and, Bool.false_eq_true, if_false, h]
    refine ⟨_, rfl, ?_⟩
    simp only [hcalls, List.flatMap_map, hc]
  unfold parseOneDwarf
  simp only [hnone]
  by_cases hlen : st.m_buildId.length > 0
  · have h2 : 2 ≤ st.m_buildId.length := by omega
    simp only [openByBuildId, Option.isNone_none, hlen, decide_True, Bool.and_self, if_true,
      buildIdDebugFile_of_two_le _ h2, hnone]
    unfold openByDebugLink
    simp only [Option.isNone_none, Bool.true_and, hnone]
    split
    · split
      · exact key _ hf rfl rfl (fun a => callsFor_congr env _ _ mangle _ _ _ rfl rfl rfl rfl rfl rfl)
      · exact key _ hf rfl rfl (fun a => callsFor_congr env _ _ mangle _ _ _ rfl rfl rfl rfl rfl rfl)
    · exact key _ hf rfl rfl (fun a => callsFor_congr env _ _ mangle _ _ _ rfl rfl rfl rfl rfl rfl)
  · simp only [openByBuildId, Option.isNone_none, hlen, decide_False, Bool.and_false,
      Bool.false_eq_true, if_false]
    unfold openByDebugLink
    simp only [Option.isNone_none, Bool.true_and, hnone]
    split
    · split
      · exact key _ hf rfl rfl (fun a => callsFor_congr env _ _ mangle _ _ _ rfl rfl rfl rfl rfl rfl)
      · exact key _ hf rfl rfl (fun a => callsFor_congr env _ _ mangle _ _ _ rfl rfl rfl rfl rfl rfl)
    · exact key _ hf rfl rfl (fun a => callsFor_congr env _ _ mangle _ _ _ rfl rfl rfl rfl rfl rfl)

/-! ## C15: the database fallback -/

/-- C15 (counterexample): `/bin/app` has one scanned executable segment
`[0x1000, 0x1004)`, no source of line information opens, and the database entry
of its checksum is `[0x2000]`.  One line listener is registered; the parse
returns success and the listener has received no call, where the claim promises
one call per database address.  With the entry `[0x1000]` the listener receives
the one call `("", 1, 0x1000)`. -/
theorem C15_counterexample_address_outside_segments :
    after (andThen (addFile (scenarioEnv sampleElf (fun _ => 0) none [0x2000] true) freshParser
          "/bin/app" none)
        (fun st => parse (scenarioEnv sampleElf (fun _ => 0) none [0x2000] true) st))
      (fun st => (st.m_executableSegments.map (fun seg => (seg.m_paddr, seg.m_size)),
        st.m_lineListeners, st.lineCalls))
      = some ([(0x1000, 4)], [0], []) ∧
    resultOf (andThen (addFile (scenarioEnv sampleElf (fun _ => 0) none [0x2000] true) freshParser
          "/bin/app" none)
        (fun st => parse (scenarioEnv sampleElf (fun _ => 0) none [0x2000] true) st))
      = some true ∧
    lineCallsOf (andThen (addFile (scenarioEnv sampleElf (fun _ => 0) none [0x1000] true)
          freshParser "/bin/app" none)
        (fun st => parse (scenarioEnv sampleElf (fun _ => 0) none [0x1000] true) st))
      = some [⟨0, "", 1, 0x1000⟩] := by
  refine ⟨by decide, by decide, by decide⟩

/-- C15 (amended): no source of line information opens (and the build-id, when
there is one, has at least two characters, so that its path can be formed), and
the database entry of the checksum of the file is non-empty.  Then
`parseOneDwarf` returns success, and the calls it has made on line listeners
are, in database order, for every database address that `addressIsValid`
accepts (the address lies in a scanned executable segment and, with
verification enabled, passes the verifier) one call per registration, with line
number 1, the file name that the filter returns for the empty name, and the
address translated by the declared segments plus the relocation; an address
that is not accepted is reported to no listener. -/
theorem C15_fallback_reports_accepted_addresses (env : Env) (st : ElfInstance)
    (relocation : Nat) (mangle : String → String)
    (hnone : ∀ p, env.dwarf p = none) (hid : st.m_buildId.length ≠ 1)
    (hdb : env.database st.m_currentChecksum ≠ []) (hf : st.m_filter = some mangle) :
    ∃ st2, parseOneDwarf env st relocation = some (true, st2) ∧
      st2.lineCalls = st.lineCalls ++ (env.database st.m_currentChecksum).flatMap (fun a =>
        if (addressIsValid env st a 0).1 then
          st.m_lineListeners.map (fun it =>
            (⟨it, mangle "", 1,
              (adjustAddressBySegment st.m_curSegments a + relocation) % 2 ^ 64⟩ : LineCall))
        else []) := by
  obtain ⟨st2, h1, h2⟩ := parseOneDwarf_fallback env st relocation mangle hnone hid hdb hf
  refine ⟨st2, h1, ?_⟩
  rw [h2]
  have hv : ∀ a, addressIsValid env { st with m_relocation := relocation } a 0
      = addressIsValid env st a 0 :=
    fun a => addressIsValidFrom_congr env st _ _ _ _ rfl rfl
  simp only [callsFor, hv]

/-- Witness for C15: the scenario state (executable segment `[0x1000, 0x1100)`,
declared segment from `0x1000` to `0x5000`, two listeners) with the database
entry `[0x1010, 0x2000]`: the first address is reported to both listeners as
`0x5010`, the second to none. -/
theorem C15_fallback_reports_accepted_addresses_witness :
    ∃ st2, parseOneDwarf (scenarioEnv sampleElf (fun _ => 0) none [0x1010, 0x2000] true)
        scenarioState 0 = some (true, st2) ∧
      st2.lineCalls = [⟨0, "", 1, 0x5010⟩, ⟨1, "", 1, 0x5010⟩] :=
  (C15_fallback_reports_accepted_addresses
    (scenarioEnv sampleElf (fun _ => 0) none [0x1010, 0x2000] true) scenarioState 0
    (fun path => path) (fun p => by simp [scenarioEnv]) (by decide) (by decide) rfl).imp
    (fun _ h => ⟨h.1, h.2.trans (by decide)⟩)

/-! ## C13: `setMainFileRelocation` after a parse -/

/-- C13 (counterexample): `/bin/app` is a position-independent main binary,
`parse-solibs` is enabled, and its line table has the one entry
`("main.c", 1, 0x1000)`.  After `addFile` and `parse ()` no call has been made;
the first `setMainFileRelocation (0)` forwards the entry; the binary is now
parsed, and a second `setMainFileRelocation (0)` forwards the same entry once
more, so the listener has received it twice. -/
theorem C13_counterexample_second_relocation_call_emits_again :
    lineCallsOf (andThen (addFile (scenarioEnv samplePieElf
          (fun k => if k = "parse-solibs" then 1 else 0) (some [⟨"main.c", 1, 0x1000⟩]) [] true)
          freshParser "/bin/app" none)
        (fun st => parse (scenarioEnv samplePieElf
          (fun k => if k = "parse-solibs" then 1 else 0) (some [⟨"main.c", 1, 0x1000⟩]) [] true) st))
      = some [] ∧
    lineCallsOf (andThen (andThen (addFile (scenarioEnv samplePieElf
          (fun k => if k = "parse-solibs" then 1 else 0) (some [⟨"main.c", 1, 0x1000⟩]) [] true)
          freshParser "/bin/app" none)
        (fun st => parse (scenarioEnv samplePieElf
          (fun k => if k = "parse-solibs" then 1 else 0) (some [⟨"main.c", 1, 0x1000⟩]) [] true) st))
        (fun st => setMainFileRelocation (scenarioEnv samplePieElf
          (fun k => if k = "parse-solibs" then 1 else 0) (some [⟨"main.c", 1, 0x1000⟩]) [] true) st 0))
      = some [⟨0, "main.c", 1, 0x1000⟩] ∧
    lineCallsOf (andThen (andThen (andThen (addFile (scenarioEnv samplePieElf
          (fun k => if k = "parse-solibs" then 1 else 0) (some [⟨"main.c", 1, 0x1000⟩]) [] true)
          freshParser "/bin/app" none)
        (fun st => parse (scenarioEnv samplePieElf
          (fun k => if k = "parse-solibs" then 1 else 0) (some [⟨"main.c", 1, 0x1000⟩]) [] true) st))
        (fun st => setMainFileRelocation (scenarioEnv samplePieElf
          (fun k => if k = "parse-solibs" then 1 else 0) (some [⟨"main.c", 1, 0x1000⟩]) [] true) st 0))
        (fun st => setMainFileRelocation (scenarioEnv samplePieElf
          (fun k => if k = "parse-solibs" then 1 else 0) (some [⟨"main.c", 1, 0x1000⟩]) [] true) st 0))
      = some [⟨0, "main.c", 1, 0x1000⟩, ⟨0, "main.c", 1, 0x1000⟩] := by
  refine ⟨by decide, by decide, by decide⟩

/-! ## C12: the relocation protocol of `parse` -/

/-- With `lstat` succeeding, the object scan returning and no gcov data to
use, `doParse` is the object scan followed by `parseOneDwarf`, and returns
true. -/
theorem doParse_dwarf (env : Env) (st st1 : ElfInstance) (b : Bool) (relocation : Nat)
    (hstat : env.lstat_ok st.m_filename = true)
    (hscan : parseOneElf env st = some (b, st1))
    (hg : env.keyAsInt "gcov" = 0 ∨ st1.m_gcnoFiles = []) :
    doParse env st relocation
      = (parseOneDwarf env st1 relocation).map (fun p => (true, p.2)) := by
  unfold doParse
  have hcond : (decide (env.keyAsInt "gcov" ≠ 0) && !st1.m_gcnoFiles.isEmpty) = false := by
    rcases hg with hg | hg
    · simp [hg]
    · simp [hg]
  simp only [hstat, Bool.not_true, Bool.false_eq_true, if_false, hscan, hcond]
  cases parseOneDwarf env st1 relocation with
  | none => rfl
  | some p => rfl

/-- For a position-independent file `setMainFileRelocation` is `doParse`. -/
theorem setMainFileRelocation_of_shared (env : Env) (st : ElfInstance) (r : Nat)
    (h : st.m_elfIsShared = true) :
    setMainFileRelocation env st r = doParse env st r := by
  unfold setMainFileRelocation
  rw [h]
  simp only [if_true]
  cases hd : doParse env st r with
  | none => rfl
  | some p =>
    obtain ⟨b, s⟩ := p
    cases b <;> rfl

/-- C12: relocation protocol of `parse ()`.  `addFile` calls no line listener.
(1) If the file is the main file, is position-independent (`m_elfIsShared`) and
`parse-solibs` is enabled, `parse ()` returns true and changes nothing but the
main-file flag: no line listener is called; the full parse is what a later
`setMainFileRelocation (r)` runs, as `doParse (r)`.
(2) For a position-independent main file with `parse-solibs` disabled,
`parse ()` runs `doParse (0)` before it returns (and returns true).
(3) For a main file that is not position-independent and for a file that is
not the main file, `parse ()` runs `doParse (0)` before it returns, and returns
its result.
(4) In the cases (2) and (3), when `lstat` succeeds, the object scan returns,
no gcov data is used and the line table of the file opens, `parse ()` returns
true and has by then called the listeners for every entry of the table that
`addressIsValid` accepts after the scan: in table order, one call per
registration, with the mangled file name, the line number and the address
translated by the declared segments with relocation 0. -/
theorem C12_parse_relocation_protocol (env : Env) (st : ElfInstance) :
    (∀ filename data ok st1, addFile env st filename data = some (ok, st1) →
      st1.lineCalls = st.lineCalls) ∧
    (st.m_isMainFile = true → st.m_elfIsShared = true → env.keyAsInt "parse-solibs" ≠ 0 →
      parse env st = some (true, { st with m_isMainFile := false }) ∧
      ∀ r, setMainFileRelocation env { st with m_isMainFile := false } r
        = doParse env { st with m_isMainFile := false } r) ∧
    (st.m_isMainFile = true → st.m_elfIsShared = true → env.keyAsInt "parse-solibs" = 0 →
      parse env st
        = (doParse env st 0).map (fun p => (true, { p.2 with m_isMainFile := false }))) ∧
    ((st.m_isMainFile = false ∨ st.m_elfIsShared = false) →
      parse env st
        = (doParse env st 0).map (fun p => (p.1, { p.2 with m_isMainFile := false }))) ∧
    (∀ (b : Bool) (st1 : ElfInstance) (lines : List LineEntry) (mangle : String → String),
      ¬ (st.m_isMainFile = true ∧ st.m_elfIsShared = true ∧ env.keyAsInt "parse-solibs" ≠ 0) →
      env.lstat_ok st.m_filename = true →
      parseOneElf env st = some (b, st1) →
      (env.keyAsInt "gcov" = 0 ∨ st1.m_gcnoFiles = []) →
      env.dwarf st.m_filename = some lines →
      st.m_filter = some mangle →
      ∃ st2, parse env st = some (true, st2) ∧
        st2.lineCalls = st.lineCalls ++ lines.flatMap (fun e =>
          if (addressIsValid env st1 e.addr 0).1 then
            st.m_lineListeners.map (fun it =>
              (⟨it, mangle e.file, e.lineNr,
                (adjustAddressBySegment st1.m_curSegments e.addr + 0) % 2 ^ 64⟩ : LineCall))
          else [])) := by
  have h2 : st.m_isMainFile = true → st.m_elfIsShared = true →
      env.keyAsInt "parse-solibs" = 0 →
      parse env st
        = (doParse env st 0).map (fun p => (true, { p.2 with m_isMainFile := false })) := by
    intro hm hs hk
    unfold parse setMainFileRelocation
    simp only [hm, hs, hk, Bool.and_self, if_true]
    cases hd : doParse env st 0 with
    | none => rfl
    | some p =>
      obtain ⟨b, s⟩ := p
      cases b <;> rfl
  have h3 : (st.m_isMainFile = false ∨ st.m_elfIsShared = false) →
      parse env st
        = (doParse env st 0).map (fun p => (p.1, { p.2 with m_isMainFile := false })) := by
    intro hc
    have hcond : (st.m_isMainFile && st.m_elfIsShared) = false := by
      rcases hc with hc | hc
      · simp [hc]
      · simp [hc]
    unfold parse
    simp only [hcond, Bool.false_eq_true, if_false]
    cases hd : doParse env st 0 with
    | none => rfl
    | some p => rfl
  refine ⟨?_, ?_, h2, h3, ?_⟩
  · intro filename data ok st1 h
    exact (addFile_segments env st st1 filename data ok h).2.2
  · intro hm hs hk
    constructor
    · unfold parse
      simp only [hm, hs, hk, Bool.and_self, if_true, if_false]
    · intro r
      exact setMainFileRelocation_of_shared env _ r hs
  · intro b st1 lines mangle hnd hstat hscan hg hopen hf
    obtain ⟨k1, k2, k3, k4⟩ := parseOneElf_keeps env st st1 b hscan
    obtain ⟨st2, hp, hcalls⟩ := parseOneDwarf_opened env st1 0 lines mangle
      (by rw [k4]; exact hopen) (by rw [k2]; exact hf)
    have hd : doParse env st 0 = some (true, st2) := by
      rw [doParse_dwarf env st st1 b 0 hstat hscan hg, hp]; rfl
    have hv : ∀ a, addressIsValid env { st1 with m_relocation := 0 } a 0
        = addressIsValid env st1 a 0 :=
      fun a => addressIsValidFrom_congr env st1 _ _ _ _ rfl rfl
    have hres : st2.lineCalls = st.lineCalls ++ lines.flatMap (fun e =>
          if (addressIsValid env st1 e.addr 0).1 then
            st.m_lineListeners.map (fun it =>
              (⟨it, mangle e.file, e.lineNr,
                (adjustAddressBySegment st1.m_curSegments e.addr + 0) % 2 ^ 64⟩ : LineCall))
          else []) := by
      rw [hcalls]
      simp only [callsFor, hv]
      simp only [k1, k3]
    refine ⟨{ st2 with m_isMainFile := false }, ?_, hres⟩
    by_cases hc : st.m_isMainFile = true ∧ st.m_elfIsShared = true
    · have hk : env.keyAsInt "parse-solibs" = 0 := by
        by_contra hne
        exact hnd ⟨hc.1, hc.2, hne⟩
      rw [h2 hc.1 hc.2 hk, hd]; rfl
    · have hc2 : st.m_isMainFile = false ∨ st.m_elfIsShared = false := by
        by_cases hm : st.m_isMainFile = true
        · right
          cases hs : st.m_elfIsShared with
          | false => rfl
          | true => exact absurd ⟨hm, hs⟩ hc
        · left; simpa using hm
      rw [h3 hc2, hd]; rfl

/-- Witness for C12: the sample binary as position-independent main file with
`parse-solibs` enabled (deferral), as position-independent main file with
`parse-solibs` disabled, and as static main file whose line table has one
entry inside the executable segment `[0x1000, 0x1004)` and one outside. -/
theorem C12_parse_relocation_protocol_witness :
    parse (scenarioEnv samplePieElf (fun k => if k = "parse-solibs" then 1 else 0)
        (some [⟨"main.c", 1, 0x1000⟩]) [] true)
      (addedParser (scenarioEnv samplePieElf (fun k => if k = "parse-solibs" then 1 else 0)
        (some [⟨"main.c", 1, 0x1000⟩]) [] true))
      = some (true, { addedParser (scenarioEnv samplePieElf
          (fun k => if k = "parse-solibs" then 1 else 0)
          (some [⟨"main.c", 1, 0x1000⟩]) [] true) with m_isMainFile := false }) ∧
    (∃ st2, parse (scenarioEnv samplePieElf (fun _ => 0)
          (some [⟨"main.c", 1, 0x1000⟩, ⟨"main.c", 2, 0x2000⟩]) [] true)
        (addedParser (scenarioEnv samplePieElf (fun _ => 0)
          (some [⟨"main.c", 1, 0x1000⟩, ⟨"main.c", 2, 0x2000⟩]) [] true)) = some (true, st2) ∧
      st2.lineCalls = [⟨0, "main.c", 1, 0x1000⟩]) ∧
    (∃ st2, parse (scenarioEnv sampleElf (fun _ => 0)
          (some [⟨"main.c", 1, 0x1000⟩, ⟨"main.c", 2, 0x2000⟩]) [] true)
        (addedParser (scenarioEnv sampleElf (fun _ => 0)
          (some [⟨"main.c", 1, 0x1000⟩, ⟨"main.c", 2, 0x2000⟩]) [] true)) = some (true, st2) ∧
      st2.lineCalls = [⟨0, "main.c", 1, 0x1000⟩]) :=
  ⟨((C12_parse_relocation_protocol
      (scenarioEnv samplePieElf (fun k => if k = "parse-solibs" then 1 else 0)
        (some [⟨"main.c", 1, 0x1000⟩]) [] true)
      (addedParser (scenarioEnv samplePieElf (fun k => if k = "parse-solibs" then 1 else 0)
        (some [⟨"main.c", 1, 0x1000⟩]) [] true))).2.1 (by decide) (by decide) (by decide)).1,
   ((C12_parse_relocation_protocol
      (scenarioEnv samplePieElf (fun _ => 0)
        (some [⟨"main.c", 1, 0x1000⟩, ⟨"main.c", 2, 0x2000⟩]) [] true)
      (addedParser (scenarioEnv samplePieElf (fun _ => 0)
        (some [⟨"main.c", 1, 0x1000⟩, ⟨"main.c", 2, 0x2000⟩]) [] true))).2.2.2.2
      true
      (scannedParser (scenarioEnv samplePieElf (fun _ => 0)
        (some [⟨"main.c", 1, 0x1000⟩, ⟨"main.c", 2, 0x2000⟩]) [] true))
      [⟨"main.c", 1, 0x1000⟩, ⟨"main.c", 2, 0x2000⟩] (fun path => path)
      (by decide) (by decide) rfl (Or.inl rfl) rfl rfl).imp
      (fun _ h => ⟨h.1, h.2.trans (by decide)⟩),
   ((C12_parse_relocation_protocol
      (scenarioEnv sampleElf (fun _ => 0)
        (some [⟨"main.c", 1, 0x1000⟩, ⟨"main.c", 2, 0x2000⟩]) [] true)
      (addedParser (scenarioEnv sampleElf (fun _ => 0)
        (some [⟨"main.c", 1, 0x1000⟩, ⟨"main.c", 2, 0x2000⟩]) [] true))).2.2.2.2
      true
      (scannedParser (scenarioEnv sampleElf (fun _ => 0)
        (some [⟨"main.c", 1, 0x1000⟩, ⟨"main.c", 2, 0x2000⟩]) [] true))
      [⟨"main.c", 1, 0x1000⟩, ⟨"main.c", 2, 0x2000⟩] (fun path => path)
      (by decide) (by decide) rfl (Or.inl rfl) rfl rfl).imp
      (fun _ h => ⟨h.1, h.2.trans (by decide)⟩)⟩

/-! ## C21: the offset handed to the verifier -/

/-- The recorded call is the call that decides `addressIsValid`: with a call,
the result is the answer of the verifier on its arguments. -/
theorem addressIsValidFrom_of_call (env : Env) (st : ElfInstance) (segs : List Segment)
    (addr ib : Nat) (d : Option (List Byte)) (sz off : Nat)
    (h : verifierCallFrom st segs addr = some (d, sz, off)) :
    (addressIsValidFrom env st segs addr ib).1 = env.verify st.m_addressVerifier d sz off := by
  induction segs with
  | nil => simp [verifierCallFrom] at h
  | cons s rest ih =>
    unfold verifierCallFrom at h
    unfold addressIsValidFrom
    by_cases hs : s.addressIsWithinSegment addr = true
    · simp only [hs, if_true] at h ⊢
      by_cases hv : st.m_verifyAddresses = true
      · simp only [hv, if_true, Option.some.injEq, Prod.mk.injEq] at h ⊢
        obtain ⟨rfl, rfl, rfl⟩ := h
        cases env.verify st.m_addressVerifier s.getData s.getSize (u64sub addr s.getBase) <;> rfl
      · simp [hv] at h
    · simp only [hs, Bool.false_eq_true, if_false] at h ⊢
      exact ih h

/-- Without a recorded call the verifier plays no part in `addressIsValid`. -/
theorem addressIsValidFrom_of_no_call (env : Env) (st : ElfInstance) (segs : List Segment)
    (addr ib : Nat) (h : verifierCallFrom st segs addr = none) :
    addressIsValidFrom env st segs addr ib
      = (segs.any (fun s => s.addressIsWithinSegment addr), ib) := by
  induction segs with
  | nil => rfl
  | cons s rest ih =>
    unfold verifierCallFrom at h
    unfold addressIsValidFrom
    by_cases hs : s.addressIsWithinSegment addr = true
    · simp only [hs, if_true] at h ⊢
      by_cases hv : st.m_verifyAddresses = true
      · simp [hv] at h
      · simp [hv, hs]
    · simp only [hs, Bool.false_eq_true, if_false] at h ⊢
      rw [ih h]
      simp [hs]

/-- The call is made for the first segment that contains the address. -/
theorem verifierCallFrom_some (st : ElfInstance) (segs : List Segment) (addr : Nat)
    (d : Option (List Byte)) (sz off : Nat)
    (h : verifierCallFrom st segs addr = some (d, sz, off)) :
    ∃ s ∈ segs, s.addressIsWithinSegment addr = true ∧
      d = s.getData ∧ sz = s.getSize ∧ off = u64sub addr s.getBase := by
  induction segs with
  | nil => simp [verifierCallFrom] at h
  | cons s rest ih =>
    unfold verifierCallFrom at h
    by_cases hs : s.addressIsWithinSegment addr = true
    · simp only [hs, if_true] at h
      by_cases hv : st.m_verifyAddresses = true
      · simp only [hv, if_true, Option.some.injEq, Prod.mk.injEq] at h
        obtain ⟨rfl, rfl, rfl⟩ := h
        exact ⟨s, List.mem_cons_self _ _, hs, rfl, rfl, rfl⟩
      · simp [hv] at h
    · simp only [hs, Bool.false_eq_true, if_false] at h
      obtain ⟨t, ht, k⟩ := ih h
      exact ⟨t, List.mem_cons_of_mem _ ht, k⟩

/-- For a segment whose virtual base is its physical base, an address that the
segment contains lies `addr - getBase ()` below its size, on `uint64_t`. -/
theorem Segment.offset_lt_size (s : Segment) (addr : Nat) (hb : s.m_vaddr = s.m_paddr)
    (h : s.addressIsWithinSegment addr = true) :
    u64sub addr s.getBase < s.getSize ∧ u64sub addr s.getBase + s.getBase = addr := by
  obtain ⟨h1, h2⟩ := Segment.within_imp_range s addr h
  have h64 : addr < 2 ^ 64 := by
    simp only [Segment.addressIsWithinSegment, u64add, Bool.and_eq_true,
      decide_eq_true_eq] at h
    exact lt_of_lt_of_le h.2 (Nat.le_of_lt (Nat.mod_lt _ (by norm_num)))
  have hp : s.m_paddr % 2 ^ 64 = s.m_paddr := Nat.mod_eq_of_lt (by omega)
  have e : u64sub addr s.getBase = addr - s.m_paddr := by
    unfold u64sub Segment.getBase
    rw [hb, hp]
    have e1 : addr + (2 ^ 64 - s.m_paddr) = (addr - s.m_paddr) + 2 ^ 64 := by omega
    rw [e1, Nat.add_mod_right]
    exact Nat.mod_eq_of_lt (by omega)
  rw [e]
  unfold Segment.getSize Segment.getBase
  omega

/-- The constructor call of the scanner builds a segment of the scanner's
shape. -/
theorem Segment.create_built (bytes : List Byte) (addr size : Nat) (seg : Segment)
    (h : Segment.create (some bytes) addr addr size = some seg) :
    seg.builtByScanner = true := by
  unfold Segment.create at h
  dsimp only at h
  split at h
  · rename_i hle
    cases h
    simp [Segment.builtByScanner, List.length_take, hle]
  · cases h

/-- The last block of the loop body adds only segments of the scanner's shape
to `m_executableSegments`. -/
theorem scanSectionSegment_built (fileData : List Byte) (setup : Bool) (shdr : Elf_Shdr)
    (st st1 : ElfInstance)
    (hinv : ∀ s ∈ st.m_executableSegments, s.builtByScanner = true)
    (h : scanSectionSegment fileData setup shdr st = some st1) :
    ∀ s ∈ st1.m_executableSegments, s.builtByScanner = true := by
  unfold scanSectionSegment at h
  split at h
  · cases h; exact hinv
  · split at h
    · cases h
    · rename_i seg hseg
      cases h
      have hb := Segment.create_built _ _ _ _ hseg
      intro s hs
      cases setup
      · simp only [Bool.false_eq_true, if_false, List.mem_append, List.mem_singleton] at hs
        rcases hs with hs | hs
        · exact hinv s hs
        · rw [hs]; exact hb
      · simp only [if_true, List.mem_append, List.mem_singleton] at hs
        rcases hs with hs | hs
        · exact hinv s hs
        · rw [hs]; exact hb

/-- A pass through the loop body keeps `m_executableSegments` in the scanner's
shape, however it ends. -/
theorem scanSection_built (fileData : List Byte) (doScan setup : Bool) (scn : Elf_Scn)
    (st : ElfInstance) (g : List String) (r : ScanStep)
    (hinv : ∀ s ∈ st.m_executableSegments, s.builtByScanner = true)
    (h : scanSection fileData doScan setup scn st g = some r) :
    ∃ st1, (r = .abort st1 ∨ ∃ g1, r = .next st1 g1) ∧
      ∀ s ∈ st1.m_executableSegments, s.builtByScanner = true := by
  cases r with
  | abort s =>
    refine ⟨s, Or.inl rfl, ?_⟩
    unfold scanSection at h
    split at h
    · cases h
    · split at h
      · cases h; exact hinv
      · simp only [Option.bind_eq_some] at h
        obtain ⟨_, _, _, _, _, _, _, _, h5⟩ := h
        cases h5
  | next s g1 =>
    refine ⟨s, Or.inr ⟨g1, rfl⟩, ?_⟩
    obtain ⟨shdr, d_buf, st1, st2, st3, _, _, h1, h2, h3, h4⟩ :=
      scanSection_next _ _ _ _ _ _ _ _ h
    obtain ⟨_, rfl⟩ := scanSectionRodata_frame _ _ _ _ _ _ _ h1
    obtain ⟨_, _, rfl⟩ := scanSectionNote_some _ _ _ _ h2
    obtain ⟨_, _, rfl⟩ := scanSectionDebuglink_frame _ _ _ _ h3
    refine scanSectionSegment_built _ _ _ _ _ ?_ h4
    exact hinv

/-- The section loop keeps `m_executableSegments` in the scanner's shape,
however it ends. -/
theorem scanSections_built (fileData : List Byte) (doScan setup : Bool)
    (secs : List Elf_Scn) (st : ElfInstance) (g : List String) (r : ScanStep)
    (hinv : ∀ s ∈ st.m_executableSegments, s.builtByScanner = true)
    (h : scanSections fileData doScan setup secs st g = some r) :
    ∃ st1, (r = .abort st1 ∨ ∃ g1, r = .next st1 g1) ∧
      ∀ s ∈ st1.m_executableSegments, s.builtByScanner = true := by
  induction secs generalizing st g with
  | nil =>
    simp only [scanSections, Option.some.injEq] at h
    exact ⟨st, Or.inr ⟨g, h.symm⟩, hinv⟩
  | cons scn rest ih =>
    unfold scanSections at h
    split at h
    · cases h
    · rename_i s1 h1
      cases h
      obtain ⟨s, hs, k⟩ := scanSection_built _ _ _ _ _ _ _ hinv h1
      rcases hs with hs | ⟨_, hs⟩
      · cases hs; exact ⟨_, Or.inl rfl, k⟩
      · cases hs
    · rename_i s1 g1 h1
      obtain ⟨s, hs, k⟩ := scanSection_built _ _ _ _ _ _ _ hinv h1
      have hs1 : s = s1 := by
        rcases hs with hs | ⟨_, hs⟩
        · cases hs
        · cases hs; rfl
      subst hs1
      exact ih _ _ k h

/-- The object scan keeps `m_executableSegments` in the scanner's shape,
whatever it returns. -/
theorem parseOneElf_built (env : Env) (st st1 : ElfInstance) (b : Bool)
    (hinv : ∀ s ∈ st.m_executableSegments, s.builtByScanner = true)
    (h : parseOneElf env st = some (b, st1)) :
    ∀ s ∈ st1.m_executableSegments, s.builtByScanner = true := by
  unfold parseOneElf at h
  dsimp only at h
  split at h
  · cases h; exact hinv
  · rename_i fileData hread
    split at h
    · cases h; exact hinv
    · rename_i elf helf
      split at h
      · cases h; exact hinv
      · split at h
        · cases h
        · rename_i s2 hscan
          cases h
          obtain ⟨s, hs, k⟩ := scanSections_built _ _ _ _
            { st with m_addressVerifier := some (fileData.take EI_NIDENT) } _ _ hinv hscan
          rcases hs with hs | ⟨_, hs⟩
          · cases hs; exact k
          · cases hs
        · rename_i s2 g2 hscan
          obtain ⟨s, hs, k⟩ := scanSections_built _ _ _ _
            { st with m_addressVerifier := some (fileData.take EI_NIDENT) } _ _ hinv hscan
          have hs1 : s = s2 := by
            rcases hs with hs | ⟨_, hs⟩
            · cases hs
            · cases hs; rfl
          subst hs1
          split at h
          · cases h
          · rename_i st3 hgc
            cases h
            obtain ⟨_, rfl⟩ := collectGcnoFiles_frame env _ _ _ hgc
            exact k

/-- The line-table pass `parseOneDwarf` leaves `m_executableSegments` alone. -/
theorem parseOneDwarf_segments (env : Env) (st st2 : ElfInstance) (relocation : Nat)
    (b : Bool) (h : parseOneDwarf env st relocation = some (b, st2)) :
    st2.m_executableSegments = st.m_executableSegments := by
  unfold parseOneDwarf at h
  dsimp only at h
  split at h
  · cases h
  · rename_i dp1 st3 h3
    have e3 : st3.m_executableSegments = st.m_executableSegments := by
      unfold openByBuildId at h3
      split at h3
      · split at h3
        · cases h3
        · cases h3; rfl
      · cases h3; rfl
    have e4 : (openByDebugLink env st3 dp1).2.m_executableSegments
        = st3.m_executableSegments := by
      unfold openByDebugLink
      split
      · dsimp only
        split
        · rfl
        · rfl
      · rfl
    have e5 : st2.m_executableSegments
        = (openByDebugLink env st3 dp1).2.m_executableSegments := by
      generalize (openByDebugLink env st3 dp1).2 = st4 at h
      generalize (openByDebugLink env st3 dp1).1 = dp at h
      cases dp with
      | none =>
        unfold reportLines at h
        dsimp only at h
        split at h
        · cases h; rfl
        · split at h
          · cases h
          · rename_i st5 h5
            cases h
            obtain ⟨ib, calls, rfl⟩ := reportAddresses_frame env st4 _ _ h5
            rfl
      | some lines =>
        unfold reportLines at h
        dsimp only at h
        split at h
        · cases h
        · rename_i st5 h5
          obtain ⟨ib, calls, rfl⟩ := forEachLine_frame env st4 _ _ h5
          split at h
          · cases h; rfl
          · cases h; rfl
    rw [e5, e4, e3]

/-- The gcov pass leaves `m_executableSegments` alone. -/
theorem parseGcnoFiles_segments (env : Env) (st : ElfInstance) (relocation : Nat) :
    (parseGcnoFiles env st relocation).m_executableSegments = st.m_executableSegments := by
  have hbb : ∀ (bbs : List BasicBlockMapping) (s : ElfInstance),
      (reportBasicBlocks env relocation s bbs).m_executableSegments
        = s.m_executableSegments := by
    intro bbs
    induction bbs with
    | nil => intro s; rfl
    | cons c rest ih =>
      intro s
      unfold reportBasicBlocks
      rw [ih]
  have hone : ∀ (s : ElfInstance) (f : String),
      (parseOneGcno env s f relocation).m_executableSegments = s.m_executableSegments := by
    intro s f
    unfold parseOneGcno
    split
    · rfl
    · split
      · rfl
      · exact hbb _ _
  have hall : ∀ (files : List String) (s : ElfInstance),
      (parseGcnoFilesFrom env relocation s files).m_executableSegments
        = s.m_executableSegments := by
    intro files
    induction files with
    | nil => intro s; rfl
    | cons f rest ih =>
      intro s
      unfold parseGcnoFilesFrom
      rw [ih, hone]
  exact hall _ _

/-- The full parse `doParse` keeps `m_executableSegments` in the scanner's
shape. -/
theorem doParse_built (env : Env) (st st2 : ElfInstance) (relocation : Nat) (b : Bool)
    (hinv : ∀ s ∈ st.m_executableSegments, s.builtByScanner = true)
    (h : doParse env st relocation = some (b, st2)) :
    ∀ s ∈ st2.m_executableSegments, s.builtByScanner = true := by
  unfold doParse at h
  split at h
  · cases h; exact hinv
  · split at h
    · cases h
    · rename_i b1 st1 h1
      have k := parseOneElf_built env st st1 b1 hinv h1
      split at h
      · cases h
        rw [parseGcnoFiles_segments]
        exact k
      · split at h
        · cases h
        · rename_i b3 st3 h3
          cases h
          rw [parseOneDwarf_segments env st1 _ relocation _ h3]
          exact k

/-- The call `setMainFileRelocation` keeps `m_executableSegments` in the
scanner's shape. -/
theorem setMainFileRelocation_built (env : Env) (st st2 : ElfInstance) (relocation : Nat)
    (b : Bool) (hinv : ∀ s ∈ st.m_executableSegments, s.builtByScanner = true)
    (h : setMainFileRelocation env st relocation = some (b, st2)) :
    ∀ s ∈ st2.m_executableSegments, s.builtByScanner = true := by
  cases hs : st.m_elfIsShared with
  | true =>
    rw [setMainFileRelocation_of_shared env st relocation hs] at h
    exact doParse_built env st st2 relocation b hinv h
  | false =>
    unfold setMainFileRelocation at h
    rw [hs] at h
    cases h
    exact hinv

/-- The call `parse ()` keeps `m_executableSegments` in the scanner's shape. -/
theorem parse_built (env : Env) (st st2 : ElfInstance) (b : Bool)
    (hinv : ∀ s ∈ st.m_executableSegments, s.builtByScanner = true)
    (h : parse env st = some (b, st2)) :
    ∀ s ∈ st2.m_executableSegments, s.builtByScanner = true := by
  unfold parse at h
  dsimp only at h
  split at h
  · cases h
  · rename_i out st1 hr
    have k : ∀ s ∈ st1.m_executableSegments, s.builtByScanner = true := by
      split at hr
      · split at hr
        · split at hr
          · cases hr
          · rename_i b5 st5 h5
            cases hr
            exact setMainFileRelocation_built env st _ 0 b5 hinv h5
        · cases hr; exact hinv
      · exact doParse_built env st st1 0 out hinv hr
    cases h
    exact k

/-- C21: `verifierCall` records the call of the instruction-boundary verifier
that `addressIsValid` makes: with a recorded call `(data, size, offset)` the
result of `addressIsValid` is the verifier's answer on these arguments, and
without one the verifier plays no part.  In every state whose executable
segments have the shape the scanner builds (virtual base = physical base, byte
copy of `m_size` bytes), a recorded call is made for a segment of
`m_executableSegments` that contains the address, with that segment's data and
size, and its offset `addr - getBase ()` (on `uint64_t`) satisfies
`offset < size`, lies inside the byte copy, and `offset + getBase () = addr`.
The executable segments have this shape in every state the public calls
reach: `addFile` leaves none, and `parseOneElf`, `parse ()` and
`setMainFileRelocation` keep the shape, whatever they return; `onLine` does
not touch them. -/
theorem C21_verifier_offset_inside_segment :
    (∀ (env : Env) (st : ElfInstance) (addr ib : Nat) (d : Option (List Byte)) (sz off : Nat),
      verifierCall st addr = some (d, sz, off) →
      (addressIsValid env st addr ib).1 = env.verify st.m_addressVerifier d sz off) ∧
    (∀ (env : Env) (st : ElfInstance) (addr ib : Nat),
      verifierCall st addr = none →
      addressIsValid env st addr ib
        = (st.m_executableSegments.any (fun s => s.addressIsWithinSegment addr), ib)) ∧
    (∀ (st : ElfInstance) (addr : Nat) (d : Option (List Byte)) (sz off : Nat),
      (∀ s ∈ st.m_executableSegments, s.builtByScanner = true) →
      verifierCall st addr = some (d, sz, off) →
      off < sz ∧ (∀ bytes, d = some bytes → off < bytes.length) ∧
      ∃ s ∈ st.m_executableSegments, s.addressIsWithinSegment addr = true ∧
        d = s.getData ∧ sz = s.getSize ∧ off = u64sub addr s.getBase ∧
        off + s.getBase = addr) ∧
    (∀ (env : Env) (st st1 : ElfInstance) (filename : String)
      (data : Option (List phdr_data_segment)) (ok : Bool),
      addFile env st filename data = some (ok, st1) →
      ∀ s ∈ st1.m_executableSegments, s.builtByScanner = true) ∧
    (∀ (env : Env) (st st1 : ElfInstance) (b : Bool),
      (∀ s ∈ st.m_executableSegments, s.builtByScanner = true) →
      parseOneElf env st = some (b, st1) →
      ∀ s ∈ st1.m_executableSegments, s.builtByScanner = true) ∧
    (∀ (env : Env) (st st1 : ElfInstance) (b : Bool),
      (∀ s ∈ st.m_executableSegments, s.builtByScanner = true) →
      parse env st = some (b, st1) →
      ∀ s ∈ st1.m_executableSegments, s.builtByScanner = true) ∧
    (∀ (env : Env) (st st1 : ElfInstance) (relocation : Nat) (b : Bool),
      (∀ s ∈ st.m_executableSegments, s.builtByScanner = true) →
      setMainFileRelocation env st relocation = some (b, st1) →
      ∀ s ∈ st1.m_executableSegments, s.builtByScanner = true) ∧
    (∀ (env : Env) (st st1 : ElfInstance) (file : String) (lineNr addr : Nat),
      onLine env st file lineNr addr = some st1 →
      st1.m_executableSegments = st.m_executableSegments) := by
  refine ⟨?_, ?_, ?_, ?_, ?_, ?_, ?_, ?_⟩
  · intro env st addr ib d sz off h
    exact addressIsValidFrom_of_call env st _ addr ib d sz off h
  · intro env st addr ib h
    exact addressIsValidFrom_of_no_call env st _ addr ib h
  · intro st addr d sz off hinv h
    obtain ⟨s, hs, hw, hd, hsz, hoff⟩ := verifierCallFrom_some st _ addr d sz off h
    have hb := hinv s hs
    simp only [Segment.builtByScanner, Bool.and_eq_true, decide_eq_true_eq] at hb
    obtain ⟨h1, h2⟩ := Segment.offset_lt_size s addr hb.1 hw
    rw [← hoff, ← hsz] at h1
    rw [← hoff] at h2
    refine ⟨h1, ?_, s, hs, hw, hd, hsz, hoff, h2⟩
    intro bytes hbytes
    have hdata : s.m_data = some bytes := by
      rw [← hbytes, hd]; rfl
    have hlen := hb.2
    rw [hdata] at hlen
    simp only [decide_eq_true_eq] at hlen
    rw [hlen]
    have hsz2 : sz = s.m_size := hsz
    omega
  · intro env st st1 filename data ok h s hs
    rw [(addFile_segments env st st1 filename data ok h).1] at hs
    cases hs
  · intro env st st1 b hinv h
    exact parseOneElf_built env st st1 b hinv h
  · intro env st st1 b hinv h
    exact parse_built env st st1 b hinv h
  · intro env st st1 relocation b hinv h
    exact setMainFileRelocation_built env st st1 relocation b hinv h
  · intro env st st1 file lineNr addr h
    obtain ⟨ib, calls, rfl⟩ := onLine_frame env st st1 file lineNr addr h
    rfl

/-- Witness for C21: the sample binary scanned with address verification
enabled; its executable segment is `[0x1000, 0x1004)` with a byte copy of four
bytes, and for the address `0x1002` the verifier is called with offset 2. -/
theorem C21_verifier_offset_inside_segment_witness :
    verifierCall (scannedParser (scenarioEnv sampleElf (fun k => if k = "verify" then 1 else 0)
        none [] true)) 0x1002 = some (some [0x7f, 0x45, 0x4c, 0x46], 4, 2) ∧
    ((2 : Nat) < 4 ∧
      (∀ bytes, (some [0x7f, 0x45, 0x4c, 0x46] : Option (List Byte)) = some bytes →
        2 < bytes.length) ∧
      ∃ s ∈ (scannedParser (scenarioEnv sampleElf (fun k => if k = "verify" then 1 else 0)
          none [] true)).m_executableSegments,
        s.addressIsWithinSegment 0x1002 = true ∧
        (some [0x7f, 0x45, 0x4c, 0x46] : Option (List Byte)) = s.getData ∧ 4 = s.getSize ∧
        2 = u64sub 0x1002 s.getBase ∧ 2 + s.getBase = 0x1002) ∧
    (∀ s ∈ (scannedParser (scenarioEnv sampleElf (fun k => if k = "verify" then 1 else 0)
        none [] true)).m_executableSegments, s.builtByScanner = true) :=
  ⟨by decide,
   C21_verifier_offset_inside_segment.2.2.1
    (scannedParser (scenarioEnv sampleElf (fun k => if k = "verify" then 1 else 0) none [] true))
    0x1002 (some [0x7f, 0x45, 0x4c, 0x46]) 4 2 (by decide) (by decide),
   C21_verifier_offset_inside_segment.2.2.2.2.1
    (scenarioEnv sampleElf (fun k => if k = "verify" then 1 else 0) none [] true)
    (addedParser (scenarioEnv sampleElf (fun k => if k = "verify" then 1 else 0) none [] true))
    (scannedParser (scenarioEnv sampleElf (fun k => if k = "verify" then 1 else 0) none [] true))
    true (by decide) rfl⟩

/-! ## C13: what a call of `setMainFileRelocation` forwards -/

/-- Frame of `parseOneDwarf`: only the counter of invalid breakpoints, the
relocation, the listener calls, the list of opened paths and the status
messages can change. -/
theorem parseOneDwarf_frame (env : Env) (st st2 : ElfInstance) (relocation : Nat)
    (b : Bool) (h : parseOneDwarf env st relocation = some (b, st2)) :
    ∃ ib calls opens log, st2 = { st with
      m_invalidBreakpoints := ib, m_relocation := relocation, lineCalls := calls,
      dwarfOpens := opens, statusLog := log } := by
  unfold parseOneDwarf at h
  dsimp only at h
  split at h
  · cases h
  · rename_i dp1 st3 h3
    have e3 : ∃ opens, st3 = { st with
        m_invalidBreakpoints := 0, m_relocation := relocation, dwarfOpens := opens } := by
      unfold openByBuildId at h3
      split at h3
      · split at h3
        · cases h3
        · cases h3; exact ⟨_, rfl⟩
      · cases h3; exact ⟨_, rfl⟩
    obtain ⟨opens3, rfl⟩ := e3
    have e4 : ∃ opens, (openByDebugLink env { st with
        m_invalidBreakpoints := 0, m_relocation := relocation, dwarfOpens := opens3 } dp1).2
        = { st with
          m_invalidBreakpoints := 0, m_relocation := relocation, dwarfOpens := opens } := by
      unfold openByDebugLink
      split
      · dsimp only
        split
        · exact ⟨_, rfl⟩
        · exact ⟨_, rfl⟩
      · exact ⟨_, rfl⟩
    obtain ⟨opens4, e4⟩ := e4
    rw [e4] at h
    generalize (openByDebugLink env { st with
        m_invalidBreakpoints := 0, m_relocation := relocation, dwarfOpens := opens3 } dp1).1
      = dp at h
    cases dp with
    | none =>
      unfold reportLines at h
      dsimp only at h
      split at h
      · cases h; exact ⟨_, _, _, _, rfl⟩
      · split at h
        · cases h
        · rename_i st5 h5
          cases h
          obtain ⟨ib, calls, rfl⟩ := reportAddresses_frame env _ _ _ h5
          exact ⟨_, _, _, _, rfl⟩
    | some lines =>
      unfold reportLines at h
      dsimp only at h
      split at h
      · cases h
      · rename_i st5 h5
        obtain ⟨ib, calls, rfl⟩ := forEachLine_frame env _ _ _ h5
        split at h
        · cases h; exact ⟨_, _, _, _, rfl⟩
        · cases h; exact ⟨_, _, _, _, rfl⟩

/-- A pass through the loop body keeps the file type, the verification flag
and the verifier, and only appends to `m_executableSegments`. -/
theorem scanSection_appends (fileData : List Byte) (doScan setup : Bool) (scn : Elf_Scn)
    (st : ElfInstance) (g : List String) (r : ScanStep)
    (h : scanSection fileData doScan setup scn st g = some r) :
    ∃ st1, (r = .abort st1 ∨ ∃ g1, r = .next st1 g1) ∧
      st1.m_elfIsShared = st.m_elfIsShared ∧ st1.m_verifyAddresses = st.m_verifyAddresses ∧
      st1.m_addressVerifier = st.m_addressVerifier ∧
      ∃ more, st1.m_executableSegments = st.m_executableSegments ++ more := by
  cases r with
  | abort s =>
    refine ⟨s, Or.inl rfl, ?_⟩
    unfold scanSection at h
    split at h
    · cases h
    · split at h
      · cases h; exact ⟨rfl, rfl, rfl, [], by simp⟩
      · simp only [Option.bind_eq_some] at h
        obtain ⟨_, _, _, _, _, _, _, _, h5⟩ := h
        cases h5
  | next s g1 =>
    refine ⟨s, Or.inr ⟨g1, rfl⟩, ?_⟩
    obtain ⟨shdr, d_buf, st1, st2, st3, _, _, h1, h2, h3, h4⟩ :=
      scanSection_next _ _ _ _ _ _ _ _ h
    obtain ⟨_, rfl⟩ := scanSectionRodata_frame _ _ _ _ _ _ _ h1
    obtain ⟨_, _, rfl⟩ := scanSectionNote_some _ _ _ _ h2
    obtain ⟨_, _, rfl⟩ := scanSectionDebuglink_frame _ _ _ _ h3
    obtain ⟨segs, rfl, _⟩ := scanSectionSegment_eq _ _ _ _ _ h4
    exact ⟨rfl, rfl, rfl, segs, rfl⟩

/-- The section loop keeps the file type, the verification flag and the
verifier, and only appends to `m_executableSegments`, however it ends. -/
theorem scanSections_appends (fileData : List Byte) (doScan setup : Bool)
    (secs : List Elf_Scn) (st : ElfInstance) (g : List String) (r : ScanStep)
    (h : scanSections fileData doScan setup secs st g = some r) :
    ∃ st1, (r = .abort st1 ∨ ∃ g1, r = .next st1 g1) ∧
      st1.m_elfIsShared = st.m_elfIsShared ∧ st1.m_verifyAddresses = st.m_verifyAddresses ∧
      st1.m_addressVerifier = st.m_addressVerifier ∧
      ∃ more, st1.m_executableSegments = st.m_executableSegments ++ more := by
  induction secs generalizing st g with
  | nil =>
    simp only [scanSections, Option.some.injEq] at h
    exact ⟨st, Or.inr ⟨g, h.symm⟩, rfl, rfl, rfl, [], by simp⟩
  | cons scn rest ih =>
    unfold scanSections at h
    split at h
    · cases h
    · rename_i s1 h1
      cases h
      obtain ⟨s, hs, k⟩ := scanSection_appends _ _ _ _ _ _ _ h1
      rcases hs with hs | ⟨_, hs⟩
      · cases hs; exact ⟨_, Or.inl rfl, k⟩
      · cases hs
    · rename_i s1 g1 h1
      obtain ⟨s, hs, k1, k2, k3, m1, k4⟩ := scanSection_appends _ _ _ _ _ _ _ h1
      have hs1 : s = s1 := by
        rcases hs with hs | ⟨_, hs⟩
        · cases hs
        · cases hs; rfl
      subst hs1
      obtain ⟨s2, hs2, j1, j2, j3, m2, j4⟩ := ih _ _ h
      refine ⟨s2, hs2, j1.trans k1, j2.trans k2, j3.trans k3, m1 ++ m2, ?_⟩
      rw [j4, k4, List.append_assoc]

/-- The object scan keeps the file type and the verification flag, only appends
to `m_executableSegments`, and leaves as verifier the first bytes of the file
when the file can be read and opened as ELF, the verifier it found otherwise. -/
theorem parseOneElf_appends (env : Env) (st st1 : ElfInstance) (b : Bool)
    (h : parseOneElf env st = some (b, st1)) :
    st1.m_elfIsShared = st.m_elfIsShared ∧ st1.m_verifyAddresses = st.m_verifyAddresses ∧
    (∃ more, st1.m_executableSegments = st.m_executableSegments ++ more) ∧
    st1.m_addressVerifier =
      (match env.read_file st.m_filename with
       | none => st.m_addressVerifier
       | some fileData =>
         match env.elf_memory fileData with
         | none => st.m_addressVerifier
         | some _ => some (fileData.take EI_NIDENT)) := by
  unfold parseOneElf at h
  dsimp only at h
  split at h
  · rename_i hread
    cases h
    refine ⟨rfl, rfl, ⟨[], by simp⟩, ?_⟩
    simp only [hread]
  · rename_i fileData hread
    split at h
    · rename_i helf
      cases h
      refine ⟨rfl, rfl, ⟨[], by simp⟩, ?_⟩
      simp only [hread, helf]
    · rename_i elf helf
      split at h
      · cases h
        refine ⟨rfl, rfl, ⟨[], by simp⟩, ?_⟩
        rfl
      · split at h
        · cases h
        · rename_i s2 hscan
          cases h
          obtain ⟨s, hs, k1, k2, k3, k4⟩ := scanSections_appends _ _ _ _
            { st with m_addressVerifier := some (fileData.take EI_NIDENT) } _ _ hscan
          rcases hs with hs | ⟨_, hs⟩
          · cases hs
            refine ⟨k1, k2, k4, ?_⟩
            exact k3
          · cases hs
        · rename_i s2 g2 hscan
          obtain ⟨s, hs, k1, k2, k3, k4⟩ := scanSections_appends _ _ _ _
            { st with m_addressVerifier := some (fileData.take EI_NIDENT) } _ _ hscan
          have hs1 : s = s2 := by
            rcases hs with hs | ⟨_, hs⟩
            · cases hs
            · cases hs; rfl
          subst hs1
          split at h
          · cases h
          · rename_i st3 hgc
            cases h
            obtain ⟨_, rfl⟩ := collectGcnoFiles_frame env _ _ _ hgc
            refine ⟨k1, k2, k4, ?_⟩
            exact k3

/-- An address accepted with a list of executable segments is accepted with
every extension of the list, the verifier being the same. -/
theorem addressIsValidFrom_append (env : Env) (st st3 : ElfInstance) (segs more : List Segment)
    (addr : Nat) (h1 : st3.m_verifyAddresses = st.m_verifyAddresses)
    (h2 : st3.m_addressVerifier = st.m_addressVerifier)
    (h : (addressIsValidFrom env st segs addr 0).1 = true) :
    (addressIsValidFrom env st3 (segs ++ more) addr 0).1 = true := by
  rw [addressIsValidFrom_congr env st st3 _ _ _ h1 h2]
  induction segs with
  | nil => simp [addressIsValidFrom] at h
  | cons s rest ih =>
    rw [List.cons_append]
    unfold addressIsValidFrom at h ⊢
    by_cases hs : s.addressIsWithinSegment addr = true
    · simp only [hs, if_true] at h ⊢
      exact h
    · simp only [hs, Bool.false_eq_true, if_false] at h ⊢
      exact ih h

/-- One call of `setMainFileRelocation` on a position-independent file whose
own line table opens: it returns true, forwards every accepted entry with the
given relocation, and leaves the file type, the file name, the filter, the
registrations, the verification flag, the verifier and the executable
segments as the scan left them. -/
theorem setMainFileRelocation_opened (env : Env) (st st1 : ElfInstance) (r : Nat) (b : Bool)
    (lines : List LineEntry) (mangle : String → String)
    (hshared : st.m_elfIsShared = true)
    (hstat : env.lstat_ok st.m_filename = true)
    (hscan : parseOneElf env st = some (b, st1))
    (hg : env.keyAsInt "gcov" = 0 ∨ st1.m_gcnoFiles = [])
    (hopen : env.dwarf st.m_filename = some lines)
    (hf : st.m_filter = some mangle) :
    ∃ st2, setMainFileRelocation env st r = some (true, st2) ∧
      st2.lineCalls = st.lineCalls ++ lines.flatMap (fun e =>
        if (addressIsValid env st1 e.addr 0).1 then
          st.m_lineListeners.map (fun it =>
            (⟨it, mangle e.file, e.lineNr,
              (adjustAddressBySegment st1.m_curSegments e.addr + r) % 2 ^ 64⟩ : LineCall))
        else []) ∧
      st2.m_elfIsShared = true ∧ st2.m_filename = st.m_filename ∧
      st2.m_filter = some mangle ∧ st2.m_lineListeners = st.m_lineListeners ∧
      st2.m_verifyAddresses = st1.m_verifyAddresses ∧
      st2.m_addressVerifier = st1.m_addressVerifier ∧
      st2.m_executableSegments = st1.m_executableSegments := by
  obtain ⟨k1, k2, k3, k4⟩ := parseOneElf_keeps env st st1 b hscan
  obtain ⟨a1, a2, a3, a4⟩ := parseOneElf_appends env st st1 b hscan
  obtain ⟨st2, hp, hcalls⟩ := parseOneDwarf_opened env st1 r lines mangle
    (by rw [k4]; exact hopen) (by rw [k2]; exact hf)
  have hd : doParse env st r = some (true, st2) := by
    rw [doParse_dwarf env st st1 b r hstat hscan hg, hp]; rfl
  have hv : ∀ a, addressIsValid env { st1 with m_relocation := r } a 0
      = addressIsValid env st1 a 0 :=
    fun a => addressIsValidFrom_congr env st1 _ _ _ _ rfl rfl
  refine ⟨st2, ?_, ?_, ?_⟩
  · rw [setMainFileRelocation_of_shared env st r hshared, hd]
  · rw [hcalls]
    simp only [callsFor, hv]
    simp only [k1, k3]
  · obtain ⟨ib, calls, opens, log, rfl⟩ := parseOneDwarf_frame env st1 st2 r true hp
    exact ⟨a1.trans hshared, k4, k2.trans hf, k3, rfl, rfl, rfl⟩

/-- C13 (amended): `setMainFileRelocation` keeps no record of a parse.
(1) In every state in which the file last checked as main file is not
position-independent, `setMainFileRelocation (r)` returns true and leaves the
whole state as it was: no listener is called and the relocation used for
translation is unchanged, also for `r ≠ 0`.
(2) In every state in which that file is position-independent
(`m_elfIsShared`), whatever calls came before: when `lstat` succeeds, the
object scan returns, no gcov data is used and the line table of the file
itself opens, `setMainFileRelocation (r)` returns true and has called the
listeners for every entry of the table that `addressIsValid` accepts after the
scan, in table order, one call per registration, translated with relocation
`r`; and it leaves the file position-independent, with the same name, filter
and registrations.
(3) So a further call `setMainFileRelocation (r2)` on the state left by such a
call emits again: when its scan returns and no gcov data is used, it returns
true and appends the calls of every entry accepted after the second scan, and
every entry accepted after the first scan is accepted after the second, so
that every entry forwarded by the first call is forwarded once more. -/
theorem C13_setMainFileRelocation_emits_on_every_call :
    (∀ (env : Env) (st : ElfInstance) (r : Nat),
      st.m_elfIsShared = false → setMainFileRelocation env st r = some (true, st)) ∧
    (∀ (env : Env) (st st1 : ElfInstance) (r : Nat) (b : Bool) (lines : List LineEntry)
      (mangle : String → String),
      st.m_elfIsShared = true →
      env.lstat_ok st.m_filename = true →
      parseOneElf env st = some (b, st1) →
      (env.keyAsInt "gcov" = 0 ∨ st1.m_gcnoFiles = []) →
      env.dwarf st.m_filename = some lines →
      st.m_filter = some mangle →
      ∃ st2, setMainFileRelocation env st r = some (true, st2) ∧
        st2.lineCalls = st.lineCalls ++ lines.flatMap (fun e =>
          if (addressIsValid env st1 e.addr 0).1 then
            st.m_lineListeners.map (fun it =>
              (⟨it, mangle e.file, e.lineNr,
                (adjustAddressBySegment st1.m_curSegments e.addr + r) % 2 ^ 64⟩ : LineCall))
          else []) ∧
        st2.m_elfIsShared = true ∧ st2.m_filename = st.m_filename ∧
        st2.m_filter = some mangle ∧ st2.m_lineListeners = st.m_lineListeners) ∧
    (∀ (env : Env) (st st1 st2 st3 : ElfInstance) (r1 r2 : Nat) (b1 ok b3 : Bool)
      (lines : List LineEntry) (mangle : String → String),
      st.m_elfIsShared = true →
      env.lstat_ok st.m_filename = true →
      parseOneElf env st = some (b1, st1) →
      (env.keyAsInt "gcov" = 0 ∨ st1.m_gcnoFiles = []) →
      env.dwarf st.m_filename = some lines →
      st.m_filter = some mangle →
      setMainFileRelocation env st r1 = some (ok, st2) →
      parseOneElf env st2 = some (b3, st3) →
      (env.keyAsInt "gcov" = 0 ∨ st3.m_gcnoFiles = []) →
      ∃ st4, setMainFileRelocation env st2 r2 = some (true, st4) ∧
        st4.lineCalls = st2.lineCalls ++ lines.flatMap (fun e =>
          if (addressIsValid env st3 e.addr 0).1 then
            st.m_lineListeners.map (fun it =>
              (⟨it, mangle e.file, e.lineNr,
                (adjustAddressBySegment st3.m_curSegments e.addr + r2) % 2 ^ 64⟩ : LineCall))
          else []) ∧
        (∀ e ∈ lines, (addressIsValid env st1 e.addr 0).1 = true →
          (addressIsValid env st3 e.addr 0).1 = true)) := by
  refine ⟨?_, ?_, ?_⟩
  · intro env st r h
    unfold setMainFileRelocation
    rw [h]
    rfl
  · intro env st st1 r b lines mangle hshared hstat hscan hg hopen hf
    obtain ⟨st2, h1, h2, h3, h4, h5, h6, _⟩ :=
      setMainFileRelocation_opened env st st1 r b lines mangle hshared hstat hscan hg hopen hf
    exact ⟨st2, h1, h2, h3, h4, h5, h6⟩
  · intro env st st1 st2 st3 r1 r2 b1 ok b3 lines mangle hshared hstat hscan hg hopen hf
      hcall hscan3 hg3
    obtain ⟨st2', h1, _, h3, h4, h5, h6, h7, h8, h9⟩ :=
      setMainFileRelocation_opened env st st1 r1 b1 lines mangle hshared hstat hscan hg hopen hf
    rw [hcall] at h1
    cases h1
    obtain ⟨st4, c1, c2, _⟩ :=
      setMainFileRelocation_opened env st2 st3 r2 b3 lines mangle h3 (by rw [h4]; exact hstat)
        hscan3 hg3 (by rw [h4]; exact hopen) h5
    rw [h6] at c2
    refine ⟨st4, c1, c2, ?_⟩
    obtain ⟨_, a2, _, a4⟩ := parseOneElf_appends env st st1 b1 hscan
    obtain ⟨_, d2, ⟨more, d3⟩, d4⟩ := parseOneElf_appends env st2 st3 b3 hscan3
    have hver : st3.m_addressVerifier = st1.m_addressVerifier := by
      rw [d4, h4, h8]
      rw [a4]
      cases env.read_file st.m_filename with
      | none => rfl
      | some fileData =>
        dsimp only
        cases env.elf_memory fileData with
        | none => rfl
        | some elf => rfl
    intro e _ hacc
    unfold addressIsValid at hacc ⊢
    rw [d3, h9]
    exact addressIsValidFrom_append env st1 st3 _ more e.addr (d2.trans h7) hver hacc

/-- Witness for C13 (amended): the static sample binary with relocation
`0x1000`; and the position-independent sample binary after `addFile` and
`parse ()`, on which a first `setMainFileRelocation (0x4000)` forwards the
entry at `0x1000` as `0x5000`, and a second one forwards it once more. -/
theorem C13_setMainFileRelocation_emits_on_every_call_witness :
    setMainFileRelocation (sampleElfEnv sampleElf) (sampleScanned sampleElf) 0x1000
      = some (true, sampleScanned sampleElf) ∧
    (parsedParser pieTableEnv).lineCalls = [] ∧
    (∃ st2, setMainFileRelocation pieTableEnv (parsedParser pieTableEnv) 0x4000
        = some (true, st2) ∧
      st2.lineCalls = [⟨0, "main.c", 1, 0x5000⟩]) ∧
    (∃ st4, setMainFileRelocation pieTableEnv
        (afterRelocation pieTableEnv (parsedParser pieTableEnv) 0x4000) 0x4000
        = some (true, st4) ∧
      st4.lineCalls = [⟨0, "main.c", 1, 0x5000⟩, ⟨0, "main.c", 1, 0x5000⟩]) :=
  ⟨C13_setMainFileRelocation_emits_on_every_call.1 (sampleElfEnv sampleElf)
      (sampleScanned sampleElf) 0x1000 (by decide),
   by decide,
   (C13_setMainFileRelocation_emits_on_every_call.2.1 pieTableEnv (parsedParser pieTableEnv)
      (afterScan pieTableEnv (parsedParser pieTableEnv)) 0x4000 true
      [⟨"main.c", 1, 0x1000⟩, ⟨"main.c", 2, 0x2000⟩] (fun path => path)
      (by decide) (by decide) rfl (Or.inl rfl) rfl rfl).imp
      (fun _ h => ⟨h.1, h.2.1.trans (by decide)⟩),
   (C13_setMainFileRelocation_emits_on_every_call.2.2 pieTableEnv (parsedParser pieTableEnv)
      (afterScan pieTableEnv (parsedParser pieTableEnv))
      (afterRelocation pieTableEnv (parsedParser pieTableEnv) 0x4000)
      (afterScan pieTableEnv (afterRelocation pieTableEnv (parsedParser pieTableEnv) 0x4000))
      0x4000 0x4000 true true true
      [⟨"main.c", 1, 0x1000⟩, ⟨"main.c", 2, 0x2000⟩] (fun path => path)
      (by decide) (by decide) rfl (Or.inl rfl) rfl rfl rfl rfl (Or.inl rfl)).imp
      (fun _ h => ⟨h.1, h.2.1.trans (by decide)⟩)⟩

/-- Scope of C13 (amended), part (3): the line table is found on the build-id
path and not in the file itself.  `m_buildId` is cleared by `addFile` only, and
every scan appends to it: after `addFile`, `parse ()` and a first
`setMainFileRelocation (0)` the build-id is "deadbeef" and the entry has been
forwarded; the second `setMainFileRelocation (0)` scans again, looks for the
path of "deadbeefdeadbeef", finds no table and forwards nothing more. -/
theorem setMainFileRelocation_second_call_build_id_path :
    after (some (true, afterRelocation buildIdTableEnv (parsedParser buildIdTableEnv) 0))
      (fun st => (st.m_buildId, st.lineCalls))
      = some ("deadbeef", [⟨0, "main.c", 1, 0x1000⟩]) ∧
    after (setMainFileRelocation buildIdTableEnv
        (afterRelocation buildIdTableEnv (parsedParser buildIdTableEnv) 0) 0)
      (fun st => (st.m_buildId, st.lineCalls, st.dwarfOpens.drop 3))
      = some ("deadbeefdeadbeef", [⟨0, "main.c", 1, 0x1000⟩],
          ["/bin/app", "/usr/lib/debug/.build-id/de/adbeefdeadbeef.debug"]) := by
  refine ⟨by decide, by decide⟩

end Kcov
